import Mathlib

/-!
# BookReader: reduction factors, view modes and the current index

A shallow embedding of parts of `src/js/BookReader.js`.

Numbers: JavaScript numbers that carry a zoom ratio (`reduce`) are embedded as
rationals, page indices as integers, mode constants as naturals.  A JavaScript
`undefined` result is `none`; a `throw` is `Except.error`.
-/

namespace BookReader

/-! ## Data model -/

/-- The `autofit` tag of a reduction factor: `'auto'`, `'height'`, `'width'`,
or anything else (absent, `null`, `'none'`). -/
inductive Autofit where
  | auto
  | height
  | width
  | other
  deriving DecidableEq, Repr

/-- A `ReductionFactor` object `{reduce, autofit}`. -/
structure ReductionFactor where
  reduce : ℚ
  autofit : Autofit
  deriving DecidableEq

/-- The `direction` argument of `nextReduce`:
`'in' | 'out' | 'auto' | 'height' | 'width'`. -/
inductive Direction where
  | zoomIn
  | zoomOut
  | auto
  | height
  | width
  deriving DecidableEq, Repr

/-- The tag a `'height'` or `'width'` direction is compared with
(`rf.autofit == direction`). -/
def Direction.toAutofit : Direction → Autofit
  | Direction.auto => Autofit.auto
  | Direction.height => Autofit.height
  | Direction.width => Autofit.width
  | Direction.zoomIn => Autofit.other
  | Direction.zoomOut => Autofit.other

/-- A JavaScript value held where a mode number is expected: `null`, `undefined`
or a number. -/
inductive ModeVal where
  | null
  | undefined
  | num (n : Nat)
  deriving DecidableEq, Repr

/-- Errors thrown by the embedded code. -/
inductive JsError where
  /-- Reading a property of `undefined` (`reductionFactors[0].reduce` on an empty array). -/
  | typeError
  /-- The `throw` of `currentIndex`, carrying `this.mode`. -/
  | unimplementedMode (mode : ModeVal)
  /-- Call-stack exhaustion of a recursion that does not end. -/
  | rangeError
  deriving DecidableEq, Repr

/-! ## `quantizeReduce` -/

/-- Rounding to the nearest integer, a tie going to the even one. -/
def roundHalfEven (x : ℚ) : Int :=
  let lower := ⌊x⌋
  if x - lower < 1 / 2 then lower
  else if 1 / 2 < x - lower then lower + 1
  else if lower % 2 = 0 then lower else lower + 1

/-- The result of an arithmetic operation on doubles whose exact value is `x`: the
double nearest to `x`, a tie going to the even significand.  Doubles are held as
the rationals they denote.  The spacing of the doubles around `x` is
`2 ^ (e - 52)` with `e` the binary exponent of `x`, not below `-1022`; a result of
magnitude `2 ^ 1024` or more is `Infinity`, for which `2 ^ 1024`, a bound above
every double, stands, with the sign of `x`. -/
def roundDouble (x : ℚ) : ℚ :=
  if x = 0 then 0
  else
    let exponent : Int := max (Int.log 2 |x|) (-1022)
    let ulp : ℚ := 2 ^ (exponent - 52)
    let rounded : ℚ := (roundHalfEven (x / ulp) : ℚ) * ulp
    if 2 ^ 1024 ≤ |rounded| then (if 0 < x then 2 ^ 1024 else -2 ^ 1024) else rounded

/-- The value of `Math.abs(a - b)` on doubles: the subtraction rounds,
`Math.abs` does not. -/
def absDifference (a b : ℚ) : ℚ :=
  |roundDouble (a - b)|

/-- The `for` loop of `quantizeReduce`, over the factors from index 1 on, carrying
`quantized` and `distance`. -/
def quantizeLoop (reduce : ℚ) : List ReductionFactor → ℚ → ℚ → ℚ
  | [], quantized, _ => quantized
  | f :: rest, quantized, distance =>
    let newDistance := absDifference reduce f.reduce
    if newDistance < distance then quantizeLoop reduce rest f.reduce newDistance
    else quantizeLoop reduce rest quantized distance

/-- `BookReader.prototype.quantizeReduce`. On an empty array
`reductionFactors[0].reduce` throws. -/
def quantizeReduce (reduce : ℚ) (reductionFactors : List ReductionFactor) : Except JsError ℚ :=
  match reductionFactors with
  | [] => Except.error JsError.typeError
  | f0 :: rest => Except.ok (quantizeLoop reduce rest f0.reduce (absDifference reduce f0.reduce))

/-! ## `nextReduce` -/

/-- The `'in'` loop: `for (i = 1; i < length; i++) if (rf[i].reduce < currentReduce) newReduceIndex = i`.
The list is the part of the array from index `i` on. -/
def nextReduceInLoop (currentReduce : ℚ) : List ReductionFactor → Nat → Nat → Nat
  | [], _, newReduceIndex => newReduceIndex
  | f :: rest, i, newReduceIndex =>
    if f.reduce < currentReduce then nextReduceInLoop currentReduce rest (i + 1) i
    else nextReduceInLoop currentReduce rest (i + 1) newReduceIndex

/-- The `'out'` loop: `for (i = lastIndex; i >= 0; i--) if (rf[i].reduce > currentReduce) newReduceIndex = i`.
The first natural argument is `i + 1`, the number of iterations left. -/
def nextReduceOutLoop (currentReduce : ℚ) (reductionFactors : List ReductionFactor) :
    Nat → Nat → Nat
  | 0, newReduceIndex => newReduceIndex
  | i + 1, newReduceIndex =>
    match reductionFactors[i]? with
    | some f =>
      if f.reduce > currentReduce then nextReduceOutLoop currentReduce reductionFactors i i
      else nextReduceOutLoop currentReduce reductionFactors i newReduceIndex
    | none => nextReduceOutLoop currentReduce reductionFactors i newReduceIndex

/-- The `'auto'` loop over `candidates`, carrying `choice` (`none` is `null`). -/
def nextReduceAutoLoop : List ReductionFactor → Option ReductionFactor → Option ReductionFactor
  | [], choice => choice
  | cand :: rest, none => nextReduceAutoLoop rest (some cand)
  | cand :: rest, some choice =>
    if choice.reduce < cand.reduce then nextReduceAutoLoop rest (some cand)
    else nextReduceAutoLoop rest (some choice)

/-- `BookReader.prototype.nextReduce`. `none` is the `undefined` read from an
empty array. -/
def nextReduce (currentReduce : ℚ) (direction : Direction)
    (reductionFactors : List ReductionFactor) : Option ReductionFactor :=
  match direction with
  | Direction.zoomIn =>
    reductionFactors[nextReduceInLoop currentReduce reductionFactors.tail 1 0]?
  | Direction.zoomOut =>
    let lastIndex := reductionFactors.length - 1
    reductionFactors[nextReduceOutLoop currentReduce reductionFactors
      reductionFactors.length lastIndex]?
  | Direction.auto =>
    match reductionFactors.find? (fun rf => rf.autofit == Autofit.auto) with
    | some autoMatch => some autoMatch
    | none =>
      let candidates := reductionFactors.filter
        (fun rf => rf.autofit == Autofit.height || rf.autofit == Autofit.width)
      match nextReduceAutoLoop candidates none with
      | some choice => some choice
      | none => reductionFactors[0]?
  | Direction.height =>
    match reductionFactors.find? (fun rf => rf.autofit == Autofit.height) with
    | some m => some m
    | none => reductionFactors[0]?
  | Direction.width =>
    match reductionFactors.find? (fun rf => rf.autofit == Autofit.width) with
    | some m => some m
    | none => reductionFactors[0]?

/-- Iterating `c := nextReduce(c, 'in', F).reduce`, `n` times from `c`.  Reading
`.reduce` of an `undefined` result throws (`none`). -/
def zoomInIterate (reductionFactors : List ReductionFactor) : Nat → ℚ → Option ℚ
  | 0, c => some c
  | n + 1, c =>
    match nextReduce c Direction.zoomIn reductionFactors with
    | some f => zoomInIterate reductionFactors n f.reduce
    | none => none

/-! ## Viewer state -/

/-- `BookReader.constMode1up`. -/
def constMode1up : Nat := 1

/-- `BookReader.constMode2up`. -/
def constMode2up : Nat := 2

/-- `BookReader.constModeThumb`. -/
def constModeThumb : Nat := 3

/-- Events passed to `trigger`. `pageViewSelected mode` is
`eventNames[mode + 'PageViewSelected']`. -/
inductive Event where
  | stop
  | fragmentChange
  | pageViewSelected (mode : Nat)
  | pageChanged
  deriving DecidableEq, Repr

/-- The readings of `this.refs.$brContainer` that the embedded methods use:
`prop('scrollTop')`, `scrollLeft()`, `prop('scrollWidth')`, `height()`,
`prop('clientHeight')` and `prop('clientWidth')`. -/
structure Container where
  scrollTop : Int
  scrollLeft : Int
  scrollWidth : Int
  height : Int
  clientHeight : Int
  clientWidth : Int
  deriving DecidableEq

/-- The `twoPage` object, as far as the embedded methods read it. -/
structure TwoPage where
  currentIndexL : Int
  currentIndexR : Int
  deriving DecidableEq

/-- A value of `this.prefetchedImgs`, a jQuery page container.  `reduce` is the
`reduce` property of the object itself, which `pruneUnusedImgs` reads
(`this.prefetchedImgs[key]?.reduce`, `none` when it is `undefined`);
`elementReduce` is the `reduce` property of its element `[0]`, where
`prefetchImg` stores the reduce of the image; `attached` tells whether the page
container is in the document. -/
structure PrefetchedImg where
  reduce : Option ℚ
  elementReduce : Option ℚ
  attached : Bool
  deriving DecidableEq

/-- The fields of the `BookReader` instance that the embedded methods read or
write.  `numLeafs` is `this._models.book.getNumLeafs()`, `initComplete` is
`this.init.initComplete`, `windowWidth` is `$(window).width()`,
`onePageReductionFactors` is `this.onePage.reductionFactors`, and `events` lists
the events triggered so far, oldest first.  `displayedIndices` is `none` when the
field is falsy, `hasInitialSearchTerm` tells whether `options.initialSearchTerm`
is truthy, `prefetchedImgs` lists the object by key, `container` holds the
readings of `this.refs.$brContainer`, and `pageViewWidth` is
`this.refs.$brPageViewEl.width()`. -/
structure State where
  mode : ModeVal
  prevReadMode : ModeVal
  reduce : ℚ
  pageScale : ℚ
  firstIndex : Int
  initComplete : Bool
  numLeafs : Nat
  suppressFragmentChange : Bool
  enableSearch : Bool
  reductionFactors : List ReductionFactor
  onePageReductionFactors : List ReductionFactor
  ui : String
  enableMobileNav : Bool
  isFullscreenActive : Bool
  windowWidth : Int
  onePageMinBreakpoint : Int
  events : List Event
  twoPage : TwoPage
  displayedIndices : Option (List Int)
  displayedRows : List Nat
  thumbWidth : Nat
  thumbPadding : Nat
  thumbRowBuffer : Nat
  padding : Nat
  animating : Bool
  hasInitialSearchTerm : Bool
  prefetchedImgs : List (Int × PrefetchedImg)
  container : Container
  thumbColumns : Nat
  pageViewWidth : Int
  deriving DecidableEq

/-- The methods `switchMode` calls, as state transformers.  The bodies of the
one-page, two-page, search and text-selection methods are not embedded here;
`prepareThumbnailView` is embedded below, after `drawLeafsThumbnail`, which it
calls and which can throw. -/
structure Hooks where
  removeSearchHilites : State → State
  onePageCalculateReductionFactors : State → State
  prepareOnePageView : State → State
  prepareThumbnailView : State → Except JsError State
  setSpreadIndices : State → State
  twoPageCalculateReductionFactors : State → State
  prepareTwoPageView : State → State
  twoPageCenterView : State → State
  stopPageFlip : State → State

/-- The options object of `switchMode`, each defaulting to `false`. -/
structure SwitchModeOptions where
  suppressFragmentChange : Bool
  init : Bool
  pageFound : Bool

/-- The `params` object, as far as `getInitialMode` reads it; an absent `mode` is
`ModeVal.undefined`. -/
structure Params where
  mode : ModeVal

/-- `BookReader.prototype.trigger`: records the event. -/
def trigger (s : State) (e : Event) : State :=
  { s with events := s.events ++ [e] }

/-- `BookReader.prototype.canSwitchToMode`. -/
def canSwitchToMode (s : State) (mode : ModeVal) : Bool :=
  if mode = ModeVal.num constMode2up ∨ mode = ModeVal.num constModeThumb then
    if s.numLeafs < 2 then false else true
  else true

/-- `BookReader.prototype.getInitialMode`. -/
def getInitialMode (s : State) (params : Params) : ModeVal :=
  let nextMode :=
    if params.mode ≠ ModeVal.undefined then params.mode
    else if s.ui = "full" ∧ s.enableMobileNav = true ∧ s.isFullscreenActive = true
        ∧ s.windowWidth ≤ s.onePageMinBreakpoint then
      ModeVal.num constMode1up
    else ModeVal.num constMode2up
  if canSwitchToMode s nextMode then nextMode else ModeVal.num constMode1up

/-- `BookReader.prototype.getPrevReadMode`; falling off the end returns
`undefined`. -/
def getPrevReadMode (s : State) (mode : ModeVal) : ModeVal :=
  if mode = ModeVal.num constMode1up ∨ mode = ModeVal.num constMode2up then mode
  else if s.prevReadMode = ModeVal.null then ModeVal.num constMode1up
  else ModeVal.undefined

/-- The part of `switchMode` after the checks that may return early. -/
def switchModeBody (h : Hooks) (s : State) (mode : Nat) (options : SwitchModeOptions) :
    Except JsError State :=
  let s := trigger s Event.stop
  let s := if s.enableSearch then h.removeSearchHilites s else s
  let s := { s with prevReadMode := getPrevReadMode s s.mode }
  let s := { s with mode := ModeVal.num mode }
  let s := if s.pageScale ≠ s.reduce then { s with reduce := s.pageScale } else s
  let viewed : Except JsError State :=
    if constMode1up = mode then
      let s := h.onePageCalculateReductionFactors s
      match quantizeReduce s.reduce s.onePageReductionFactors with
      | Except.error e => Except.error e
      | Except.ok q => Except.ok (h.prepareOnePageView { s with reduce := q })
    else if constModeThumb = mode then
      match quantizeReduce s.reduce s.reductionFactors with
      | Except.error e => Except.error e
      | Except.ok q => h.prepareThumbnailView { s with reduce := q }
    else
      let s := if options.init ∨ ¬ options.pageFound then h.setSpreadIndices s else s
      let s := h.twoPageCalculateReductionFactors s
      let s := h.prepareTwoPageView s
      Except.ok (h.twoPageCenterView s)
  match viewed with
  | Except.error e => Except.error e
  | Except.ok s =>
    let s := if ¬ (s.suppressFragmentChange ∨ options.suppressFragmentChange)
      then trigger s Event.fragmentChange else s
    let s := trigger s (Event.pageViewSelected mode)
    Except.ok (h.stopPageFlip s)

/-- `BookReader.prototype.switchMode`: the checks are skipped before `init()` is
complete. -/
def switchMode (h : Hooks) (s : State) (mode : Nat) (options : SwitchModeOptions) :
    Except JsError State :=
  if s.initComplete then
    if ModeVal.num mode = s.mode then Except.ok s
    else if ¬ canSwitchToMode s (ModeVal.num mode) then Except.ok s
    else switchModeBody h s mode options
  else switchModeBody h s mode options

/-- The state of `switchMode` when it reaches the test `this.constMode1up == mode`:
`stop` was triggered, the search highlights removed, `prevReadMode` and `mode`
assigned and the scale reinstated. -/
def switchModeEnter (h : Hooks) (s : State) (mode : Nat) : State :=
  let s := trigger s Event.stop
  let s := if s.enableSearch then h.removeSearchHilites s else s
  let s := { s with prevReadMode := getPrevReadMode s s.mode }
  let s := { s with mode := ModeVal.num mode }
  if s.pageScale ≠ s.reduce then { s with reduce := s.pageScale } else s

/-- The end of `switchMode`, from the `fragmentChange` test on, run on the state
in which the view of the new mode was prepared. -/
def switchModeFinish (h : Hooks) (s : State) (mode : Nat) (options : SwitchModeOptions) :
    State :=
  let s := if ¬ (s.suppressFragmentChange ∨ options.suppressFragmentChange)
    then trigger s Event.fragmentChange else s
  let s := trigger s (Event.pageViewSelected mode)
  h.stopPageFlip s

/-- A sequence of `switchMode` calls, each made on the state the previous one
left; a call that throws ends the sequence. -/
def switchModeRun (h : Hooks) : State → List (Nat × SwitchModeOptions) → Except JsError State
  | s, [] => Except.ok s
  | s, call :: rest =>
    match switchMode h s call.1 call.2 with
    | Except.error e => Except.error e
    | Except.ok s => switchModeRun h s rest

/-- A one-leaf book after `init()`, in one-page mode. -/
def shortBook : State :=
  { mode := ModeVal.num constMode1up
    prevReadMode := ModeVal.null
    reduce := 1
    pageScale := 1
    firstIndex := 0
    initComplete := true
    numLeafs := 1
    suppressFragmentChange := false
    enableSearch := false
    reductionFactors := [⟨1 / 2, Autofit.other⟩, ⟨1, Autofit.other⟩, ⟨2, Autofit.other⟩]
    onePageReductionFactors := []
    ui := "full"
    enableMobileNav := false
    isFullscreenActive := false
    windowWidth := 1024
    onePageMinBreakpoint := 800
    events := []
    twoPage := ⟨-1, 0⟩
    displayedIndices := some []
    displayedRows := []
    thumbWidth := 100
    thumbPadding := 10
    thumbRowBuffer := 2
    padding := 10
    animating := false
    hasInitialSearchTerm := false
    prefetchedImgs := []
    container := ⟨0, 0, 1000, 600, 600, 1000⟩
    thumbColumns := 6
    pageViewWidth := 1000 }

/-- Hooks that leave the state as it is. -/
def idHooks : Hooks :=
  { removeSearchHilites := id
    onePageCalculateReductionFactors := id
    prepareOnePageView := id
    prepareThumbnailView := Except.ok
    setSpreadIndices := id
    twoPageCalculateReductionFactors := id
    prepareTwoPageView := id
    twoPageCenterView := id
    stopPageFlip := id }

/-- Modelled from the spec: `utils.clamp` of `BookReader/utils.js`, which is not
among the sources; "clamp to the nearest valid index" is taken as
`Math.min(Math.max(value, min), max)`.  The call site in `currentIndex` is
commented "Only allow indices that are actually present in book". -/
def clamp (value min max : Int) : Int :=
  Min.min (Max.max value min) max

/-- `BookReader.prototype.currentIndex`. -/
def currentIndex (s : State) : Except JsError Int :=
  if s.mode = ModeVal.num constMode1up ∨ s.mode = ModeVal.num constModeThumb then
    Except.ok s.firstIndex
  else if s.mode = ModeVal.num constMode2up then
    Except.ok (clamp s.firstIndex 0 ((s.numLeafs : Int) - 1))
  else
    Except.error (JsError.unimplementedMode s.mode)

/-! ## Book model -/

/-- The fields of a `PageModel` (`BookReader/BookModel.js`, which is not among
the sources) that the embedded methods read.  `findNext` is the `index` of
`page.findNext({ combineConsecutiveUnviewables: true })`, `none` when that call
yields no page.  Page widths are positive. -/
structure PageModel where
  index : Int
  width : Nat
  height : Nat
  isViewable : Bool
  unviewablesStart : Int
  findNext : Option Int
  deriving DecidableEq

/-- The methods of `this._models.book` that the embedded methods call, taken as
given: `getPage(index)` (`none` when it yields `undefined`), `getPageWidth`,
`getPageHeight`, the sequence produced by
`pagesIterator({ combineConsecutiveUnviewables: true })`, and `parsePageString`
(`none` when it yields `undefined`). -/
structure BookModel where
  getPage : Int → Option PageModel
  getPageWidth : Int → Nat
  getPageHeight : Int → Nat
  pagesIterator : List PageModel
  parsePageString : String → Option Int

/-- The methods called by the navigation code whose bodies are not embedded
here.  The two flips, the two non-thumbnail `drawLeafs` variants and
`onePageGetPageTop` belong to the one-page and two-page modes; `setScrollTop`
stands for the jQuery calls `.scrollTop(v)` and `.prop('scrollTop', v)` on the
container, `animate` for `.stop(true).animate(...)` with target `scrollTop` and,
where given, `scrollLeft`.  Calls that touch only the toolbar, the navbar or page
elements are not represented. -/
structure NavHooks where
  flipBackToIndex : State → Int → State
  flipFwdToIndex : State → Int → State
  drawLeafsOnePage : State → State
  drawLeafsTwoPage : State → State
  onePageGetPageTop : State → Int → ℚ
  setScrollTop : Container → ℚ → Container
  animate : Container → ℚ → Option ℚ → Container

/-- The options object of `updateFirstIndex`. -/
structure UpdateFirstIndexOptions where
  suppressFragmentChange : Bool

/-- `BookReader.prototype.updateFirstIndex`. -/
def updateFirstIndex (s : State) (index : Int) (options : UpdateFirstIndexOptions) : State :=
  let suppressFragmentChange :=
    if s.firstIndex = index then true else options.suppressFragmentChange
  let s := { s with firstIndex := index }
  let s := if ¬ (s.suppressFragmentChange ∨ suppressFragmentChange)
    then trigger s Event.fragmentChange else s
  let s := if s.hasInitialSearchTerm ∧ ¬ suppressFragmentChange
    then { s with suppressFragmentChange := false } else s
  trigger s Event.pageChanged

/-! ## Thumbnail view -/

/-- An element of `leafMap[row].leafs`. -/
structure Leaf where
  num : Int
  left : Nat
  deriving DecidableEq

/-- An element of `leafMap`. -/
structure Row where
  leafs : List Leaf
  height : Nat
  top : Nat
  deriving DecidableEq

/-- The array `leafMap`; `none` is an index that was never assigned. -/
abbrev LeafMap := List (Option Row)

/-- The row `leafMap[i]` when it is truthy. -/
def LeafMap.row (leafMap : LeafMap) (i : Nat) : Option Row :=
  (leafMap[i]?).join

/-- The assignment `leafMap[i] = row`, which extends the array when `i` is not below
its length. -/
def LeafMap.setRow (leafMap : LeafMap) (i : Nat) (row : Row) : LeafMap :=
  if i < leafMap.length then leafMap.set i (some row)
  else leafMap ++ List.replicate (i - leafMap.length) none ++ [some row]

/-- The variables of the first loop of `drawLeafsThumbnail`. -/
structure LeafMapLoop where
  rightPos : Nat
  bottomPos : Nat
  maxRight : Nat
  currentRow : Nat
  leafIndex : Nat
  leafMap : LeafMap
  seekTop : Option Int
  deriving DecidableEq

/-- The height of a thumbnail: `floor((page.height * this.thumbWidth) / page.width)`. -/
def thumbLeafHeight (thumbWidth : Nat) (page : PageModel) : Nat :=
  (page.height * thumbWidth) / page.width

/-- The row `leafMap[currentRow]` after one page is placed in it: the row is
created when absent (`leafs = []`, `height = 0`, `top = 0`), the leaf
`{num, left}` is stored at `leafs[leafIndex]`, which appends, `leafIndex` being
the length of `leafs`, and `height` is raised to the page's thumbnail height. -/
def placedRow (thumbWidth : Nat) (existing : Option Row) (rightPos : Nat) (page : PageModel) :
    Row :=
  let row : Row :=
    match existing with
    | some r => r
    | none => ⟨[], 0, 0⟩
  let row : Row := { row with leafs := row.leafs ++ [⟨page.index, rightPos⟩] }
  let leafHeight := thumbLeafHeight thumbWidth page
  if leafHeight > row.height then { row with height := leafHeight } else row

/-- The body of the first loop of `drawLeafsThumbnail` for one page of the
iterator. -/
def leafMapStep (viewWidth : Int) (thumbWidth thumbPadding : Nat) (seekIndex : Option Int)
    (st : LeafMapLoop) (page : PageModel) : LeafMapLoop :=
  let leafWidth := thumbWidth
  let st : LeafMapLoop :=
    if ((st.rightPos + (leafWidth + thumbPadding) : Nat) : Int) > viewWidth then
      { st with currentRow := st.currentRow + 1, rightPos := 0, leafIndex := 0 }
    else st
  let row : Row := placedRow thumbWidth (st.leafMap.row st.currentRow) st.rightPos page
  let bottomPos :=
    if st.leafIndex = 0 then st.bottomPos + (thumbPadding + row.height) else st.bottomPos
  let rightPos := st.rightPos + (leafWidth + thumbPadding)
  let maxRight := if rightPos > st.maxRight then rightPos else st.maxRight
  let seekTop : Option Int :=
    if some page.index = seekIndex then
      some ((bottomPos : Int) - (thumbPadding : Int) - (row.height : Int))
    else st.seekTop
  { rightPos := rightPos
    bottomPos := bottomPos
    maxRight := maxRight
    currentRow := st.currentRow
    leafIndex := st.leafIndex + 1
    leafMap := st.leafMap.setRow st.currentRow row
    seekTop := seekTop }

/-- The first loop of `drawLeafsThumbnail`: the position of every thumbnail. -/
def buildLeafMap (viewWidth : Int) (thumbWidth thumbPadding : Nat) (seekIndex : Option Int)
    (pages : List PageModel) : LeafMapLoop :=
  pages.foldl (leafMapStep viewWidth thumbWidth thumbPadding seekIndex) ⟨0, 0, 0, 0, 0, [], none⟩

/-- The variables of the second loop of `drawLeafsThumbnail`; `leafMap` holds the
rows visited so far, with `top` set. -/
structure ViewLoop where
  leafTop : Nat
  leafBottom : Nat
  rowsToDisplay : List Nat
  leastVisible : Int
  mostVisible : Int
  leafMap : LeafMap
  deriving DecidableEq

/-- The test `topInView || bottomInView || middleInView` of the second loop of
`drawLeafsThumbnail`, for a row from `leafTop` to `leafBottom`. -/
def rowInView (scrollTop scrollBottom : Int) (leafTop leafBottom : Nat) : Bool :=
  let topInView : Bool := decide ((leafTop : Int) ≥ scrollTop ∧ (leafTop : Int) ≤ scrollBottom)
  let bottomInView : Bool :=
    decide ((leafBottom : Int) ≥ scrollTop ∧ (leafBottom : Int) ≤ scrollBottom)
  let middleInView : Bool :=
    decide ((leafTop : Int) ≤ scrollTop ∧ (leafBottom : Int) ≥ scrollBottom)
  topInView || bottomInView || middleInView

/-- The second loop of `drawLeafsThumbnail` ("Determine the thumbnails in view"),
over the rows from index `i` on.  Reading `.num` of a leaf of a row without leafs
throws. -/
def viewLoop (scrollTop scrollBottom : Int) (thumbPadding : Nat) :
    List (Option Row) → Nat → ViewLoop → Except JsError ViewLoop
  | [], _, st => Except.ok st
  | none :: rest, i, st =>
    viewLoop scrollTop scrollBottom thumbPadding rest (i + 1)
      { st with leafMap := st.leafMap ++ [none] }
  | some row :: rest, i, st =>
    let leafTop := st.leafTop
    let leafBottom := st.leafBottom + (thumbPadding + row.height)
    let shown : Except JsError (List Nat × Int × Int) :=
      if rowInView scrollTop scrollBottom leafTop leafBottom then
        match row.leafs.head?, row.leafs.getLast? with
        | some first, some last =>
          Except.ok (st.rowsToDisplay ++ [i],
            if first.num < st.leastVisible then first.num else st.leastVisible,
            if last.num > st.mostVisible then last.num else st.mostVisible)
        | _, _ => Except.error JsError.typeError
      else Except.ok (st.rowsToDisplay, st.leastVisible, st.mostVisible)
    match shown with
    | Except.error e => Except.error e
    | Except.ok (rows, least, most) =>
      let row : Row := if leafTop > row.top then { row with top := leafTop } else row
      viewLoop scrollTop scrollBottom thumbPadding rest (i + 1)
        { leafTop := leafBottom
          leafBottom := leafBottom
          rowsToDisplay := rows
          leastVisible := least
          mostVisible := most
          leafMap := st.leafMap ++ [some row] }

/-- `Array.prototype.sort()` without a comparator, on row numbers: ascending order
of the decimal strings. -/
def jsSort (rows : List Nat) : List Nat :=
  List.mergeSort rows (fun a b => decide (toString a ≤ toString b))

/-- The rows pushed by `for (i = 1; i < thumbRowBuffer + 1; i++)`. -/
def bufferAfter (lastRow leafMapLength thumbRowBuffer : Nat) : List Nat :=
  ((List.range' 1 thumbRowBuffer).filter (fun i => lastRow + i < leafMapLength)).map
    (fun i => lastRow + i)

/-- The rows pushed by `for (i = 1; i < thumbRowBuffer; i++)`. -/
def bufferBefore (firstRow thumbRowBuffer : Nat) : List Nat :=
  ((List.range' 1 (thumbRowBuffer - 1)).filter
    (fun (i : Nat) => decide ((firstRow : Int) - (i : Int) ≥ 0))).map
    (fun i => firstRow - i)

/-- The rows of `drawLeafsThumbnail` after "create a buffer of preloaded rows
before and after the visible rows" and `rowsToDisplay.sort()`.  With no row in
view `firstRow` and `lastRow` are `undefined` and nothing is pushed. -/
def rowsWithBuffer (thumbRowBuffer leafMapLength : Nat) (rowsToDisplay : List Nat) : List Nat :=
  match rowsToDisplay.head?, rowsToDisplay.getLast? with
  | some firstRow, some lastRow =>
    jsSort (rowsToDisplay ++ bufferAfter lastRow leafMapLength thumbRowBuffer
      ++ bufferBefore firstRow thumbRowBuffer)
  | _, _ => jsSort rowsToDisplay

/-- Modelled from the spec: `utils.notInArray` of `BookReader/utils.js`, which is
not among the sources; by its name, `!array.includes(value)`. -/
def notInArray (value : Nat) (array : List Nat) : Bool :=
  !array.contains value

/-- The loop "Remove thumbnails that are not to be displayed", as far as it can
throw: iterating `leafMap[row]?.leafs` throws when `leafMap[row]` is
`undefined`. -/
def removalLoop (leafMap : LeafMap) (rowsToDisplay : List Nat) : List Nat → Except JsError Unit
  | [] => Except.ok ()
  | row :: rest =>
    if notInArray row rowsToDisplay then
      match leafMap.row row with
      | some _ => removalLoop leafMap rowsToDisplay rest
      | none => Except.error JsError.typeError
    else removalLoop leafMap rowsToDisplay rest

/-- The first part of `drawLeafsThumbnail`: the loop that builds `leafMap`. -/
def thumbnailLeafMap (book : BookModel) (s : State) (seekIndex : Option Int) : LeafMapLoop :=
  let viewWidth := s.container.scrollWidth - 20
  buildLeafMap viewWidth s.thumbWidth s.thumbPadding seekIndex book.pagesIterator

/-- The state of `drawLeafsThumbnail` after "If seekTop is defined, seeking was
requested and target found". -/
def thumbnailSeek (h : NavHooks) (book : BookModel) (s : State) (seekIndex : Option Int) :
    State :=
  match (thumbnailLeafMap book s seekIndex).seekTop with
  | some seekTop => { s with container := h.setScrollTop s.container (seekTop : ℚ) }
  | none => s

/-- The second part of `drawLeafsThumbnail`: the loop that determines the rows in
view, run at the scroll position read after the seek. -/
def thumbnailView (h : NavHooks) (book : BookModel) (s : State) (seekIndex : Option Int) :
    Except JsError ViewLoop :=
  let built := thumbnailLeafMap book s seekIndex
  let s := thumbnailSeek h book s seekIndex
  let scrollTop := s.container.scrollTop
  let scrollBottom := scrollTop + s.container.height
  viewLoop scrollTop scrollBottom s.thumbPadding built.leafMap 0
    ⟨0, 0, [], (s.numLeafs : Int) - 1, 0, []⟩

/-- `BookReader.prototype.drawLeafsThumbnail`, as far as it reads and writes the
state; building and removing page elements is not represented. -/
def drawLeafsThumbnail (h : NavHooks) (book : BookModel) (s : State) (seekIndex : Option Int) :
    Except JsError State :=
  match thumbnailView h book s seekIndex with
  | Except.error e => Except.error e
  | Except.ok view =>
    let s := thumbnailSeek h book s seekIndex
    let rowsToDisplay := rowsWithBuffer s.thumbRowBuffer view.leafMap.length view.rowsToDisplay
    match removalLoop view.leafMap rowsToDisplay s.displayedRows with
    | Except.error e => Except.error e
    | Except.ok _ =>
      match currentIndex s with
      | Except.error e => Except.error e
      | Except.ok current =>
        let s : State :=
          if current < view.leastVisible then updateFirstIndex s view.leastVisible ⟨false⟩
          else if current > view.mostVisible then updateFirstIndex s view.mostVisible ⟨false⟩
          else s
        Except.ok { s with displayedRows := rowsToDisplay }

/-- `BookReader.prototype.drawLeafs`. -/
def drawLeafs (h : NavHooks) (book : BookModel) (s : State) : Except JsError State :=
  if ModeVal.num constMode1up = s.mode then Except.ok (h.drawLeafsOnePage s)
  else if ModeVal.num constModeThumb = s.mode then drawLeafsThumbnail h book s none
  else Except.ok (h.drawLeafsTwoPage s)

/-- `parseInt` of a number: its integer part, rounded towards zero. -/
def parseInt (x : ℚ) : Int :=
  if 0 ≤ x then ⌊x⌋ else ⌈x⌉

/-- `BookReader.prototype.getThumbnailWidth`. -/
def getThumbnailWidth (s : State) (thumbnailColumns : Nat) : Nat :=
  let padding := (thumbnailColumns + 1) * s.thumbPadding
  let width : ℚ := ((s.pageViewWidth : ℚ) - (padding : ℚ)) / ((thumbnailColumns : ℚ) + 1 / 2)
  let idealThumbnailWidth := parseInt width
  if idealThumbnailWidth > 0 then idealThumbnailWidth.toNat else 100

/-- `BookReader.prototype.prepareThumbnailView`, as far as it reads and writes the
state: emptying the container, creating the page view element, binding the
gestures and `updateBrClasses` are not represented, and the readings of the
container and of the page view element are those held by the state. -/
def prepareThumbnailView (h : NavHooks) (book : BookModel) (s : State) : Except JsError State :=
  let s := { s with thumbWidth := getThumbnailWidth s s.thumbColumns }
  let s := { s with reduce := (book.getPageWidth 0 : ℚ) / (s.thumbWidth : ℚ) }
  let s := { s with displayedRows := [] }
  match currentIndex s with
  | Except.error e => Except.error e
  | Except.ok current => drawLeafsThumbnail h book s (some current)

/-- `Math.round`: the nearest integer, a tie going up. -/
def jsRound (x : ℚ) : Int :=
  ⌊x + 1 / 2⌋

/-- The reduction `thumbReduce` that `drawLeafsThumbnail` requests for the
thumbnail of `leaf` ("get thumbnail's reducer"); the thumbnail width is
positive. -/
def thumbReduce (book : BookModel) (thumbWidth : Nat) (leaf : Int) : Int :=
  let idealReduce : Nat := book.getPageWidth leaf / thumbWidth
  let nearestFactor2 := 2 * jsRound ((idealReduce : ℚ) / 2)
  nearestFactor2

/-! ## Page URIs -/

/-- The array `scale` of `_getPageURISrcset` for a ratio, `none` where the method
returns the empty string. -/
def srcsetScale (ratio : ℚ) : Option (List Nat) :=
  if ratio < 2 then none
  else if ratio < 4 then some [1]
  else if ratio < 8 then some [2, 1]
  else if ratio < 16 then some [4, 2, 1]
  else if ratio < 32 then some [8, 4, 2, 1]
  else some [16, 8, 4, 2, 1]

/-- The candidates of `_getPageURISrcset`: element `i` of `scale` with the density
`Math.pow(2, i + 1)`. -/
def srcsetEntries (scale : List Nat) : List (Nat × Nat) :=
  scale.enum.map (fun entry => (entry.2, 2 ^ (entry.1 + 1)))

/-- The candidates that `_getPageURISrcset` lists, `none` where it returns the
empty string.  Without `reduce` the ratio is
`getPageHeight(index) / this.twoPage.height`; for a zero `twoPage.height` that
quotient is `Infinity` or `NaN`, every comparison fails and `scale` keeps its
initial value. -/
def getPageURISrcsetEntries (book : BookModel) (s : State) (twoPageHeight : ℚ) (index : Int)
    (reduce : Option ℚ) : Option (List (Nat × Nat)) :=
  if index < 0 ∨ index ≥ (s.numLeafs : Int) then none
  else
    let scale : Option (List Nat) :=
      match reduce with
      | some ratio => srcsetScale ratio
      | none =>
        if twoPageHeight = 0 then some [16, 8, 4, 2, 1]
        else srcsetScale ((book.getPageHeight index : ℚ) / twoPageHeight)
    match scale with
    | none => none
    | some scale => some (srcsetEntries scale)

/-- `BookReader.prototype._getPageURISrcset`; `getPageURI` is the method of the
book model that yields the address of a page image at a scale. -/
def getPageURISrcset (getPageURI : Int → Nat → Option Int → String) (book : BookModel)
    (s : State) (twoPageHeight : ℚ) (index : Int) (reduce : Option ℚ) (rotate : Option Int) :
    String :=
  match getPageURISrcsetEntries book s twoPageHeight index reduce with
  | none => ""
  | some entries =>
    String.intercalate ", "
      (entries.map (fun entry => getPageURI index entry.1 rotate ++ " " ++ toString entry.2 ++ "x"))

/-! ## Navigation -/

/-- `BookReader.prototype._isIndexDisplayed`; `slice(1, -1)` drops the first and
the last element. -/
def isIndexDisplayed (s : State) (index : Int) : Except JsError Bool :=
  if ModeVal.num constMode1up = s.mode then
    match s.displayedIndices with
    | some displayed => Except.ok ((displayed.drop 1).dropLast.contains index)
    | none => Except.error JsError.typeError
  else
    match s.displayedIndices with
    | some displayed => Except.ok (displayed.contains index)
    | none =>
      match currentIndex s with
      | Except.error e => Except.error e
      | Except.ok current => Except.ok (current == index)

/-- The optional arguments `pageX`, `pageY`, `noAnimate` of `jumpToIndex`. -/
structure JumpArgs where
  pageX : Option ℚ
  pageY : Option ℚ
  noAnimate : Bool

/-- The variables of the row loop in the thumbnail branch of `jumpToIndex`. -/
structure JumpLoop where
  leafTop : Nat
  rightPos : Nat
  bottomPos : Nat
  rowHeight : Nat
  leafIndex : Nat
  deriving DecidableEq

/-- The body of the loop `for (i = 0; i <= index; i++)` in the thumbnail branch
of `jumpToIndex`. -/
def jumpThumbStep (book : BookModel) (viewWidth : Int) (thumbWidth thumbPadding : Nat)
    (st : JumpLoop) : JumpLoop :=
  let leafWidth := thumbWidth
  let st : JumpLoop :=
    if ((st.rightPos + (leafWidth + thumbPadding) : Nat) : Int) > viewWidth then
      { st with rightPos := 0, rowHeight := 0, leafIndex := 0 }
    else st
  let leafHeight :=
    (book.getPageHeight st.leafIndex * thumbWidth) / book.getPageWidth st.leafIndex
  let rowHeight := if leafHeight > st.rowHeight then leafHeight else st.rowHeight
  let leafTop := if st.leafIndex = 0 then st.bottomPos else st.leafTop
  let bottomPos :=
    if st.leafIndex = 0 then st.bottomPos + (thumbPadding + rowHeight) else st.bottomPos
  { leafTop := leafTop
    rightPos := st.rightPos + (leafWidth + thumbPadding)
    bottomPos := bottomPos
    rowHeight := rowHeight
    leafIndex := st.leafIndex + 1 }

/-- The value of `leafTop` after the row loop of the thumbnail branch of
`jumpToIndex`, which runs `index + 1` times. -/
def jumpThumbLeafTop (book : BookModel) (viewWidth : Int) (thumbWidth thumbPadding : Nat)
    (index : Int) : Nat :=
  ((jumpThumbStep book viewWidth thumbWidth thumbPadding)^[(index + 1).toNat]
    ⟨0, 0, 0, 0, 0⟩).leafTop

/-- Truthiness of an optional number: defined and not zero. -/
def truthy (x : Option ℚ) : Bool :=
  match x with
  | some v => decide (v ≠ 0)
  | none => false

/-- The part of `jumpToIndex` from `this.trigger(stop)` on; `prevCurrentIndex` is
the value of `this.currentIndex()` read on entry. -/
def jumpToIndexBody (h : NavHooks) (book : BookModel) (s : State) (index : Int)
    (args : JumpArgs) (prevCurrentIndex : Int) : Except JsError State :=
  let s := trigger s Event.stop
  if ModeVal.num constMode2up = s.mode then
    if index < min s.twoPage.currentIndexL s.twoPage.currentIndexR then
      Except.ok (h.flipBackToIndex s index)
    else if index > max s.twoPage.currentIndexL s.twoPage.currentIndexR then
      Except.ok (h.flipFwdToIndex s index)
    else Except.ok s
  else if ModeVal.num constModeThumb = s.mode then
    let viewWidth := s.container.scrollWidth - 20
    let leafTop := jumpThumbLeafTop book viewWidth s.thumbWidth s.thumbPadding index
    let s := updateFirstIndex s index ⟨false⟩
    if s.container.scrollTop = (leafTop : Int) then drawLeafs h book s
    else
      Except.ok { s with animating := true, container := h.animate s.container leafTop none }
  else
    let leafTop : ℚ := h.onePageGetPageTop s index
    let leafTop : ℚ :=
      if truthy args.pageY then
        leafTop + ((⌊args.pageY.getD 0 / s.reduce⌋ - ⌊(s.container.clientHeight : ℚ) / 2⌋ : Int) : ℚ)
      else leafTop - (s.padding : ℚ) / 2
    let leafLeft : ℚ :=
      if truthy args.pageX then
        ((⌊args.pageX.getD 0 / s.reduce⌋ - ⌊(s.container.clientWidth : ℚ) / 2⌋ : Int) : ℚ)
      else (s.container.scrollLeft : ℚ)
    if ¬ args.noAnimate ∧ |prevCurrentIndex - index| ≤ 4 then
      Except.ok
        { s with animating := true, container := h.animate s.container leafTop (some leafLeft) }
    else Except.ok { s with container := h.setScrollTop s.container leafTop }

/-- `BookReader.prototype.jumpToIndex`, with the number of nested calls the stack
allows as first argument: exhausting it is a `RangeError`. -/
def jumpToIndex (h : NavHooks) (book : BookModel) :
    Nat → State → Int → JumpArgs → Except JsError State
  | 0, _, _, _ => Except.error JsError.rangeError
  | stack + 1, s, index, args =>
    match currentIndex s with
    | Except.error e => Except.error e
    | Except.ok prevCurrentIndex =>
      match book.getPage index with
      | none => Except.error JsError.typeError
      | some page =>
        if ¬ page.isViewable ∧ page.unviewablesStart ≠ page.index then
          match isIndexDisplayed s page.unviewablesStart with
          | Except.error e => Except.error e
          | Except.ok alreadyInPreview =>
            if alreadyInPreview then
              match page.findNext with
              | none => Except.error JsError.typeError
              | some newIndex => jumpToIndex h book stack s newIndex args
            else jumpToIndex h book stack s page.unviewablesStart args
        else jumpToIndexBody h book s index args prevCurrentIndex

/-- `BookReader.prototype.jumpToPage`: the boolean result and the state left. -/
def jumpToPage (h : NavHooks) (book : BookModel) (stack : Nat) (s : State) (pageNum : String) :
    Except JsError (Bool × State) :=
  match book.parsePageString pageNum with
  | some pageIndex =>
    match jumpToIndex h book stack s pageIndex ⟨none, none, false⟩ with
    | Except.error e => Except.error e
    | Except.ok s => Except.ok (true, s)
  | none => Except.ok (false, s)

/-! ## Specification of the thumbnail rows -/

/-- The greatest element of a list of heights, `0` for the empty list. -/
def maxHeight (heights : List Nat) : Nat :=
  heights.foldr max 0

/-- A row of `leafMap` against the pages placed in it: the leafs carry the page
indices in order, the height is the greatest thumbnail height, and `top` is
still `0`. -/
def RowOf (thumbWidth : Nat) (row : Row) (chunk : List PageModel) : Prop :=
  row.leafs.map (fun leaf => leaf.num) = chunk.map (fun page => page.index) ∧
  row.height = maxHeight (chunk.map (thumbLeafHeight thumbWidth)) ∧
  row.top = 0 ∧ chunk ≠ []

/-- The invariant of the first loop of `drawLeafsThumbnail` after the pages `done`:
either nothing was placed, or the map is an optional hole at index 0 followed by
the completed rows and the current row, each holding a consecutive chunk of
`done`; a completed row was closed because one more thumbnail did not fit, and a
row got a second or later thumbnail only when it fitted. -/
def LeafMapInv (viewWidth : Int) (thumbWidth thumbPadding : Nat) (done : List PageModel)
    (st : LeafMapLoop) : Prop :=
  (st.leafMap = [] ∧ st.currentRow = 0 ∧ st.leafIndex = 0 ∧ st.rightPos = 0 ∧ done = []) ∨
  ∃ (pre : List (Option Row)) (rows : List Row) (last : Row)
    (chunks : List (List PageModel)) (lastChunk : List PageModel),
    st.leafMap = pre ++ (rows ++ [last]).map some ∧
    (pre = [] ∨ (pre = [none] ∧ viewWidth < ((thumbWidth + thumbPadding : Nat) : Int))) ∧
    st.currentRow = pre.length + rows.length ∧
    st.leafIndex = last.leafs.length ∧
    st.rightPos = last.leafs.length * (thumbWidth + thumbPadding) ∧
    done = (chunks ++ [lastChunk]).flatten ∧
    List.Forall₂ (RowOf thumbWidth) rows chunks ∧ RowOf thumbWidth last lastChunk ∧
    (∀ row ∈ rows,
      viewWidth < (((row.leafs.length + 1) * (thumbWidth + thumbPadding) : Nat) : Int)) ∧
    (∀ row ∈ rows ++ [last], 2 ≤ row.leafs.length →
      ((row.leafs.length * (thumbWidth + thumbPadding) : Nat) : Int) ≤ viewWidth)

/-- The rows as the second loop of `drawLeafsThumbnail` leaves them: `top` is
raised to the running `leafTop`. -/
def assignTops (thumbPadding : Nat) : Nat → List Row → List Row
  | _, [] => []
  | leafTop, row :: rest =>
    (if leafTop > row.top then { row with top := leafTop } else row)
      :: assignTops thumbPadding (leafTop + (thumbPadding + row.height)) rest

/-- The page indices shown in the rows that the second loop of
`drawLeafsThumbnail` found in view. -/
def visibleNums (view : ViewLoop) : List Int :=
  view.rowsToDisplay.flatMap (fun j =>
    match view.leafMap.row j with
    | some row => row.leafs.map (fun leaf => leaf.num)
    | none => [])

/-! ## Example books and hooks -/

/-- A page of the ten-leaf example book: leaves 4 to 6 form an unviewable run,
whose next traversal entry is leaf 7. -/
def runBookPage (i : Int) : PageModel :=
  if 4 ≤ i ∧ i ≤ 6 then ⟨i, 1000, 1500, false, 4, some 7⟩
  else ⟨i, 1000, 1500, true, i, if i + 1 < 10 then some (i + 1) else none⟩

/-- A ten-leaf book whose leaves 4 to 6 are unviewable; only the label `n5` is
known to `parsePageString`. -/
def runBook : BookModel :=
  { getPage := fun i => if 0 ≤ i ∧ i < 10 then some (runBookPage i) else none
    getPageWidth := fun _ => 1000
    getPageHeight := fun _ => 1500
    pagesIterator := [0, 1, 2, 3, 4, 7, 8, 9].map runBookPage
    parsePageString := fun label => if label = "n5" then some 5 else none }

/-- Twenty viewable pages of 1000 by 1500 pixels. -/
def uniformPages : List PageModel :=
  (List.range 20).map (fun i => ⟨(i : Int), 1000, 1500, true, (i : Int), some ((i : Int) + 1)⟩)

/-- Hooks for the examples: a flip makes its target the first index, the
container takes the scroll position it is given, and nothing else changes. -/
def plainNavHooks : NavHooks :=
  { flipBackToIndex := fun s i => { s with firstIndex := i }
    flipFwdToIndex := fun s i => { s with firstIndex := i }
    drawLeafsOnePage := id
    drawLeafsTwoPage := id
    onePageGetPageTop := fun _ _ => 0
    setScrollTop := fun c v => { c with scrollTop := ⌊v⌋ }
    animate := fun c _ _ => c }

/-- The thumbnail state of the examples: twenty leaves, container of scroll width
1000 and height 600 scrolled to the top, thumbnail width 100 and padding 10. -/
def thumbState (firstIndex : Int) : State :=
  { shortBook with
    mode := ModeVal.num constModeThumb
    numLeafs := 20
    firstIndex := firstIndex }

/-- A book of twenty viewable pages of 1000 by 1500 pixels. -/
def thumbBook : BookModel :=
  { getPage := fun i =>
      if 0 ≤ i ∧ i < 20 then some ⟨i, 1000, 1500, true, i, some (i + 1)⟩ else none
    getPageWidth := fun _ => 1000
    getPageHeight := fun _ => 1500
    pagesIterator := uniformPages
    parsePageString := fun _ => none }

/-- The thumbnail state of the examples with a container 100 pixels high, which
shows the first row only, and current index 19. -/
def smallViewState : State :=
  { thumbState 19 with container := ⟨0, 0, 1000, 100, 100, 1000⟩ }

/-- The result of the second loop of `drawLeafsThumbnail` in `smallViewState`. -/
def smallView : ViewLoop :=
  match thumbnailView plainNavHooks thumbBook smallViewState none with
  | Except.ok view => view
  | Except.error _ => ⟨0, 0, [], 0, 0, []⟩

/-- A book of viewable pages 1000 pixels wide with the given heights. -/
def heightsBook (heights : List Nat) : BookModel :=
  { getPage := fun i =>
      if 0 ≤ i ∧ i < (heights.length : Int) then
        some ⟨i, 1000, heights.getD i.toNat 0, true, i, some (i + 1)⟩
      else none
    getPageWidth := fun _ => 1000
    getPageHeight := fun i => heights.getD i.toNat 0
    pagesIterator := heights.enum.map (fun entry =>
      ⟨(entry.1 : Int), 1000, entry.2, true, (entry.1 : Int), some ((entry.1 : Int) + 1)⟩)
    parsePageString := fun _ => none }

/-- The thumbnail state of the examples in a container of scroll width 250, which
takes two thumbnails in a row. -/
def narrowState : State :=
  { thumbState 0 with numLeafs := 6, container := ⟨0, 0, 250, 600, 600, 250⟩ }

/-- A twenty-leaf book after `init()`, in one-page mode. -/
def readerState : State :=
  { shortBook with numLeafs := 20 }

/-- The twenty-leaf book during `init()` when it starts in thumbnail mode: `init`
has assigned `mode`, `init.initComplete` is still `false` and `prevReadMode` is
`null`. -/
def initThumbState : State :=
  { readerState with mode := ModeVal.num constModeThumb, initComplete := false }

/-- The thumbnail state of the examples with page scale 5/4, while `reduce` holds
the value 7. -/
def zoomedThumbState : State :=
  { thumbState 0 with pageScale := 5 / 4, reduce := 7 }

/-- The double written `1.3`. -/
def double13 : ℚ := 5854679515581645 / 4503599627370496

/-- The double written `0.1`. -/
def double01 : ℚ := 3602879701896397 / 36028797018963968

/-- The thumbnail state of the examples with page scale `1.3`. -/
def roundingState : State :=
  { thumbState 0 with pageScale := double13 }

/-- Hooks for the examples whose one-page factor table is `[0.1, 2.5]`; nothing
else changes the state. -/
def roundingHooks : Hooks :=
  { idHooks with
    onePageCalculateReductionFactors := fun s =>
      { s with
        onePageReductionFactors := [⟨double01, Autofit.other⟩, ⟨5 / 2, Autofit.other⟩] } }

/-- Hooks for the examples: the one-page factor table is the grid's table with a
width-fitting entry added, the thumbnail view is the embedded one over the
uniform book, and nothing else changes the state. -/
def readerHooks : Hooks :=
  { idHooks with
    onePageCalculateReductionFactors := fun s =>
      { s with onePageReductionFactors := s.reductionFactors ++ [⟨3, Autofit.width⟩] }
    prepareThumbnailView := prepareThumbnailView plainNavHooks thumbBook }

/-! ## Specification of the mode switch and of the rows in view -/

/-- Every method that `switchMode` calls leaves `field` as it is. -/
def Hooks.Keeps {α : Type} (h : Hooks) (field : State → α) : Prop :=
  (∀ t, field (h.removeSearchHilites t) = field t) ∧
  (∀ t, field (h.onePageCalculateReductionFactors t) = field t) ∧
  (∀ t, field (h.prepareOnePageView t) = field t) ∧
  (∀ t t', h.prepareThumbnailView t = Except.ok t' → field t' = field t) ∧
  (∀ t, field (h.setSpreadIndices t) = field t) ∧
  (∀ t, field (h.twoPageCalculateReductionFactors t) = field t) ∧
  (∀ t, field (h.prepareTwoPageView t) = field t) ∧
  (∀ t, field (h.twoPageCenterView t) = field t) ∧
  (∀ t, field (h.stopPageFlip t) = field t)

/-- The mode is one of the three known values. -/
def KnownMode (mode : ModeVal) : Prop :=
  mode = ModeVal.num constMode1up ∨ mode = ModeVal.num constMode2up ∨
    mode = ModeVal.num constModeThumb

/-- The closed intervals `[a, b]` and `[c, d]` intersect: they share a point. -/
def IntervalsIntersect (a b c d : Int) : Prop :=
  ∃ x : Int, a ≤ x ∧ x ≤ b ∧ c ≤ x ∧ x ≤ d

/-- The top of row `j` of `rows`: the sum over the earlier rows of the padding and
the row's height. -/
def rowTop (thumbPadding : Nat) (rows : List Row) (j : Nat) : Nat :=
  ((rows.take j).map (fun row => thumbPadding + row.height)).sum

/-! ## `pruneUnusedImgs` -/

/-- The body of the `for (key in this.prefetchedImgs)` loop of `pruneUnusedImgs`
for one key: the container is removed from the document unless the key is one of
the two current indices, and the entry is deleted (`none`) when the key is
outside `currentIndexL - 4 .. currentIndexR + 4` and its `reduce` is greater
than `this.reduce`. -/
def pruneUnusedImg (s : State) (entry : Int × PrefetchedImg) : Option (Int × PrefetchedImg) :=
  let key := entry.1
  let img : PrefetchedImg :=
    if key ≠ s.twoPage.currentIndexL ∧ key ≠ s.twoPage.currentIndexR then
      { entry.2 with attached := false }
    else entry.2
  if key < s.twoPage.currentIndexL - 4 ∨ key > s.twoPage.currentIndexR + 4 then
    match img.reduce with
    | some r => if r > s.reduce then none else some (key, img)
    | none => some (key, img)
  else some (key, img)

/-- `BookReader.prototype.pruneUnusedImgs`. -/
def pruneUnusedImgs (s : State) : State :=
  { s with prefetchedImgs := s.prefetchedImgs.filterMap (pruneUnusedImg s) }

/-- The assignment `this.prefetchedImgs[index] = $pageContainer`: the value of an
existing key is replaced, a new key is added. -/
def setPrefetchedImg (imgs : List (Int × PrefetchedImg)) (index : Int) (img : PrefetchedImg) :
    List (Int × PrefetchedImg) :=
  if imgs.any (fun entry => entry.1 == index) then
    imgs.map (fun entry => if entry.1 = index then (index, img) else entry)
  else imgs ++ [(index, img)]

/-- `BookReader.prototype.prefetchImg`, as far as `prefetchedImgs` goes;
`imageReduce index reduce` is the `reduce` property of
`this.imageCache.image(index, reduce)` (`none` when it is `undefined`).  When
`fetchNow` is set or the index is one of the two current indices, a page
container is created, which throws when `getPage(index)` is `undefined`
(`const { pageSide } = this._models.book.getPage(index)`; the method being
`async`, the throw rejects the promise it returns); the container is not
put into the document, the image's reduce is stored on its element `[0]`
(`$pageContainer[0].reduce = $image.reduce`), not on the container, and the
container is stored under the index.  Otherwise the image is requested after 300
milliseconds and nothing is stored. -/
def prefetchImg (imageReduce : Int → ℚ → Option ℚ) (book : BookModel) (s : State)
    (index : Int) (fetchNow : Bool) : Except JsError State :=
  let indexIsInView := index = s.twoPage.currentIndexL ∨ index = s.twoPage.currentIndexR
  if fetchNow = true ∨ indexIsInView then
    match book.getPage index with
    | none => Except.error JsError.typeError
    | some _ =>
      let pageContainer : PrefetchedImg := ⟨none, imageReduce index s.reduce, false⟩
      Except.ok
        { s with prefetchedImgs := setPrefetchedImg s.prefetchedImgs index pageContainer }
  else Except.ok s

/-- A book model whose `getPage` yields a page for every index, the blank
sentinel indices included. -/
def spreadBook : BookModel :=
  { getPage := fun i => some ⟨i, 1000, 1500, true, i, some (i + 1)⟩
    getPageWidth := fun _ => 1000
    getPageHeight := fun _ => 1500
    pagesIterator := uniformPages
    parsePageString := fun _ => none }

/-- The two-page state of the examples: the spread `(indexL, indexR)` of a book of
100 leaves, current `reduce` 4, and the prefetched entries `imgs`. -/
def spreadState (imgs : List (Int × PrefetchedImg)) (indexL indexR : Int) : State :=
  { shortBook with
    mode := ModeVal.num constMode2up
    numLeafs := 100
    firstIndex := 10
    reduce := 4
    twoPage := ⟨indexL, indexR⟩
    prefetchedImgs := imgs }

/-! ## Lemmas on the double arithmetic -/

/-- Rounding an integer leaves it as it is. -/
theorem roundHalfEven_intCast (z : Int) : roundHalfEven (z : ℚ) = z := by
  unfold roundHalfEven
  simp

/-- The binary exponent of a number between `2 ^ e` and `2 ^ (e + 1)`. -/
theorem log_two_eq (x : ℚ) (e : Int) (hlo : (2 : ℚ) ^ e ≤ |x|) (hhi : |x| < (2 : ℚ) ^ (e + 1)) :
    Int.log 2 |x| = e := by
  have hpos : 0 < |x| := lt_of_lt_of_le (zpow_pos (by norm_num) e) hlo
  have h1 : e ≤ Int.log 2 |x| :=
    (Int.zpow_le_iff_le_log (by norm_num) hpos).mp (by simpa using hlo)
  have h2 : Int.log 2 |x| < e + 1 :=
    (Int.lt_zpow_iff_log_lt (by norm_num) hpos).mp (by simpa using hhi)
  omega

/-- A number with a significand below `2 ^ 53` and an exponent in the range of the
doubles is a double: rounding leaves it as it is. -/
theorem roundDouble_exact (n k : Int) (hn : |n| < 2 ^ 53) (hlo : -1074 ≤ k) (hhi : k ≤ 971) :
    roundDouble ((n : ℚ) * 2 ^ k) = (n : ℚ) * 2 ^ k := by
  by_cases hn0 : n = 0
  · subst hn0
    simp [roundDouble]
  have hx0 : (n : ℚ) * 2 ^ k ≠ 0 :=
    mul_ne_zero (by exact_mod_cast hn0) (zpow_ne_zero k (by norm_num))
  have hxpos : 0 < |(n : ℚ) * 2 ^ k| := abs_pos.mpr hx0
  have h2k : (0 : ℚ) < 2 ^ k := zpow_pos (by norm_num) k
  have hnq : |(n : ℚ)| < 2 ^ (53 : ℤ) := by
    have hcast : ((|n| : Int) : ℚ) < ((2 ^ 53 : Int) : ℚ) := by exact_mod_cast hn
    rw [Int.cast_abs] at hcast
    norm_num at hcast ⊢
    exact hcast
  have habs : |(n : ℚ) * 2 ^ k| = |(n : ℚ)| * 2 ^ k := by
    rw [abs_mul, abs_of_pos h2k]
  have hlt : |(n : ℚ) * 2 ^ k| < (2 : ℚ) ^ (53 + k) := by
    rw [habs, zpow_add₀ (by norm_num : (2 : ℚ) ≠ 0)]
    exact mul_lt_mul_of_pos_right hnq h2k
  have hlog : Int.log 2 |(n : ℚ) * 2 ^ k| < 53 + k :=
    (Int.lt_zpow_iff_log_lt (by norm_num) hxpos).mp (by simpa using hlt)
  obtain ⟨m, hm⟩ : ∃ m : Nat,
      k = (max (Int.log 2 |(n : ℚ) * 2 ^ k|) (-1022) - 52) + (m : Int) :=
    ⟨(k - (max (Int.log 2 |(n : ℚ) * 2 ^ k|) (-1022) - 52)).toNat, by omega⟩
  have hquot : (n : ℚ) * 2 ^ k / 2 ^ (max (Int.log 2 |(n : ℚ) * 2 ^ k|) (-1022) - 52)
      = ((n * 2 ^ m : Int) : ℚ) := by
    have hne : (2 : ℚ) ^ (max (Int.log 2 |(n : ℚ) * 2 ^ k|) (-1022) - 52) ≠ 0 :=
      zpow_ne_zero _ (by norm_num)
    rw [div_eq_iff hne]
    nth_rewrite 1 [hm]
    rw [zpow_add₀ (by norm_num : (2 : ℚ) ≠ 0), zpow_natCast]
    push_cast
    ring
  have hsmall : ¬ (2 : ℚ) ^ 1024 ≤ |(n : ℚ) * 2 ^ k| := by
    rw [not_le]
    refine lt_of_lt_of_le hlt ?_
    have h1024 : (2 : ℚ) ^ (1024 : ℕ) = (2 : ℚ) ^ ((1024 : ℕ) : ℤ) := (zpow_natCast 2 1024).symm
    rw [h1024]
    exact zpow_le_zpow_right₀ (by norm_num) (by omega)
  have hback : ((n * 2 ^ m : Int) : ℚ)
      * 2 ^ (max (Int.log 2 |(n : ℚ) * 2 ^ k|) (-1022) - 52) = (n : ℚ) * 2 ^ k := by
    rw [← hquot]
    exact div_mul_cancel₀ _ (zpow_ne_zero _ (by norm_num))
  unfold roundDouble
  rw [if_neg hx0]
  simp only [hquot, roundHalfEven_intCast, hback, if_neg hsmall]

/-- Rounding a number of known binary exponent whose rounded value stays below
`2 ^ 1024`. -/
theorem roundDouble_binade (x : ℚ) (e : Int) (hlo : (2 : ℚ) ^ e ≤ |x|)
    (hhi : |x| < (2 : ℚ) ^ (e + 1)) (hmin : -1022 ≤ e)
    (hfin : ¬ (2 : ℚ) ^ 1024 ≤ |(roundHalfEven (x / 2 ^ (e - 52)) : ℚ) * 2 ^ (e - 52)|) :
    roundDouble x = (roundHalfEven (x / 2 ^ (e - 52)) : ℚ) * 2 ^ (e - 52) := by
  have hx0 : x ≠ 0 := by
    intro h
    rw [h, abs_zero] at hlo
    exact absurd hlo (not_le.mpr (zpow_pos (by norm_num) e))
  unfold roundDouble
  rw [if_neg hx0]
  simp only [log_two_eq x e hlo hhi, max_eq_left hmin, if_neg hfin]

/-- The difference of two doubles that is a double is computed without
rounding. -/
theorem absDifference_exact (a b : ℚ) (n k : Int) (hdiff : a - b = (n : ℚ) * 2 ^ k)
    (hn : |n| < 2 ^ 53) (hlo : -1074 ≤ k) (hhi : k ≤ 971) :
    absDifference a b = |a - b| := by
  unfold absDifference
  rw [hdiff, roundDouble_exact n k hn hlo hhi]

/-- The difference of the doubles `1.3` and `0.1` is rounded down to the double
written `1.2`. -/
theorem absDifference_13_01 : absDifference double13 double01
    = 5404319552844595 / 4503599627370496 := by
  have hx : double13 - double01 = 43234556422756763 / 36028797018963968 := by
    norm_num [double13, double01]
  have hround : roundHalfEven ((43234556422756763 / 36028797018963968 : ℚ) / 2 ^ ((0 : ℤ) - 52))
      = 5404319552844595 := by
    have hq : (43234556422756763 / 36028797018963968 : ℚ) / 2 ^ ((0 : ℤ) - 52)
        = 43234556422756763 / 8 := by norm_num
    have hfloor : ⌊(43234556422756763 / 8 : ℚ)⌋ = 5404319552844595 := by
      rw [Int.floor_eq_iff]
      constructor <;> norm_num
    rw [hq]
    unfold roundHalfEven
    simp only [hfloor]
    norm_num
  unfold absDifference
  rw [hx, roundDouble_binade _ 0 (by norm_num [abs_of_pos]) (by norm_num [abs_of_pos])
    (by norm_num) (by rw [hround]; norm_num [abs_of_pos]), hround]
  norm_num [abs_of_pos]

/-- The difference of the doubles `1.3` and `2.5` is the double written `1.2`,
without rounding. -/
theorem absDifference_13_25 : absDifference double13 (5 / 2)
    = 5404319552844595 / 4503599627370496 := by
  have hx : double13 - 5 / 2 = ((-5404319552844595 : Int) : ℚ) * 2 ^ (-52 : Int) := by
    norm_num [double13]
  unfold absDifference
  rw [hx, roundDouble_exact _ _ (by norm_num) (by norm_num) (by norm_num)]
  norm_num [abs_of_neg]

/-! ## Lemmas on `quantizeReduce` -/

/-- The loop returns the first factor (counting the initial one) at the least
computed distance from `r`. -/
theorem quantizeLoop_spec (r : ℚ) (l : List ReductionFactor) :
    ∀ q0 : ℚ,
      (quantizeLoop r l q0 (absDifference r q0) = q0 ∧ ∀ g ∈ l, absDifference r q0 ≤ absDifference r g.reduce) ∨
      (∃ l1 f l2, l = l1 ++ f :: l2 ∧ f.reduce = quantizeLoop r l q0 (absDifference r q0) ∧
        absDifference r f.reduce < absDifference r q0 ∧
        (∀ g ∈ l1, absDifference r f.reduce < absDifference r g.reduce) ∧
        (∀ g ∈ l2, absDifference r f.reduce ≤ absDifference r g.reduce)) := by
  induction l with
  | nil => intro q0; left; simp [quantizeLoop]
  | cons f rest ih =>
    intro q0
    by_cases h : absDifference r f.reduce < absDifference r q0
    · have hstep : quantizeLoop r (f :: rest) q0 (absDifference r q0)
          = quantizeLoop r rest f.reduce (absDifference r f.reduce) := by
        simp [quantizeLoop, h]
      rw [hstep]
      right
      rcases ih f.reduce with ⟨heq, hall⟩ | ⟨l1, f1, l2, hl, hf1, hlt, h1, h2⟩
      · exact ⟨[], f, rest, rfl, heq.symm, h, by simp, hall⟩
      · refine ⟨f :: l1, f1, l2, by simp [hl], hf1, lt_trans hlt h, ?_, h2⟩
        intro g hg
        rcases List.mem_cons.mp hg with rfl | hg
        · exact hlt
        · exact h1 g hg
    · have hstep : quantizeLoop r (f :: rest) q0 (absDifference r q0)
          = quantizeLoop r rest q0 (absDifference r q0) := by
        simp [quantizeLoop, h]
      rw [hstep]
      have hle : absDifference r q0 ≤ absDifference r f.reduce := not_lt.mp h
      rcases ih q0 with ⟨heq, hall⟩ | ⟨l1, f1, l2, hl, hf1, hlt, h1, h2⟩
      · left
        refine ⟨heq, ?_⟩
        intro g hg
        rcases List.mem_cons.mp hg with rfl | hg
        · exact hle
        · exact hall g hg
      · right
        refine ⟨f :: l1, f1, l2, by simp [hl], hf1, hlt, ?_, h2⟩
        intro g hg
        rcases List.mem_cons.mp hg with rfl | hg
        · exact lt_of_lt_of_le hlt hle
        · exact h1 g hg

/-- On a non-empty array `quantizeReduce` returns the `reduce` of the first factor
at the least computed distance from `r`: every earlier factor is strictly farther,
every later one is not closer. -/
theorem quantizeReduce_first_min (r : ℚ) (F : List ReductionFactor) (hF : F ≠ []) :
    ∃ l1 f l2, F = l1 ++ f :: l2 ∧ quantizeReduce r F = Except.ok f.reduce ∧
      (∀ g ∈ l1, absDifference r f.reduce < absDifference r g.reduce) ∧
      (∀ g ∈ l2, absDifference r f.reduce ≤ absDifference r g.reduce) := by
  cases F with
  | nil => exact absurd rfl hF
  | cons f0 rest =>
    rcases quantizeLoop_spec r rest f0.reduce with ⟨heq, hall⟩ | ⟨l1, f1, l2, hl, hf1, hlt, h1, h2⟩
    · exact ⟨[], f0, rest, rfl, by simp [quantizeReduce, heq], by simp, hall⟩
    · refine ⟨f0 :: l1, f1, l2, by simp [hl], by simp [quantizeReduce, hf1], ?_, h2⟩
      intro g hg
      rcases List.mem_cons.mp hg with rfl | hg
      · exact hlt
      · exact h1 g hg

/-- On the table `[0.5, 1, 2]` the ratio 1 is quantized to 1. -/
theorem quantizeReduce_one :
    quantizeReduce 1 [⟨1 / 2, Autofit.other⟩, ⟨1, Autofit.other⟩, ⟨2, Autofit.other⟩]
      = Except.ok 1 := by
  have h1 : absDifference 1 (1 / 2) = 1 / 2 := by
    rw [absDifference_exact 1 (1 / 2) 1 (-1) (by norm_num) (by norm_num) (by norm_num)
      (by norm_num)]
    norm_num [abs_of_pos]
  have h2 : absDifference 1 1 = 0 := by
    rw [absDifference_exact 1 1 0 0 (by norm_num) (by norm_num) (by norm_num) (by norm_num)]
    norm_num
  have h3 : absDifference 1 2 = 1 := by
    rw [absDifference_exact 1 2 (-1) 0 (by norm_num) (by norm_num) (by norm_num) (by norm_num)]
    norm_num [abs_of_neg]
  simp only [quantizeReduce, quantizeLoop, h1, h2, h3]
  norm_num

/-- On the table `[0.5, 1, 2]` the ratio 1.5, at distance 0.5 from both 1 and 2, is
quantized to 1. -/
theorem quantizeReduce_three_halves :
    quantizeReduce (3 / 2) [⟨1 / 2, Autofit.other⟩, ⟨1, Autofit.other⟩, ⟨2, Autofit.other⟩]
      = Except.ok 1 := by
  have h1 : absDifference (3 / 2) (1 / 2) = 1 := by
    rw [absDifference_exact (3 / 2) (1 / 2) 1 0 (by norm_num) (by norm_num) (by norm_num)
      (by norm_num)]
    norm_num [abs_of_pos]
  have h2 : absDifference (3 / 2) 1 = 1 / 2 := by
    rw [absDifference_exact (3 / 2) 1 1 (-1) (by norm_num) (by norm_num) (by norm_num)
      (by norm_num)]
    norm_num [abs_of_pos]
  have h3 : absDifference (3 / 2) 2 = 1 / 2 := by
    rw [absDifference_exact (3 / 2) 2 (-1) (-1) (by norm_num) (by norm_num) (by norm_num)
      (by norm_num)]
    norm_num [abs_of_neg]
  simp only [quantizeReduce, quantizeLoop, h1, h2, h3]
  norm_num

/-- On the table `[0.1, 2.5]` the ratio `1.3` is quantized to `0.1`: both computed
distances are the double written `1.2`. -/
theorem quantizeReduce_rounding :
    quantizeReduce double13 [⟨double01, Autofit.other⟩, ⟨5 / 2, Autofit.other⟩]
      = Except.ok double01 := by
  simp only [quantizeReduce, quantizeLoop, absDifference_13_01, absDifference_13_25]
  norm_num

/-- In exact terms `2.5` is strictly closer to the double `1.3` than the double
`0.1` is. -/
theorem double13_closer_to_25 : |double13 - 5 / 2| < |double13 - double01| := by
  norm_num [double13, double01, abs_of_pos, abs_of_neg]

/-- The ratio `2 ^ 53 + 4` on the table `[3.5, 4, 2 ^ 54 + 4]`: the three computed
distances are `2 ^ 53`, and `3.5` is returned. -/
theorem quantizeReduce_large :
    quantizeReduce 9007199254740996
        [⟨7 / 2, Autofit.other⟩, ⟨4, Autofit.other⟩, ⟨18014398509481988, Autofit.other⟩]
      = Except.ok (7 / 2) := by
  have h1 : absDifference 9007199254740996 (7 / 2) = 9007199254740992 := by
    have hround : roundHalfEven ((18014398509481985 / 2 : ℚ) / 2 ^ ((53 : ℤ) - 52))
        = 4503599627370496 := by
      have hq : (18014398509481985 / 2 : ℚ) / 2 ^ ((53 : ℤ) - 52) = 18014398509481985 / 4 := by
        norm_num
      have hfloor : ⌊(18014398509481985 / 4 : ℚ)⌋ = 4503599627370496 := by
        rw [Int.floor_eq_iff]
        constructor <;> norm_num
      rw [hq]
      unfold roundHalfEven
      simp only [hfloor]
      norm_num
    have hx : (9007199254740996 : ℚ) - 7 / 2 = 18014398509481985 / 2 := by norm_num
    unfold absDifference
    rw [hx, roundDouble_binade _ 53 (by norm_num [abs_of_pos]) (by norm_num [abs_of_pos])
      (by norm_num) (by rw [hround]; norm_num [abs_of_pos]), hround]
    norm_num [abs_of_pos]
  have h2 : absDifference 9007199254740996 4 = 9007199254740992 := by
    rw [absDifference_exact 9007199254740996 4 1 53 (by norm_num) (by norm_num) (by norm_num)
      (by norm_num)]
    norm_num [abs_of_pos]
  have h3 : absDifference 9007199254740996 18014398509481988 = 9007199254740992 := by
    rw [absDifference_exact 9007199254740996 18014398509481988 (-1) 53 (by norm_num)
      (by norm_num) (by norm_num) (by norm_num)]
    norm_num [abs_of_neg]
  simp only [quantizeReduce, quantizeLoop, h1, h2, h3]
  norm_num

/-! ## Lemmas on `nextReduce` -/

/-- The `'in'` loop ends either with the index it started with, no factor of the
scanned part being below `c`, or at the last factor of the scanned part below `c`. -/
theorem nextReduceInLoop_spec (c : ℚ) (l : List ReductionFactor) :
    ∀ i idx : Nat,
      (nextReduceInLoop c l i idx = idx ∧ ∀ g ∈ l, ¬ g.reduce < c) ∨
      (∃ l1 f l2, l = l1 ++ f :: l2 ∧ nextReduceInLoop c l i idx = i + l1.length ∧
        f.reduce < c ∧ ∀ g ∈ l2, ¬ g.reduce < c) := by
  induction l with
  | nil => intro i idx; left; simp [nextReduceInLoop]
  | cons f rest ih =>
    intro i idx
    by_cases h : f.reduce < c
    · have hstep : nextReduceInLoop c (f :: rest) i idx = nextReduceInLoop c rest (i + 1) i := by
        simp [nextReduceInLoop, h]
      rw [hstep]
      right
      rcases ih (i + 1) i with ⟨heq, hall⟩ | ⟨l1, f1, l2, hl, hres, hlt, h2⟩
      · exact ⟨[], f, rest, rfl, by simp [heq], h, hall⟩
      · exact ⟨f :: l1, f1, l2, by simp [hl], by simp [hres]; omega, hlt, h2⟩
    · have hstep : nextReduceInLoop c (f :: rest) i idx
          = nextReduceInLoop c rest (i + 1) idx := by
        simp [nextReduceInLoop, h]
      rw [hstep]
      rcases ih (i + 1) idx with ⟨heq, hall⟩ | ⟨l1, f1, l2, hl, hres, hlt, h2⟩
      · left
        refine ⟨heq, ?_⟩
        intro g hg
        rcases List.mem_cons.mp hg with rfl | hg
        · exact h
        · exact hall g hg
      · right
        exact ⟨f :: l1, f1, l2, by simp [hl], by simp [hres]; omega, hlt, h2⟩

/-- The `'out'` loop over the indices below `n` ends either with the index it
started with, no factor at an index below `n` being above `c`, or at the least
index whose factor is above `c`. -/
theorem nextReduceOutLoop_spec (c : ℚ) (F : List ReductionFactor) :
    ∀ n idx : Nat,
      (nextReduceOutLoop c F n idx = idx ∧ ∀ j < n, ∀ g, F[j]? = some g → ¬ c < g.reduce) ∨
      (nextReduceOutLoop c F n idx < n ∧
        ∃ f, F[nextReduceOutLoop c F n idx]? = some f ∧ c < f.reduce ∧
          ∀ j < nextReduceOutLoop c F n idx, ∀ g, F[j]? = some g → ¬ c < g.reduce) := by
  intro n
  induction n with
  | zero => intro idx; left; simp [nextReduceOutLoop]
  | succ i ih =>
    intro idx
    cases hFi : F[i]? with
    | none =>
      have hstep : nextReduceOutLoop c F (i + 1) idx = nextReduceOutLoop c F i idx := by
        simp [nextReduceOutLoop, hFi]
      rw [hstep]
      rcases ih idx with ⟨heq, hall⟩ | ⟨hlt, f, hf, hc, hall⟩
      · left
        refine ⟨heq, ?_⟩
        intro j hj g hg
        rcases Nat.lt_succ_iff_lt_or_eq.mp hj with hj | rfl
        · exact hall j hj g hg
        · rw [hFi] at hg; cases hg
      · right
        exact ⟨Nat.lt_succ_of_lt hlt, f, hf, hc, hall⟩
    | some fi =>
      by_cases h : c < fi.reduce
      · have hstep : nextReduceOutLoop c F (i + 1) idx = nextReduceOutLoop c F i i := by
          simp [nextReduceOutLoop, hFi, h]
        rw [hstep]
        right
        rcases ih i with ⟨heq, hall⟩ | ⟨hlt, f, hf, hc, hall⟩
        · rw [heq]
          exact ⟨Nat.lt_succ_self i, fi, hFi, h, hall⟩
        · exact ⟨Nat.lt_succ_of_lt hlt, f, hf, hc, hall⟩
      · have hstep : nextReduceOutLoop c F (i + 1) idx = nextReduceOutLoop c F i idx := by
          simp [nextReduceOutLoop, hFi, h]
        rw [hstep]
        rcases ih idx with ⟨heq, hall⟩ | ⟨hlt, f, hf, hc, hall⟩
        · left
          refine ⟨heq, ?_⟩
          intro j hj g hg
          rcases Nat.lt_succ_iff_lt_or_eq.mp hj with hj | rfl
          · exact hall j hj g hg
          · rw [hFi] at hg
            cases hg
            exact h
        · right
          exact ⟨Nat.lt_succ_of_lt hlt, f, hf, hc, hall⟩

/-- Characterisation of the `'in'` branch on a sorted non-empty table. -/
theorem nextReduce_zoomIn_char (c : ℚ) (F : List ReductionFactor) (hF : F ≠ [])
    (hsorted : F.Pairwise (fun x y => x.reduce ≤ y.reduce)) :
    ∃ f, nextReduce c Direction.zoomIn F = some f ∧ f ∈ F ∧
      ((∃ g ∈ F, g.reduce < c) →
        f.reduce < c ∧ ∀ g ∈ F, g.reduce < c → g.reduce ≤ f.reduce) ∧
      ((∀ g ∈ F, ¬ g.reduce < c) → F[0]? = some f) := by
  cases F with
  | nil => exact absurd rfl hF
  | cons f0 rest =>
    rcases nextReduceInLoop_spec c rest 1 0 with ⟨heq, hall⟩ | ⟨l1, f, l2, hl, hres, hlt, h2⟩
    · refine ⟨f0, by simp [nextReduce, heq], by simp, ?_, fun _ => by simp⟩
      rintro ⟨g, hg, hgc⟩
      have hg0 : ∀ g ∈ f0 :: rest, g.reduce < c → g = f0 := by
        intro g hg hgc
        rcases List.mem_cons.mp hg with rfl | hg
        · rfl
        · exact absurd hgc (hall g hg)
      have := hg0 g hg hgc
      subst this
      refine ⟨hgc, ?_⟩
      intro g' hg' hgc'
      rw [hg0 g' hg' hgc']
    · have hget : (f0 :: rest)[1 + l1.length]? = some f := by
        rw [hl, Nat.add_comm, List.getElem?_cons_succ,
          List.getElem?_append_right (Nat.le_refl _)]
        simp
      refine ⟨f, by simp only [nextReduce, List.tail_cons, hres]; exact hget, by simp [hl],
        fun _ => ⟨hlt, ?_⟩, fun hnone => absurd hlt (hnone f (by simp [hl]))⟩
      intro g hg hgc
      rw [hl] at hg hsorted
      have hsorted2 : (f0 :: l1 ++ f :: l2).Pairwise (fun x y => x.reduce ≤ y.reduce) := by
        simpa using hsorted
      have hg2 : g ∈ (f0 :: l1) ++ f :: l2 := by simpa using hg
      rcases List.mem_append.mp hg2 with hg | hg
      · exact (List.pairwise_append.mp hsorted2).2.2 g hg f (by simp)
      · rcases List.mem_cons.mp hg with rfl | hg
        · exact le_refl _
        · exact absurd hgc (h2 g hg)

/-- The `'auto'` loop started with a choice keeps a candidate of the largest
`reduce`. -/
theorem nextReduceAutoLoop_some (l : List ReductionFactor) :
    ∀ ch : ReductionFactor, ∃ r, nextReduceAutoLoop l (some ch) = some r ∧
      (r = ch ∨ r ∈ l) ∧ ch.reduce ≤ r.reduce ∧ ∀ g ∈ l, g.reduce ≤ r.reduce := by
  induction l with
  | nil => intro ch; exact ⟨ch, by simp [nextReduceAutoLoop], Or.inl rfl, le_refl _, by simp⟩
  | cons cand rest ih =>
    intro ch
    by_cases h : ch.reduce < cand.reduce
    · obtain ⟨r, hr, hmem, hle, hall⟩ := ih cand
      refine ⟨r, by simp [nextReduceAutoLoop, h, hr], ?_, le_trans (le_of_lt h) hle, ?_⟩
      · rcases hmem with rfl | hmem
        · right; simp
        · right; simp [hmem]
      · intro g hg
        rcases List.mem_cons.mp hg with rfl | hg
        · exact hle
        · exact hall g hg
    · obtain ⟨r, hr, hmem, hle, hall⟩ := ih ch
      refine ⟨r, by simp [nextReduceAutoLoop, h, hr], ?_, hle, ?_⟩
      · rcases hmem with rfl | hmem
        · left; rfl
        · right; simp [hmem]
      · intro g hg
        rcases List.mem_cons.mp hg with rfl | hg
        · exact le_trans (not_lt.mp h) hle
        · exact hall g hg

/-- The `'auto'` loop started with `null` on a non-empty candidate list returns a
candidate of the largest `reduce`. -/
theorem nextReduceAutoLoop_none (l : List ReductionFactor) (hl : l ≠ []) :
    ∃ r, nextReduceAutoLoop l none = some r ∧ r ∈ l ∧ ∀ g ∈ l, g.reduce ≤ r.reduce := by
  cases l with
  | nil => exact absurd rfl hl
  | cons cand rest =>
    obtain ⟨r, hr, hmem, hle, hall⟩ := nextReduceAutoLoop_some rest cand
    refine ⟨r, by simp [nextReduceAutoLoop, hr], ?_, ?_⟩
    · rcases hmem with rfl | hmem
      · simp
      · simp [hmem]
    · intro g hg
      rcases List.mem_cons.mp hg with rfl | hg
      · exact hle
      · exact hall g hg

/-- In a strictly ascending table, one `'in'` step from the ratio at index `k`
lands on the factor at index `k - 1` (on index `0` when `k = 0`). -/
theorem nextReduce_zoomIn_step (F : List ReductionFactor)
    (hstrict : F.Pairwise (fun x y => x.reduce < y.reduce)) (k : Nat) (f : ReductionFactor)
    (hk : F[k]? = some f) :
    nextReduce f.reduce Direction.zoomIn F = F[k - 1]? := by
  obtain ⟨hkl, hfk⟩ := List.getElem?_eq_some.mp hk
  have hF : F ≠ [] := List.ne_nil_of_length_pos (by omega)
  have hsorted : F.Pairwise (fun x y => x.reduce ≤ y.reduce) :=
    hstrict.imp (fun h => le_of_lt h)
  have hidx := List.pairwise_iff_getElem.mp hstrict
  obtain ⟨r, hr, hrF, hsome, hnone⟩ := nextReduce_zoomIn_char f.reduce F hF hsorted
  rw [hr]
  obtain ⟨m, hm, hrm⟩ := List.mem_iff_getElem.mp hrF
  have hk1 : k - 1 < F.length := by omega
  rw [List.getElem?_eq_getElem hk1]
  by_cases hk0 : k = 0
  · subst hk0
    have : ∀ g ∈ F, ¬ g.reduce < f.reduce := by
      intro g hg hlt
      obtain ⟨j, hj, hgj⟩ := List.mem_iff_getElem.mp hg
      rcases Nat.eq_zero_or_pos j with h0 | hpos
      · subst h0
        rw [← hgj, ← hfk] at hlt
        exact lt_irrefl _ hlt
      · have := hidx 0 j hkl hj hpos
        rw [hfk, hgj] at this
        exact lt_irrefl _ (lt_trans hlt this)
    have h0 := hnone this
    rw [List.getElem?_eq_getElem hkl] at h0
    exact h0.symm
  · have hprev : F[k - 1].reduce < f.reduce := by
      have := hidx (k - 1) k hk1 hkl (by omega)
      rw [hfk] at this
      exact this
    obtain ⟨hrlt, hmax⟩ := hsome ⟨F[k - 1], List.getElem_mem _, hprev⟩
    have hle := hmax F[k - 1] (List.getElem_mem _) hprev
    have hmk : m < k := by
      by_contra hcon
      rcases Nat.lt_or_eq_of_le (not_lt.mp hcon) with h | h
      · have := hidx k m hkl hm h
        rw [hfk, hrm] at this
        exact lt_irrefl _ (lt_trans this hrlt)
      · subst h
        rw [← hrm, ← hfk] at hrlt
        exact lt_irrefl _ hrlt
    have hkm : k - 1 ≤ m := by
      by_contra hcon
      have := hidx m (k - 1) hm hk1 (not_le.mp hcon)
      rw [hrm] at this
      exact lt_irrefl _ (lt_of_lt_of_le this hle)
    have : m = k - 1 := by omega
    subst this
    rw [hrm]

/-- In a strictly ascending table, `j` `'in'` steps from the ratio at index `k` end
at the ratio at index `k - j`. -/
theorem zoomInIterate_index (F : List ReductionFactor)
    (hstrict : F.Pairwise (fun x y => x.reduce < y.reduce)) :
    ∀ (j k : Nat) (f : ReductionFactor), F[k]? = some f →
      zoomInIterate F j f.reduce = (F[k - j]?).map (fun g => g.reduce) := by
  intro j
  induction j with
  | zero => intro k f hk; simp [zoomInIterate, hk]
  | succ j ih =>
    intro k f hk
    obtain ⟨hkl, _⟩ := List.getElem?_eq_some.mp hk
    have hstep := nextReduce_zoomIn_step F hstrict k f hk
    have hk1 : k - 1 < F.length := by omega
    rw [List.getElem?_eq_getElem hk1] at hstep
    have := ih (k - 1) F[k - 1] (List.getElem?_eq_getElem hk1)
    simp only [zoomInIterate, hstep, this]
    congr 2
    omega

/-! ## Lemmas on `pruneUnusedImgs` -/

/-- An entry that survives the loop body keeps its key, its `reduce` and the
`reduce` of its element. -/
theorem pruneUnusedImg_some (s : State) (e e' : Int × PrefetchedImg)
    (h : pruneUnusedImg s e = some e') :
    e'.1 = e.1 ∧ e'.2.reduce = e.2.reduce ∧ e'.2.elementReduce = e.2.elementReduce := by
  unfold pruneUnusedImg at h
  simp only [] at h
  generalize himg : (if e.1 ≠ s.twoPage.currentIndexL ∧ e.1 ≠ s.twoPage.currentIndexR then
    ({ e.2 with attached := false } : PrefetchedImg) else e.2) = img at h
  have hred : img.reduce = e.2.reduce ∧ img.elementReduce = e.2.elementReduce := by
    rw [← himg]
    split_ifs <;> exact ⟨rfl, rfl⟩
  by_cases hout : e.1 < s.twoPage.currentIndexL - 4 ∨ e.1 > s.twoPage.currentIndexR + 4
  · rw [if_pos hout] at h
    cases hr : img.reduce with
    | none =>
      simp only [hr] at h
      cases h
      exact ⟨rfl, hred⟩
    | some r =>
      simp only [hr] at h
      by_cases hgt : r > s.reduce
      · rw [if_pos hgt] at h; cases h
      · rw [if_neg hgt] at h; cases h; exact ⟨rfl, hred⟩
  · rw [if_neg hout] at h
    cases h
    exact ⟨rfl, hred⟩

/-- The loop body deletes exactly the entries outside
`currentIndexL - 4 .. currentIndexR + 4` whose `reduce` is above `this.reduce`. -/
theorem pruneUnusedImg_none_iff (s : State) (e : Int × PrefetchedImg) :
    pruneUnusedImg s e = none ↔
      (e.1 < s.twoPage.currentIndexL - 4 ∨ e.1 > s.twoPage.currentIndexR + 4) ∧
        ∃ r, e.2.reduce = some r ∧ s.reduce < r := by
  unfold pruneUnusedImg
  simp only []
  by_cases hout : e.1 < s.twoPage.currentIndexL - 4 ∨ e.1 > s.twoPage.currentIndexR + 4
  · rw [if_pos hout]
    have hred : ∀ b : Bool, ({ e.2 with attached := b } : PrefetchedImg).reduce = e.2.reduce :=
      fun _ => rfl
    by_cases hk : e.1 ≠ s.twoPage.currentIndexL ∧ e.1 ≠ s.twoPage.currentIndexR
    · rw [if_pos hk]
      cases hr : e.2.reduce with
      | none => simp [hr]
      | some r =>
        simp only [hr]
        by_cases hgt : r > s.reduce
        · simp [hgt, hout]
        · simp [hgt]
    · rw [if_neg hk]
      cases hr : e.2.reduce with
      | none => simp
      | some r =>
        simp only []
        by_cases hgt : r > s.reduce
        · simp [hgt, hout]
        · simp [hgt]
  · rw [if_neg hout]
    simp [hout]

/-- A key is deleted by `pruneUnusedImgs` when the loop body deletes its only
entry. -/
theorem pruneUnusedImgs_deleted (s : State) (key : Int) (img : PrefetchedImg)
    (hnodup : (s.prefetchedImgs.map Prod.fst).Nodup) (hmem : (key, img) ∈ s.prefetchedImgs)
    (hnone : pruneUnusedImg s (key, img) = none) :
    ∀ img', (key, img') ∉ (pruneUnusedImgs s).prefetchedImgs := by
  intro img' hin
  simp only [pruneUnusedImgs, List.mem_filterMap] at hin
  obtain ⟨e, he, hsome⟩ := hin
  have hkey := (pruneUnusedImg_some s e _ hsome).1
  simp only at hkey
  have heq : e = (key, img) := by
    have h1 : e.1 = (key, img).1 := hkey.symm
    exact (List.inj_on_of_nodup_map hnodup) he hmem h1
  rw [heq, hnone] at hsome
  cases hsome

/-- A key is retained by `pruneUnusedImgs`, with its `reduce` and the `reduce` of
its element, when the loop body keeps its entry. -/
theorem pruneUnusedImgs_retained (s : State) (key : Int) (img : PrefetchedImg)
    (hmem : (key, img) ∈ s.prefetchedImgs) (hsome : pruneUnusedImg s (key, img) ≠ none) :
    ∃ img', (key, img') ∈ (pruneUnusedImgs s).prefetchedImgs ∧ img'.reduce = img.reduce ∧
      img'.elementReduce = img.elementReduce := by
  cases hres : pruneUnusedImg s (key, img) with
  | none => exact absurd hres hsome
  | some e' =>
    obtain ⟨hk, hr⟩ := pruneUnusedImg_some s (key, img) e' hres
    refine ⟨e'.2, ?_, hr⟩
    simp only [pruneUnusedImgs, List.mem_filterMap]
    refine ⟨(key, img), hmem, ?_⟩
    rw [hres]
    simp only at hk
    rw [← hk]

/-- The entries after `this.prefetchedImgs[index] = img`: the old ones and the new
one. -/
theorem setPrefetchedImg_mem (imgs : List (Int × PrefetchedImg)) (index : Int)
    (img : PrefetchedImg) :
    ∀ e ∈ setPrefetchedImg imgs index img, e ∈ imgs ∨ e = (index, img) := by
  intro e he
  unfold setPrefetchedImg at he
  split_ifs at he
  · obtain ⟨e0, he0, heq⟩ := List.mem_map.mp he
    by_cases hk : e0.1 = index
    · rw [if_pos hk] at heq
      exact Or.inr heq.symm
    · rw [if_neg hk] at heq
      exact Or.inl (heq ▸ he0)
  · rcases List.mem_append.mp he with h | h
    · exact Or.inl h
    · exact Or.inr (List.mem_singleton.mp h)

/-- The entries after `prefetchImg`: the old ones and at most one new one under the
requested index, which has no `reduce` of its own and carries the image's reduce
on its element. -/
theorem prefetchImg_mem (imageReduce : Int → ℚ → Option ℚ) (book : BookModel) (s s1 : State)
    (index : Int) (fetchNow : Bool)
    (h : prefetchImg imageReduce book s index fetchNow = Except.ok s1) :
    ∀ e ∈ s1.prefetchedImgs,
      e ∈ s.prefetchedImgs ∨
        (e.1 = index ∧ e.2.reduce = none ∧ e.2.elementReduce = imageReduce index s.reduce) := by
  intro e he
  unfold prefetchImg at h
  simp only [] at h
  split_ifs at h
  · cases hpage : book.getPage index with
    | none => rw [hpage] at h; cases h
    | some page =>
      rw [hpage] at h
      cases h
      rcases setPrefetchedImg_mem _ _ _ e he with h1 | h1
      · exact Or.inl h1
      · exact Or.inr (by rw [h1]; exact ⟨rfl, rfl, rfl⟩)
  · cases h
    exact Or.inl he

/-- The loop body keeps every entry that has no `reduce` of its own. -/
theorem pruneUnusedImg_stored (s : State) (e : Int × PrefetchedImg) (h : e.2.reduce = none) :
    pruneUnusedImg s e ≠ none := by
  intro hnone
  obtain ⟨_, r, hr, _⟩ := (pruneUnusedImg_none_iff s e).mp hnone
  rw [h] at hr
  cases hr

/-! ## Lemmas on the thumbnail rows -/

/-- The last row of a map is read at its index. -/
theorem LeafMap.row_last (pre : List (Option Row)) (rows : List Row) (last : Row) :
    LeafMap.row (pre ++ (rows ++ [last]).map some) (pre.length + rows.length) = some last := by
  unfold LeafMap.row
  rw [List.getElem?_append_right (Nat.le_add_right _ _)]
  simp

/-- Past its last row a map has no row. -/
theorem LeafMap.row_past (pre : List (Option Row)) (rows : List Row) (last : Row) :
    LeafMap.row (pre ++ (rows ++ [last]).map some) (pre.length + rows.length + 1) = none := by
  unfold LeafMap.row
  rw [List.getElem?_eq_none (by simp; omega)]
  rfl

/-- Assigning the last row of a map replaces it. -/
theorem LeafMap.setRow_last (pre : List (Option Row)) (rows : List Row) (last r : Row) :
    LeafMap.setRow (pre ++ (rows ++ [last]).map some) (pre.length + rows.length) r
      = pre ++ (rows ++ [r]).map some := by
  unfold LeafMap.setRow
  rw [if_pos (by simp)]
  rw [List.set_append_right _ _ (Nat.le_add_right _ _)]
  simp [List.set_append_right]

/-- Assigning the index after the last row of a map appends a row. -/
theorem LeafMap.setRow_past (pre : List (Option Row)) (rows : List Row) (last r : Row) :
    LeafMap.setRow (pre ++ (rows ++ [last]).map some) (pre.length + rows.length + 1) r
      = pre ++ (rows ++ [last] ++ [r]).map some := by
  unfold LeafMap.setRow
  rw [if_neg (by simp; omega)]
  have : pre.length + rows.length + 1 - (pre ++ (rows ++ [last]).map some).length = 0 := by
    simp; omega
  rw [this]
  simp

theorem maxHeight_append (l : List Nat) (x : Nat) :
    maxHeight (l ++ [x]) = max (maxHeight l) x := by
  unfold maxHeight
  induction l with
  | nil => simp
  | cons a l ih =>
    simp only [List.cons_append, List.foldr_cons, ih]
    omega

theorem placedRow_none (thumbWidth rightPos : Nat) (page : PageModel) :
    placedRow thumbWidth none rightPos page
      = ⟨[⟨page.index, rightPos⟩], thumbLeafHeight thumbWidth page, 0⟩ := by
  unfold placedRow
  simp only [List.nil_append]
  split_ifs with h
  · rfl
  · have : thumbLeafHeight thumbWidth page = 0 := by omega
    rw [this]

theorem placedRow_some (thumbWidth rightPos : Nat) (page : PageModel) (r : Row) :
    placedRow thumbWidth (some r) rightPos page
      = ⟨r.leafs ++ [⟨page.index, rightPos⟩], max r.height (thumbLeafHeight thumbWidth page),
          r.top⟩ := by
  unfold placedRow
  simp only []
  split_ifs with h
  · rw [max_eq_right (le_of_lt h)]
  · rw [max_eq_left (not_lt.mp h)]

theorem RowOf_single (thumbWidth rightPos : Nat) (page : PageModel) :
    RowOf thumbWidth (placedRow thumbWidth none rightPos page) [page] := by
  rw [placedRow_none]
  refine ⟨rfl, ?_, rfl, by simp⟩
  simp [maxHeight]

theorem RowOf_extend (thumbWidth rightPos : Nat) (page : PageModel) (r : Row)
    (chunk : List PageModel) (h : RowOf thumbWidth r chunk) :
    RowOf thumbWidth (placedRow thumbWidth (some r) rightPos page) (chunk ++ [page]) := by
  rw [placedRow_some]
  obtain ⟨h1, h2, h3, _⟩ := h
  refine ⟨by simp [h1], ?_, h3, by simp⟩
  simp only [List.map_append, List.map_cons, List.map_nil, maxHeight_append, h2]

/-- The loop body when the next thumbnail does not fit: a new row is started. -/
theorem leafMapStep_newRow (viewWidth : Int) (thumbWidth thumbPadding : Nat)
    (seekIndex : Option Int) (st : LeafMapLoop) (page : PageModel)
    (hcond : ((st.rightPos + (thumbWidth + thumbPadding) : Nat) : Int) > viewWidth) :
    (leafMapStep viewWidth thumbWidth thumbPadding seekIndex st page).leafMap
        = st.leafMap.setRow (st.currentRow + 1)
            (placedRow thumbWidth (st.leafMap.row (st.currentRow + 1)) 0 page) ∧
    (leafMapStep viewWidth thumbWidth thumbPadding seekIndex st page).currentRow
        = st.currentRow + 1 ∧
    (leafMapStep viewWidth thumbWidth thumbPadding seekIndex st page).leafIndex = 1 ∧
    (leafMapStep viewWidth thumbWidth thumbPadding seekIndex st page).rightPos
        = thumbWidth + thumbPadding := by
  simp only [leafMapStep, if_pos hcond, Nat.zero_add, and_self]

/-- The loop body when the next thumbnail fits: it goes to the current row. -/
theorem leafMapStep_sameRow (viewWidth : Int) (thumbWidth thumbPadding : Nat)
    (seekIndex : Option Int) (st : LeafMapLoop) (page : PageModel)
    (hcond : ¬ ((st.rightPos + (thumbWidth + thumbPadding) : Nat) : Int) > viewWidth) :
    (leafMapStep viewWidth thumbWidth thumbPadding seekIndex st page).leafMap
        = st.leafMap.setRow st.currentRow
            (placedRow thumbWidth (st.leafMap.row st.currentRow) st.rightPos page) ∧
    (leafMapStep viewWidth thumbWidth thumbPadding seekIndex st page).currentRow
        = st.currentRow ∧
    (leafMapStep viewWidth thumbWidth thumbPadding seekIndex st page).leafIndex
        = st.leafIndex + 1 ∧
    (leafMapStep viewWidth thumbWidth thumbPadding seekIndex st page).rightPos
        = st.rightPos + (thumbWidth + thumbPadding) := by
  simp only [leafMapStep, if_neg hcond, and_self]

/-- One page keeps the invariant of the first loop. -/
theorem LeafMapInv_step (viewWidth : Int) (thumbWidth thumbPadding : Nat)
    (seekIndex : Option Int) (done : List PageModel) (st : LeafMapLoop) (page : PageModel)
    (hinv : LeafMapInv viewWidth thumbWidth thumbPadding done st) :
    LeafMapInv viewWidth thumbWidth thumbPadding (done ++ [page])
      (leafMapStep viewWidth thumbWidth thumbPadding seekIndex st page) := by
  have hmul : ∀ n : Nat, (n + 1) * (thumbWidth + thumbPadding)
      = n * (thumbWidth + thumbPadding) + (thumbWidth + thumbPadding) := fun n => by ring
  rcases hinv with ⟨hmap, hrow, hidx, hpos, hdone⟩ |
    ⟨pre, rows, last, chunks, lastChunk, hmap, hpre, hrow, hidx, hpos, hdone, hrows, hlast,
      hfull, hfit⟩
  · -- nothing placed yet
    right
    have hsingle : ∀ rp : Nat, ∀ row ∈ ([] : List Row) ++ [placedRow thumbWidth none rp page],
        2 ≤ row.leafs.length →
        ((row.leafs.length * (thumbWidth + thumbPadding) : Nat) : Int) ≤ viewWidth := by
      intro rp row hrow2 h2
      simp only [List.nil_append, List.mem_singleton] at hrow2
      rw [hrow2, placedRow_none] at h2
      simp at h2
    by_cases hcond : (((st.rightPos + (thumbWidth + thumbPadding) : Nat) : Int) > viewWidth)
    · obtain ⟨e1, e2, e3, e4⟩ := leafMapStep_newRow viewWidth thumbWidth thumbPadding seekIndex
        st page hcond
      refine ⟨[none], [], placedRow thumbWidth none 0 page, [], [page], ?_, ?_, ?_, ?_, ?_, ?_,
        List.Forall₂.nil, RowOf_single _ _ _, by simp, hsingle 0⟩
      · rw [e1, hmap, hrow]
        simp [LeafMap.row, LeafMap.setRow]
      · right
        refine ⟨rfl, ?_⟩
        rw [hpos] at hcond
        simpa using hcond
      · rw [e2, hrow]; rfl
      · rw [e3, placedRow_none]; rfl
      · rw [e4, placedRow_none]; simp
      · simp [hdone]
    · obtain ⟨e1, e2, e3, e4⟩ := leafMapStep_sameRow viewWidth thumbWidth thumbPadding seekIndex
        st page hcond
      refine ⟨[], [], placedRow thumbWidth none 0 page, [], [page], ?_, Or.inl rfl, ?_, ?_, ?_, ?_,
        List.Forall₂.nil, RowOf_single _ _ _, by simp, hsingle 0⟩
      · rw [e1, hmap, hrow, hpos]
        simp [LeafMap.row, LeafMap.setRow]
      · rw [e2, hrow]; rfl
      · rw [e3, hidx, placedRow_none]; rfl
      · rw [e4, hpos, placedRow_none]; simp
      · simp [hdone]
  · right
    by_cases hcond : (((st.rightPos + (thumbWidth + thumbPadding) : Nat) : Int) > viewWidth)
    · -- a new row is started
      obtain ⟨e1, e2, e3, e4⟩ := leafMapStep_newRow viewWidth thumbWidth thumbPadding seekIndex
        st page hcond
      refine ⟨pre, rows ++ [last], placedRow thumbWidth none 0 page, chunks ++ [lastChunk],
        [page], ?_, hpre, ?_, ?_, ?_, ?_, ?_, RowOf_single _ _ _, ?_, ?_⟩
      · rw [e1, hmap, hrow, LeafMap.row_past, LeafMap.setRow_past]
      · rw [e2, hrow]; simp; omega
      · rw [e3, placedRow_none]; rfl
      · rw [e4, placedRow_none]; simp
      · simp [hdone]
      · exact List.rel_append hrows (List.Forall₂.cons hlast List.Forall₂.nil)
      · intro row hrow2
        rcases List.mem_append.mp hrow2 with hin | hin
        · exact hfull row hin
        · simp only [List.mem_singleton] at hin
          rw [hin, hmul]
          rw [hpos] at hcond
          exact hcond
      · intro row hrow2
        rcases List.mem_append.mp hrow2 with hin | hin
        · exact hfit row hin
        · simp only [List.mem_singleton] at hin
          rw [hin, placedRow_none]
          simp
    · -- the page goes to the current row
      obtain ⟨e1, e2, e3, e4⟩ := leafMapStep_sameRow viewWidth thumbWidth thumbPadding seekIndex
        st page hcond
      refine ⟨pre, rows, placedRow thumbWidth (some last) st.rightPos page, chunks,
        lastChunk ++ [page], ?_, hpre, ?_, ?_, ?_, ?_, hrows, RowOf_extend _ _ _ _ _ hlast, hfull,
        ?_⟩
      · rw [e1, hmap, hrow, LeafMap.row_last, LeafMap.setRow_last]
      · rw [e2, hrow]
      · rw [e3, hidx, placedRow_some]; simp
      · rw [e4, hpos, placedRow_some]
        simp only [List.length_append, List.length_singleton]
        rw [hmul]
      · simp [hdone]
      · intro row hrow2
        rcases List.mem_append.mp hrow2 with hin | hin
        · exact hfit row (List.mem_append_left _ hin)
        · simp only [List.mem_singleton] at hin
          rw [hin, placedRow_some]
          intro _
          simp only [List.length_append, List.length_singleton]
          rw [hpos] at hcond
          rw [hmul]
          exact not_lt.mp hcond

/-- The first loop keeps its invariant over any further pages. -/
theorem LeafMapInv_foldl (viewWidth : Int) (thumbWidth thumbPadding : Nat)
    (seekIndex : Option Int) (pages : List PageModel) :
    ∀ (done : List PageModel) (st : LeafMapLoop),
      LeafMapInv viewWidth thumbWidth thumbPadding done st →
      LeafMapInv viewWidth thumbWidth thumbPadding (done ++ pages)
        (pages.foldl (leafMapStep viewWidth thumbWidth thumbPadding seekIndex) st) := by
  induction pages with
  | nil => intro done st h; simpa using h
  | cons page rest ih =>
    intro done st h
    have := ih (done ++ [page]) _ (LeafMapInv_step viewWidth thumbWidth thumbPadding seekIndex
      done st page h)
    simpa using this

/-- The map built by the first loop satisfies the invariant for all pages. -/
theorem LeafMapInv_build (viewWidth : Int) (thumbWidth thumbPadding : Nat)
    (seekIndex : Option Int) (pages : List PageModel) :
    LeafMapInv viewWidth thumbWidth thumbPadding pages
      (buildLeafMap viewWidth thumbWidth thumbPadding seekIndex pages) := by
  have := LeafMapInv_foldl viewWidth thumbWidth thumbPadding seekIndex pages []
    ⟨0, 0, 0, 0, 0, [], none⟩ (Or.inl ⟨rfl, rfl, rfl, rfl, rfl⟩)
  simpa [buildLeafMap] using this

theorem assignTops_getElem? (thumbPadding : Nat) (rs : List Row) :
    ∀ (t i : Nat) (r' : Row), (assignTops thumbPadding t rs)[i]? = some r' →
      ∃ r, rs[i]? = some r ∧ r'.leafs = r.leafs ∧ r'.height = r.height ∧
        (r.top = 0 →
          r'.top = t + ((rs.take i).map (fun x => thumbPadding + x.height)).sum) := by
  induction rs with
  | nil => intro t i r' h; simp [assignTops] at h
  | cons r rest ih =>
    intro t i r' h
    cases i with
    | zero =>
      simp only [assignTops, List.getElem?_cons_zero, Option.some.injEq] at h
      refine ⟨r, by simp, ?_, ?_, ?_⟩
      · rw [← h]; split_ifs <;> rfl
      · rw [← h]; split_ifs <;> rfl
      · intro htop
        rw [← h]
        simp only [List.take_zero, List.map_nil, List.sum_nil, Nat.add_zero]
        split_ifs with hgt
        · rfl
        · omega
    | succ i =>
      simp only [assignTops, List.getElem?_cons_succ] at h
      obtain ⟨r0, h1, h2, h3, h4⟩ := ih _ i r' h
      refine ⟨r0, by simpa using h1, h2, h3, ?_⟩
      intro htop
      rw [h4 htop]
      simp only [List.take_succ_cons, List.map_cons, List.sum_cons]
      omega

theorem assignTops_length (thumbPadding : Nat) (rs : List Row) :
    ∀ t : Nat, (assignTops thumbPadding t rs).length = rs.length := by
  induction rs with
  | nil => intro t; rfl
  | cons r rest ih => intro t; simp [assignTops, ih]

theorem assignTops_heights (thumbPadding : Nat) (rs : List Row) :
    ∀ t : Nat, (assignTops thumbPadding t rs).map (fun x => x.height)
      = rs.map (fun x => x.height) := by
  induction rs with
  | nil => intro t; rfl
  | cons r rest ih =>
    intro t
    simp only [assignTops, List.map_cons, ih]
    split_ifs <;> rfl

/-- The second loop of `drawLeafsThumbnail` over rows that all hold a leaf: it does
not throw, it sets the tops, and `leastVisible`, `mostVisible` bound the first
and last page index of every row it selected. -/
theorem viewLoop_rows (scrollTop scrollBottom : Int) (thumbPadding : Nat) (rs : List Row) :
    ∀ (i : Nat) (st : ViewLoop), st.leafBottom = st.leafTop → (∀ r ∈ rs, r.leafs ≠ []) →
    ∃ view, viewLoop scrollTop scrollBottom thumbPadding (rs.map some) i st = Except.ok view ∧
      view.leafMap = st.leafMap ++ (assignTops thumbPadding st.leafTop rs).map some ∧
      view.leastVisible ≤ st.leastVisible ∧ st.mostVisible ≤ view.mostVisible ∧
      (∀ j ∈ st.rowsToDisplay, j ∈ view.rowsToDisplay) ∧
      (∀ j ∈ view.rowsToDisplay, j ∈ st.rowsToDisplay ∨
        ∃ row first last, i ≤ j ∧ rs[j - i]? = some row ∧ row.leafs.head? = some first ∧
          row.leafs.getLast? = some last ∧ view.leastVisible ≤ first.num ∧
          last.num ≤ view.mostVisible) ∧
      (view.leastVisible = st.leastVisible ∨
        ∃ j ∈ view.rowsToDisplay, ∃ row first, i ≤ j ∧ rs[j - i]? = some row ∧
          row.leafs.head? = some first ∧ first.num = view.leastVisible) ∧
      (view.mostVisible = st.mostVisible ∨
        ∃ j ∈ view.rowsToDisplay, ∃ row last, i ≤ j ∧ rs[j - i]? = some row ∧
          row.leafs.getLast? = some last ∧ last.num = view.mostVisible) := by
  induction rs with
  | nil =>
    intro i st _ _
    exact ⟨st, rfl, by simp [assignTops], le_refl _, le_refl _, fun j hj => hj,
      fun j hj => Or.inl hj, Or.inl rfl, Or.inl rfl⟩
  | cons r rest ih =>
    intro i st hbot hne
    have hrne : r.leafs ≠ [] := hne r (by simp)
    have hhead : r.leafs.head? = some (r.leafs.head hrne) := List.head?_eq_head hrne
    have hlast : r.leafs.getLast? = some (r.leafs.getLast hrne) := List.getLast?_eq_getLast _ hrne
    have hrest : ∀ x ∈ rest, x.leafs ≠ [] := fun x hx => hne x (by simp [hx])
    have hshift : ∀ j row, i + 1 ≤ j → rest[j - (i + 1)]? = some row →
        (r :: rest)[j - i]? = some row := by
      intro j row hj hrow
      have : j - i = (j - (i + 1)) + 1 := by omega
      rw [this, List.getElem?_cons_succ]
      exact hrow
    simp only [List.map_cons, viewLoop, rowInView, hhead, hlast]
    generalize hb : (decide ((st.leafTop : Int) ≥ scrollTop ∧ (st.leafTop : Int) ≤ scrollBottom) ||
      decide (((st.leafBottom + (thumbPadding + r.height) : Nat) : Int) ≥ scrollTop ∧
        ((st.leafBottom + (thumbPadding + r.height) : Nat) : Int) ≤ scrollBottom) ||
      decide ((st.leafTop : Int) ≤ scrollTop ∧
        ((st.leafBottom + (thumbPadding + r.height) : Nat) : Int) ≥ scrollBottom)) = b
    cases b with
    | true =>
      simp only [if_true]
      obtain ⟨view, hv, hmap, hle, hge, hsub, hmem, hleast, hmost⟩ :=
        ih (i + 1)
          { leafTop := st.leafBottom + (thumbPadding + r.height)
            leafBottom := st.leafBottom + (thumbPadding + r.height)
            rowsToDisplay := st.rowsToDisplay ++ [i]
            leastVisible :=
              if (r.leafs.head hrne).num < st.leastVisible then (r.leafs.head hrne).num
              else st.leastVisible
            mostVisible :=
              if (r.leafs.getLast hrne).num > st.mostVisible then (r.leafs.getLast hrne).num
              else st.mostVisible
            leafMap := st.leafMap ++
              [some (if st.leafTop > r.top then { r with top := st.leafTop } else r)] }
          rfl hrest
      simp only at hmap hle hge hsub hmem hleast hmost
      have hl1 : (if (r.leafs.head hrne).num < st.leastVisible then (r.leafs.head hrne).num
          else st.leastVisible) ≤ st.leastVisible := by split_ifs <;> omega
      have hl2 : (if (r.leafs.head hrne).num < st.leastVisible then (r.leafs.head hrne).num
          else st.leastVisible) ≤ (r.leafs.head hrne).num := by split_ifs <;> omega
      have hm1 : st.mostVisible ≤ (if (r.leafs.getLast hrne).num > st.mostVisible
          then (r.leafs.getLast hrne).num else st.mostVisible) := by split_ifs <;> omega
      have hm2 : (r.leafs.getLast hrne).num ≤ (if (r.leafs.getLast hrne).num > st.mostVisible
          then (r.leafs.getLast hrne).num else st.mostVisible) := by split_ifs <;> omega
      have hi : i ∈ view.rowsToDisplay := hsub i (by simp)
      refine ⟨view, hv, ?_, le_trans hle hl1, le_trans hm1 hge,
        fun j hj => hsub j (by simp [hj]), ?_, ?_, ?_⟩
      · rw [hmap, hbot]
        simp [assignTops]
      · intro j hj
        rcases hmem j hj with hin | ⟨row, first, last, h1, h2, h3, h4, h5, h6⟩
        · rcases List.mem_append.mp hin with hin | hin
          · exact Or.inl hin
          · simp only [List.mem_singleton] at hin
            subst hin
            exact Or.inr ⟨r, _, _, le_refl _, by simp, hhead, hlast, le_trans hle hl2,
              le_trans hm2 hge⟩
        · exact Or.inr ⟨row, first, last, by omega, hshift j row h1 h2, h3, h4, h5, h6⟩
      · rcases hleast with heq | ⟨j, hj, row, first, h1, h2, h3, h4⟩
        · by_cases hlt : (r.leafs.head hrne).num < st.leastVisible
          · rw [if_pos hlt] at heq
            exact Or.inr ⟨i, hi, r, _, le_refl _, by simp, hhead, heq.symm⟩
          · rw [if_neg hlt] at heq
            exact Or.inl heq
        · exact Or.inr ⟨j, hj, row, first, by omega, hshift j row h1 h2, h3, h4⟩
      · rcases hmost with heq | ⟨j, hj, row, last, h1, h2, h3, h4⟩
        · by_cases hgt : (r.leafs.getLast hrne).num > st.mostVisible
          · rw [if_pos hgt] at heq
            exact Or.inr ⟨i, hi, r, _, le_refl _, by simp, hlast, heq.symm⟩
          · rw [if_neg hgt] at heq
            exact Or.inl heq
        · exact Or.inr ⟨j, hj, row, last, by omega, hshift j row h1 h2, h3, h4⟩
    | false =>
      simp only [Bool.false_eq_true, if_false]
      obtain ⟨view, hv, hmap, hle, hge, hsub, hmem, hleast, hmost⟩ :=
        ih (i + 1)
          { leafTop := st.leafBottom + (thumbPadding + r.height)
            leafBottom := st.leafBottom + (thumbPadding + r.height)
            rowsToDisplay := st.rowsToDisplay
            leastVisible := st.leastVisible
            mostVisible := st.mostVisible
            leafMap := st.leafMap ++
              [some (if st.leafTop > r.top then { r with top := st.leafTop } else r)] }
          rfl hrest
      simp only at hmap hle hge hsub hmem hleast hmost
      refine ⟨view, hv, ?_, hle, hge, hsub, ?_, ?_, ?_⟩
      · rw [hmap, hbot]
        simp [assignTops]
      · intro j hj
        rcases hmem j hj with hin | ⟨row, first, last, h1, h2, h3, h4, h5, h6⟩
        · exact Or.inl hin
        · exact Or.inr ⟨row, first, last, by omega, hshift j row h1 h2, h3, h4, h5, h6⟩
      · rcases hleast with heq | ⟨j, hj, row, first, h1, h2, h3, h4⟩
        · exact Or.inl heq
        · exact Or.inr ⟨j, hj, row, first, by omega, hshift j row h1 h2, h3, h4⟩
      · rcases hmost with heq | ⟨j, hj, row, last, h1, h2, h3, h4⟩
        · exact Or.inl heq
        · exact Or.inr ⟨j, hj, row, last, by omega, hshift j row h1 h2, h3, h4⟩

/-- The seek of `drawLeafsThumbnail` changes the container only. -/
theorem thumbnailSeek_fields (h : NavHooks) (book : BookModel) (s : State)
    (seekIndex : Option Int) :
    (thumbnailSeek h book s seekIndex).mode = s.mode ∧
    (thumbnailSeek h book s seekIndex).firstIndex = s.firstIndex ∧
    (thumbnailSeek h book s seekIndex).numLeafs = s.numLeafs ∧
    (thumbnailSeek h book s seekIndex).thumbPadding = s.thumbPadding ∧
    (thumbnailSeek h book s seekIndex).events = s.events ∧
    (thumbnailSeek h book s seekIndex).displayedRows = s.displayedRows := by
  unfold thumbnailSeek
  cases (thumbnailLeafMap book s seekIndex).seekTop <;> exact ⟨rfl, rfl, rfl, rfl, rfl, rfl⟩

/-- The row map of `drawLeafsThumbnail` after both loops: an optional hole at
index 0, then rows that hold the consecutive chunks of the iterator's pages, with
their tops set; `leastVisible` and `mostVisible` bound the first and last page
index of every row in view. -/
theorem thumbnailView_rows (h : NavHooks) (book : BookModel) (s : State)
    (seekIndex : Option Int) :
    ∃ (view : ViewLoop) (pre : List (Option Row)) (rows : List Row)
      (chunks : List (List PageModel)),
      thumbnailView h book s seekIndex = Except.ok view ∧
      (thumbnailLeafMap book s seekIndex).leafMap = pre ++ rows.map some ∧
      view.leafMap = pre ++ (assignTops s.thumbPadding 0 rows).map some ∧
      (pre = [] ∨ pre = [none]) ∧
      chunks.flatten = book.pagesIterator ∧
      List.Forall₂ (RowOf s.thumbWidth) rows chunks ∧
      view.leastVisible ≤ (s.numLeafs : Int) - 1 ∧ 0 ≤ view.mostVisible ∧
      (∀ j ∈ view.rowsToDisplay,
        ∃ row first last, pre.length ≤ j ∧ rows[j - pre.length]? = some row ∧
          row.leafs.head? = some first ∧ row.leafs.getLast? = some last ∧
          view.leastVisible ≤ first.num ∧ last.num ≤ view.mostVisible) ∧
      (view.leastVisible = (s.numLeafs : Int) - 1 ∨
        ∃ j ∈ view.rowsToDisplay, ∃ row first, pre.length ≤ j ∧
          rows[j - pre.length]? = some row ∧ row.leafs.head? = some first ∧
          first.num = view.leastVisible) ∧
      (view.mostVisible = 0 ∨
        ∃ j ∈ view.rowsToDisplay, ∃ row last, pre.length ≤ j ∧
          rows[j - pre.length]? = some row ∧ row.leafs.getLast? = some last ∧
          last.num = view.mostVisible) := by
  obtain ⟨_, _, hnum, hpad, _, _⟩ := thumbnailSeek_fields h book s seekIndex
  have hinv := LeafMapInv_build (s.container.scrollWidth - 20) s.thumbWidth s.thumbPadding
    seekIndex book.pagesIterator
  have hleafs : ∀ (rows : List Row) (chunks : List (List PageModel)),
      List.Forall₂ (RowOf s.thumbWidth) rows chunks → ∀ r ∈ rows, r.leafs ≠ [] := by
    intro rows chunks hf
    induction hf with
    | nil => intro r hr; simp at hr
    | cons hrc _ ih =>
      intro r hr
      rcases List.mem_cons.mp hr with rfl | hr
      · obtain ⟨h1, _, _, h4⟩ := hrc
        intro hnil
        rw [hnil] at h1
        simp only [List.map_nil] at h1
        exact h4 (List.map_eq_nil_iff.mp h1.symm)
      · exact ih r hr
  rcases hinv with ⟨hmap, _, _, _, hdone⟩ |
    ⟨pre, rows, last, chunks, lastChunk, hmap, hpre, _, _, _, hdone, hrows, hlast, _, _⟩
  · refine ⟨⟨0, 0, [], (s.numLeafs : Int) - 1, 0, []⟩, [], [], [], ?_, ?_, rfl, Or.inl rfl,
      by simp [hdone], List.Forall₂.nil, le_refl _, le_refl _, by simp, Or.inl rfl, Or.inl rfl⟩
    · unfold thumbnailView thumbnailLeafMap
      simp only [hmap, viewLoop, hnum]
    · unfold thumbnailLeafMap
      simp only [hmap]
      rfl
  · have hall : List.Forall₂ (RowOf s.thumbWidth) (rows ++ [last]) (chunks ++ [lastChunk]) :=
      List.rel_append hrows (List.Forall₂.cons hlast List.Forall₂.nil)
    have hne := hleafs _ _ hall
    have hpre' : pre = [] ∨ pre = [none] := by
      rcases hpre with hp | ⟨hp, _⟩
      · exact Or.inl hp
      · exact Or.inr hp
    rcases hpre' with hp | hp
    · subst hp
      obtain ⟨view, hv, hvmap, hle, hge, _, hmem, hleast, hmost⟩ :=
        viewLoop_rows (thumbnailSeek h book s seekIndex).container.scrollTop
          ((thumbnailSeek h book s seekIndex).container.scrollTop
            + (thumbnailSeek h book s seekIndex).container.height)
          s.thumbPadding (rows ++ [last]) 0 ⟨0, 0, [], (s.numLeafs : Int) - 1, 0, []⟩ rfl hne
      refine ⟨view, [], rows ++ [last], chunks ++ [lastChunk], ?_, by simpa [thumbnailLeafMap] using hmap,
        by simpa using hvmap, Or.inl rfl, hdone.symm, hall, hle, hge, ?_, ?_, ?_⟩
      · unfold thumbnailView thumbnailLeafMap
        simp only [hmap, hnum, hpad, List.nil_append]
        exact hv
      · intro j hj
        rcases hmem j hj with hin | hex
        · simp at hin
        · simpa using hex
      · rcases hleast with heq | hex
        · exact Or.inl heq
        · exact Or.inr (by simpa using hex)
      · rcases hmost with heq | hex
        · exact Or.inl heq
        · exact Or.inr (by simpa using hex)
    · subst hp
      obtain ⟨view, hv, hvmap, hle, hge, _, hmem, hleast, hmost⟩ :=
        viewLoop_rows (thumbnailSeek h book s seekIndex).container.scrollTop
          ((thumbnailSeek h book s seekIndex).container.scrollTop
            + (thumbnailSeek h book s seekIndex).container.height)
          s.thumbPadding (rows ++ [last]) 1 ⟨0, 0, [], (s.numLeafs : Int) - 1, 0, [none]⟩ rfl hne
      refine ⟨view, [none], rows ++ [last], chunks ++ [lastChunk], ?_,
        by simpa [thumbnailLeafMap] using hmap, by simpa using hvmap, Or.inr rfl, hdone.symm, hall,
        hle, hge, ?_, ?_, ?_⟩
      · unfold thumbnailView thumbnailLeafMap
        simp only [hmap, hnum, hpad, List.singleton_append, viewLoop, List.nil_append]
        exact hv
      · intro j hj
        rcases hmem j hj with hin | hex
        · simp at hin
        · simpa using hex
      · rcases hleast with heq | hex
        · exact Or.inl heq
        · exact Or.inr (by simpa using hex)
      · rcases hmost with heq | hex
        · exact Or.inl heq
        · exact Or.inr (by simpa using hex)

set_option maxRecDepth 100000 in
/-- The twenty uniform pages in a container of scroll width 1000, with thumbnail
width 100 and padding 10, fill rows of 8, 8 and 4 thumbnails. -/
theorem uniform_row_counts :
    (thumbnailLeafMap thumbBook (thumbState 0) none).leafMap.map
      (Option.map (fun row => row.leafs.length)) = [some 8, some 8, some 4] := by
  decide

/-- Rows that hold chunks keep doing so when their tops are set. -/
theorem RowOf_assignTops (thumbWidth thumbPadding : Nat) (rows : List Row)
    (chunks : List (List PageModel)) (hf : List.Forall₂ (RowOf thumbWidth) rows chunks) :
    ∀ t : Nat, List.Forall₂
      (fun (row : Row) (chunk : List PageModel) =>
        row.leafs.map (fun leaf => leaf.num) = chunk.map (fun page => page.index) ∧
        chunk ≠ [] ∧ row.height = maxHeight (chunk.map (thumbLeafHeight thumbWidth)))
      (assignTops thumbPadding t rows) chunks := by
  induction hf with
  | nil => intro t; exact List.Forall₂.nil
  | @cons r c rs cs hrc _ ih =>
    intro t
    obtain ⟨h1, h2, _, h4⟩ := hrc
    simp only [assignTops]
    refine List.Forall₂.cons ?_ (ih _)
    split_ifs
    · exact ⟨h1, h4, h2⟩
    · exact ⟨h1, h4, h2⟩

/-- Rows that hold chunks have `top = 0`. -/
theorem RowOf_top (thumbWidth : Nat) (rows : List Row) (chunks : List (List PageModel))
    (hf : List.Forall₂ (RowOf thumbWidth) rows chunks) : ∀ r ∈ rows, r.top = 0 := by
  induction hf with
  | nil => intro r hr; simp at hr
  | cons hrc _ ih =>
    intro r hr
    rcases List.mem_cons.mp hr with rfl | hr
    · exact hrc.2.2.1
    · exact ih r hr

/-- The row map of the twenty uniform pages has three rows. -/
theorem uniform_row_map_length :
    (thumbnailLeafMap thumbBook (thumbState 0) none).leafMap.length = 3 := by
  have := congrArg List.length uniform_row_counts
  simpa using this

/-- Reading a row of a map made of a prefix and rows. -/
theorem LeafMap.row_append (pre : List (Option Row)) (rows : List Row) (r : Nat) :
    LeafMap.row (pre ++ rows.map some) r
      = if r < pre.length then (pre[r]?).join else rows[r - pre.length]? := by
  unfold LeafMap.row
  by_cases hr : r < pre.length
  · rw [if_pos hr, List.getElem?_append_left hr]
  · rw [if_neg hr, List.getElem?_append_right (not_lt.mp hr), List.getElem?_map]
    cases rows[r - pre.length]? <;> rfl

/-- Setting the tops keeps the leafs of the row at each index. -/
theorem assignTops_leafs (thumbPadding t : Nat) (rows : List Row) (k : Nat) (row : Row)
    (hrow : rows[k]? = some row) :
    ∃ row', (assignTops thumbPadding t rows)[k]? = some row' ∧ row'.leafs = row.leafs := by
  have hk : k < rows.length := (List.getElem?_eq_some.mp hrow).1
  have hk' : k < (assignTops thumbPadding t rows).length := by
    rw [assignTops_length]; exact hk
  refine ⟨(assignTops thumbPadding t rows)[k], List.getElem?_eq_getElem hk', ?_⟩
  obtain ⟨r, hr, hl, _⟩ := assignTops_getElem? thumbPadding rows t k _
    (List.getElem?_eq_getElem hk')
  rw [hrow] at hr
  cases hr
  exact hl

/-- The removal loop does not throw when every displayed row is a row of the
map. -/
theorem removalLoop_ok (leafMap : LeafMap) (rowsToDisplay displayed : List Nat)
    (h : ∀ r ∈ displayed, (leafMap.row r).isSome = true) :
    removalLoop leafMap rowsToDisplay displayed = Except.ok () := by
  induction displayed with
  | nil => rfl
  | cons r rest ih =>
    have hr := h r (by simp)
    have hrest := ih (fun x hx => h x (by simp [hx]))
    unfold removalLoop
    cases hrow : leafMap.row r with
    | none => rw [hrow] at hr; cases hr
    | some row =>
      simp only []
      split_ifs
      · exact hrest
      · exact hrest

/-- Membership in the page indices of the rows in view. -/
theorem mem_visibleNums (view : ViewLoop) (n : Int) :
    n ∈ visibleNums view ↔
      ∃ j ∈ view.rowsToDisplay, ∃ row, view.leafMap.row j = some row ∧
        n ∈ row.leafs.map (fun leaf => leaf.num) := by
  unfold visibleNums
  rw [List.mem_flatMap]
  constructor
  · rintro ⟨j, hj, hn⟩
    cases hrow : view.leafMap.row j with
    | none => rw [hrow] at hn; simp at hn
    | some row =>
      rw [hrow] at hn
      exact ⟨j, hj, row, hrow, hn⟩
  · rintro ⟨j, hj, row, hrow, hn⟩
    refine ⟨j, hj, ?_⟩
    rw [hrow]
    exact hn

/-- Every row that holds a chunk is matched by a chunk of the list. -/
theorem RowOf_mem (thumbWidth : Nat) (rows : List Row) (chunks : List (List PageModel))
    (hf : List.Forall₂ (RowOf thumbWidth) rows chunks) :
    ∀ row ∈ rows, ∃ chunk ∈ chunks, RowOf thumbWidth row chunk := by
  induction hf with
  | nil => intro r hr; simp at hr
  | @cons r c rs cs hrc _ ih =>
    intro row hrow
    rcases List.mem_cons.mp hrow with rfl | hrow
    · exact ⟨c, by simp, hrc⟩
    · obtain ⟨chunk, hc, hrel⟩ := ih row hrow
      exact ⟨chunk, by simp [hc], hrel⟩

/-- In an ascending list the first element is a lower bound. -/
theorem head_le_of_pairwise (l : List Int) (a : Int) (hp : l.Pairwise (fun x y => x ≤ y))
    (ha : l.head? = some a) : ∀ x ∈ l, a ≤ x := by
  obtain ⟨ys, rfl⟩ := List.head?_eq_some_iff.mp ha
  intro x hx
  rcases List.mem_cons.mp hx with rfl | hx
  · exact le_refl _
  · exact List.rel_of_pairwise_cons hp hx

/-- In an ascending list the last element is an upper bound. -/
theorem le_last_of_pairwise (l : List Int) (b : Int) (hp : l.Pairwise (fun x y => x ≤ y))
    (hb : l.getLast? = some b) : ∀ x ∈ l, x ≤ b := by
  obtain ⟨ys, rfl⟩ := List.getLast?_eq_some_iff.mp hb
  intro x hx
  rcases List.mem_append.mp hx with hx | hx
  · exact (List.pairwise_append.mp hp).2.2 x hx b (by simp)
  · simp only [List.mem_singleton] at hx
    rw [hx]

/-- `updateFirstIndex` sets `firstIndex` and keeps the mode. -/
theorem updateFirstIndex_fields (s : State) (index : Int) (options : UpdateFirstIndexOptions) :
    (updateFirstIndex s index options).firstIndex = index ∧
    (updateFirstIndex s index options).mode = s.mode := by
  unfold updateFirstIndex trigger
  simp only []
  split_ifs <;> exact ⟨rfl, rfl⟩

/-- The second loop of `drawLeafsThumbnail` returns `smallView` in
`smallViewState`. -/
theorem smallView_ok :
    thumbnailView plainNavHooks thumbBook smallViewState none = Except.ok smallView := by
  obtain ⟨view, _, _, _, hv, _⟩ := thumbnailView_rows plainNavHooks thumbBook smallViewState none
  unfold smallView
  rw [hv]

set_option maxRecDepth 100000 in
/-- In `smallViewState` only row 0 is in view. -/
theorem smallView_rows : smallView.rowsToDisplay = [0] := by
  decide

set_option maxRecDepth 100000 in
/-- The twenty uniform pages are in ascending index order with indices from 0
to 19. -/
theorem uniformPages_sorted :
    uniformPages.Pairwise (fun p q => p.index ≤ q.index) ∧
    ∀ p ∈ uniformPages, 0 ≤ p.index ∧ p.index ≤ ((20 : Nat) : Int) - 1 := by
  decide

/-! ## Lemmas on navigation -/

/-- One retargeting step of `jumpToIndex`: on an unviewable page that is not the
start of its run, the call is the nested call on the start of the run when that
start is not displayed. -/
theorem jumpToIndex_retarget_start (h : NavHooks) (book : BookModel) (stack : Nat) (s : State)
    (index : Int) (args : JumpArgs) (page : PageModel) (current : Int)
    (hcur : currentIndex s = Except.ok current) (hpage : book.getPage index = some page)
    (hunv : page.isViewable = false) (hstart : page.unviewablesStart ≠ page.index)
    (hdisp : isIndexDisplayed s page.unviewablesStart = Except.ok false) :
    jumpToIndex h book (stack + 1) s index args
      = jumpToIndex h book stack s page.unviewablesStart args := by
  rw [jumpToIndex]
  simp [hcur, hpage, hunv, hstart, hdisp]

/-- One retargeting step of `jumpToIndex`: on an unviewable page that is not the
start of its run, the call is the nested call on the next traversal entry when the
start of the run is displayed. -/
theorem jumpToIndex_retarget_next (h : NavHooks) (book : BookModel) (stack : Nat) (s : State)
    (index : Int) (args : JumpArgs) (page : PageModel) (current newIndex : Int)
    (hcur : currentIndex s = Except.ok current) (hpage : book.getPage index = some page)
    (hunv : page.isViewable = false) (hstart : page.unviewablesStart ≠ page.index)
    (hdisp : isIndexDisplayed s page.unviewablesStart = Except.ok true)
    (hnext : page.findNext = some newIndex) :
    jumpToIndex h book (stack + 1) s index args = jumpToIndex h book stack s newIndex args := by
  rw [jumpToIndex]
  simp [hcur, hpage, hunv, hstart, hdisp, hnext]

/-- On a page that is viewable or starts its own run, `jumpToIndex` does not
call itself. -/
theorem jumpToIndex_direct (h : NavHooks) (book : BookModel) (stack : Nat) (s : State)
    (index : Int) (args : JumpArgs) (page : PageModel) (current : Int)
    (hcur : currentIndex s = Except.ok current) (hpage : book.getPage index = some page)
    (hok : page.isViewable = true ∨ page.unviewablesStart = page.index) :
    jumpToIndex h book (stack + 1) s index args
      = jumpToIndexBody h book s index args current := by
  rw [jumpToIndex]
  have : ¬ (¬ page.isViewable = true ∧ page.unviewablesStart ≠ page.index) := by
    rintro ⟨h1, h2⟩
    rcases hok with h3 | h3
    · exact h1 h3
    · exact h2 h3
  simp only [hcur, hpage, this, if_false]

/-- In two-page mode `currentIndex` does not throw. -/
theorem currentIndex_2up (s : State) (hmode : s.mode = ModeVal.num constMode2up) :
    currentIndex s = Except.ok (clamp s.firstIndex 0 ((s.numLeafs : Int) - 1)) := by
  unfold currentIndex
  have h12 : ¬ (s.mode = ModeVal.num constMode1up ∨ s.mode = ModeVal.num constModeThumb) := by
    rw [hmode]
    decide
  rw [if_neg h12, if_pos hmode]

/-- The two-page branch of `jumpToIndex` after the retargeting check. -/
theorem jumpToIndexBody_2up (h : NavHooks) (book : BookModel) (s : State) (index : Int)
    (args : JumpArgs) (current : Int) (hmode : s.mode = ModeVal.num constMode2up) :
    jumpToIndexBody h book s index args current =
      if index < min s.twoPage.currentIndexL s.twoPage.currentIndexR then
        Except.ok (h.flipBackToIndex (trigger s Event.stop) index)
      else if index > max s.twoPage.currentIndexL s.twoPage.currentIndexR then
        Except.ok (h.flipFwdToIndex (trigger s Event.stop) index)
      else Except.ok (trigger s Event.stop) := by
  unfold jumpToIndexBody
  have : ModeVal.num constMode2up = (trigger s Event.stop).mode := hmode.symm
  simp only [this, if_true]
  rfl

/-! ## Lemmas on the rows in view -/

/-- One round of the second loop of `drawLeafsThumbnail` on a row that holds a
leaf: the row is pushed exactly when the three-way test selects it, and the next
round starts at the row's bottom. -/
theorem viewLoop_cons (scrollTop scrollBottom : Int) (thumbPadding : Nat) (r : Row)
    (rest : List (Option Row)) (i : Nat) (st : ViewLoop) (hne : r.leafs ≠ []) :
    ∃ st1 : ViewLoop,
      viewLoop scrollTop scrollBottom thumbPadding (some r :: rest) i st
        = viewLoop scrollTop scrollBottom thumbPadding rest (i + 1) st1 ∧
      st1.leafTop = st.leafBottom + (thumbPadding + r.height) ∧
      st1.leafBottom = st.leafBottom + (thumbPadding + r.height) ∧
      st1.rowsToDisplay =
        if rowInView scrollTop scrollBottom st.leafTop
            (st.leafBottom + (thumbPadding + r.height)) = true
        then st.rowsToDisplay ++ [i] else st.rowsToDisplay := by
  have hhead : r.leafs.head? = some (r.leafs.head hne) := List.head?_eq_head hne
  have hlast : r.leafs.getLast? = some (r.leafs.getLast hne) := List.getLast?_eq_getLast _ hne
  simp only [viewLoop, hhead, hlast]
  cases hb : rowInView scrollTop scrollBottom st.leafTop
      (st.leafBottom + (thumbPadding + r.height)) with
  | true => exact ⟨_, rfl, rfl, rfl, by simp⟩
  | false => exact ⟨_, rfl, rfl, rfl, by simp⟩

/-- The rows that the second loop of `drawLeafsThumbnail` selects: those already
selected and, of the rows it visits, exactly those that pass the three-way test
at their top and bottom. -/
theorem viewLoop_inView (scrollTop scrollBottom : Int) (thumbPadding : Nat) (rs : List Row) :
    ∀ (i : Nat) (st view : ViewLoop), st.leafBottom = st.leafTop → (∀ r ∈ rs, r.leafs ≠ []) →
      viewLoop scrollTop scrollBottom thumbPadding (rs.map some) i st = Except.ok view →
      ∀ j, j ∈ view.rowsToDisplay ↔
        (j ∈ st.rowsToDisplay ∨ (i ≤ j ∧ ∃ row, rs[j - i]? = some row ∧
          rowInView scrollTop scrollBottom (st.leafTop + rowTop thumbPadding rs (j - i))
            (st.leafTop + rowTop thumbPadding rs (j - i) + (thumbPadding + row.height))
              = true)) := by
  induction rs with
  | nil =>
    intro i st view _ _ hv j
    simp only [List.map_nil, viewLoop, Except.ok.injEq] at hv
    subst hv
    simp
  | cons r rest ih =>
    intro i st view hbot hne hv j
    obtain ⟨st1, hstep, htop1, hbot1, hrows1⟩ :=
      viewLoop_cons scrollTop scrollBottom thumbPadding r (rest.map some) i st (hne r (by simp))
    rw [List.map_cons, hstep] at hv
    have hih := ih (i + 1) st1 view (by rw [htop1, hbot1])
      (fun x hx => hne x (by simp [hx])) hv j
    rw [hih, hrows1, htop1, hbot]
    have hsum : ∀ k, rowTop thumbPadding (r :: rest) (k + 1)
        = (thumbPadding + r.height) + rowTop thumbPadding rest k := by
      intro k
      simp [rowTop]
    constructor
    · rintro (hin | ⟨hij, row, hrow, hview⟩)
      · split_ifs at hin with hsel
        · rcases List.mem_append.mp hin with hin | hin
          · exact Or.inl hin
          · have hji : j = i := by simpa using hin
            subst hji
            refine Or.inr ⟨le_refl _, r, by simp, ?_⟩
            simpa [rowTop] using hsel
        · exact Or.inl hin
      · refine Or.inr ⟨by omega, row, ?_, ?_⟩
        · have : j - i = (j - (i + 1)) + 1 := by omega
          rw [this, List.getElem?_cons_succ]
          exact hrow
        · have : j - i = (j - (i + 1)) + 1 := by omega
          rw [this, hsum]
          rw [← hview]
          congr 1 <;> omega
    · rintro (hin | ⟨hij, row, hrow, hview⟩)
      · left
        split_ifs
        · exact List.mem_append.mpr (Or.inl hin)
        · exact hin
      · rcases Nat.eq_or_lt_of_le hij with heq | hlt
        · subst heq
          simp only [Nat.sub_self, List.getElem?_cons_zero, Option.some.injEq] at hrow
          subst hrow
          left
          have hsel : rowInView scrollTop scrollBottom st.leafTop
              (st.leafTop + (thumbPadding + r.height)) = true := by
            simpa [rowTop] using hview
          rw [if_pos hsel]
          simp
        · right
          have hji : j - i = (j - (i + 1)) + 1 := by omega
          rw [hji, List.getElem?_cons_succ] at hrow
          rw [hji, hsum] at hview
          refine ⟨by omega, row, hrow, ?_⟩
          rw [← hview]
          congr 1 <;> omega

/-- The three-way test of `drawLeafsThumbnail` against the intersection of the
closed intervals, for a row whose top is not below its bottom and a scroll range
that is not empty. -/
theorem rowInView_iff (scrollTop scrollBottom : Int) (leafTop leafBottom : Nat)
    (hrow : leafTop ≤ leafBottom) (hscroll : scrollTop ≤ scrollBottom) :
    rowInView scrollTop scrollBottom leafTop leafBottom = true ↔
      IntervalsIntersect leafTop leafBottom scrollTop scrollBottom := by
  have hrow' : (leafTop : Int) ≤ (leafBottom : Int) := by exact_mod_cast hrow
  unfold rowInView IntervalsIntersect
  simp only [Bool.or_eq_true, decide_eq_true_eq]
  constructor
  · rintro ((⟨h1, h2⟩ | ⟨h1, h2⟩) | ⟨h1, h2⟩)
    · exact ⟨leafTop, le_refl _, hrow', h1, h2⟩
    · exact ⟨leafBottom, hrow', le_refl _, h1, h2⟩
    · exact ⟨scrollTop, h1, by omega, le_refl _, hscroll⟩
  · rintro ⟨x, h1, h2, h3, h4⟩
    by_cases ht : (leafTop : Int) ≥ scrollTop
    · exact Or.inl (Or.inl ⟨ht, by omega⟩)
    · by_cases hb : (leafBottom : Int) ≤ scrollBottom
      · exact Or.inl (Or.inr ⟨by omega, hb⟩)
      · exact Or.inr ⟨by omega, by omega⟩

/-! ## Lemmas on the thumbnail reduction and on the page addresses -/

/-- `Math.round` of half a natural number. -/
theorem jsRound_half (n : Nat) : jsRound ((n : ℚ) / 2) = ((n + 1) / 2 : Nat) := by
  unfold jsRound
  rw [Int.floor_eq_iff]
  rcases Nat.even_or_odd' n with ⟨k, hk | hk⟩
  · have h2 : (n + 1) / 2 = k := by omega
    rw [h2, hk]
    push_cast
    constructor <;> linarith
  · have h2 : (n + 1) / 2 = k + 1 := by omega
    rw [h2, hk]
    push_cast
    constructor <;> linarith

/-- The scales of `_getPageURISrcset` with their densities, case by case. -/
theorem srcsetScale_cases (ratio : ℚ) (scale : List Nat)
    (h : srcsetScale ratio = some scale) :
    (scale = [1] ∧ 2 ≤ ratio) ∨ (scale = [2, 1] ∧ 4 ≤ ratio) ∨
    (scale = [4, 2, 1] ∧ 8 ≤ ratio) ∨ (scale = [8, 4, 2, 1] ∧ 16 ≤ ratio) ∨
    (scale = [16, 8, 4, 2, 1] ∧ 32 ≤ ratio) := by
  unfold srcsetScale at h
  split_ifs at h with h2 h4 h8 h16 h32
  · simp only [Option.some.injEq] at h
    exact Or.inl ⟨h.symm, not_lt.mp h2⟩
  · simp only [Option.some.injEq] at h
    exact Or.inr (Or.inl ⟨h.symm, not_lt.mp h4⟩)
  · simp only [Option.some.injEq] at h
    exact Or.inr (Or.inr (Or.inl ⟨h.symm, not_lt.mp h8⟩))
  · simp only [Option.some.injEq] at h
    exact Or.inr (Or.inr (Or.inr (Or.inl ⟨h.symm, not_lt.mp h16⟩)))
  · simp only [Option.some.injEq] at h
    exact Or.inr (Or.inr (Or.inr (Or.inr ⟨h.symm, not_lt.mp h32⟩)))

/-- The candidates of a scale array of `_getPageURISrcset`: powers of two from 1
up, none above half the ratio, each with a density that brings it to the same
power of two. -/
theorem srcsetEntries_spec (ratio : ℚ) (scale : List Nat)
    (h : srcsetScale ratio = some scale) :
    srcsetEntries scale ≠ [] ∧
    (∃ m : Nat, ∀ e ∈ srcsetEntries scale, e.1 * e.2 = 2 ^ m) ∧
    ∀ e ∈ srcsetEntries scale,
      (∃ k < 5, e.1 = 2 ^ k) ∧ (∃ k < 6, e.2 = 2 ^ k) ∧ 1 ≤ e.1 ∧ (e.1 : ℚ) ≤ ratio := by
  have hq : ∀ (scale : List Nat) (bound : ℚ), bound ≤ ratio →
      (∀ e ∈ srcsetEntries scale, (e.1 : ℚ) ≤ bound) →
      ∀ e ∈ srcsetEntries scale, (e.1 : ℚ) ≤ ratio :=
    fun _ _ hb hall e he => le_trans (hall e he) hb
  rcases srcsetScale_cases ratio scale h with
    ⟨rfl, hr⟩ | ⟨rfl, hr⟩ | ⟨rfl, hr⟩ | ⟨rfl, hr⟩ | ⟨rfl, hr⟩
  · refine ⟨by decide, ⟨1, by decide⟩, fun e he => ⟨?_, ?_, ?_, ?_⟩⟩
    · revert e; decide
    · revert e; decide
    · revert e; decide
    · exact hq _ 2 hr (by simp [srcsetEntries, List.enum, List.enumFrom]) e he
  · refine ⟨by decide, ⟨2, by decide⟩, fun e he => ⟨?_, ?_, ?_, ?_⟩⟩
    · revert e; decide
    · revert e; decide
    · revert e; decide
    · exact hq _ 4 hr (by simp [srcsetEntries, List.enum, List.enumFrom]) e he
  · refine ⟨by decide, ⟨3, by decide⟩, fun e he => ⟨?_, ?_, ?_, ?_⟩⟩
    · revert e; decide
    · revert e; decide
    · revert e; decide
    · exact hq _ 8 hr (by simp [srcsetEntries, List.enum, List.enumFrom]) e he
  · refine ⟨by decide, ⟨4, by decide⟩, fun e he => ⟨?_, ?_, ?_, ?_⟩⟩
    · revert e; decide
    · revert e; decide
    · revert e; decide
    · exact hq _ 16 hr (by simp [srcsetEntries, List.enum, List.enumFrom]) e he
  · refine ⟨by decide, ⟨5, by decide⟩, fun e he => ⟨?_, ?_, ?_, ?_⟩⟩
    · revert e; decide
    · revert e; decide
    · revert e; decide
    · exact hq _ 32 hr (by simp [srcsetEntries, List.enum, List.enumFrom]) e he

/-! ## Lemmas on the mode switch -/

/-- `quantizeReduce` on a table that is not empty returns the `reduce` of a member
whose computed distance no member has a smaller one than. -/
theorem quantizeReduce_member_closest (r : ℚ) (F : List ReductionFactor) (hF : F ≠ []) :
    ∃ q, quantizeReduce r F = Except.ok q ∧ (∃ f ∈ F, f.reduce = q) ∧
      ∀ g ∈ F, absDifference r q ≤ absDifference r g.reduce := by
  obtain ⟨l1, f, l2, hl, hq, h1, h2⟩ := quantizeReduce_first_min r F hF
  refine ⟨f.reduce, hq, ⟨f, by simp [hl], rfl⟩, ?_⟩
  intro g hg
  rw [hl] at hg
  rcases List.mem_append.mp hg with hg | hg
  · exact le_of_lt (h1 g hg)
  · rcases List.mem_cons.mp hg with rfl | hg
    · exact le_refl _
    · exact h2 g hg

/-- An accepted `switchMode` runs the part after the checks. -/
theorem switchMode_accepted (h : Hooks) (s : State) (mode : Nat) (options : SwitchModeOptions)
    (haccept : s.initComplete = true →
      s.mode ≠ ModeVal.num mode ∧ canSwitchToMode s (ModeVal.num mode) = true) :
    switchMode h s mode options = switchModeBody h s mode options := by
  unfold switchMode
  by_cases hinit : s.initComplete = true
  · obtain ⟨hm, hc⟩ := haccept hinit
    rw [if_pos hinit, if_neg (fun heq => hm heq.symm), if_neg (not_not.mpr hc)]
  · rw [if_neg hinit]

/-- The one-page branch of `switchMode`. -/
theorem switchModeBody_1up (h : Hooks) (s : State) (options : SwitchModeOptions) :
    switchModeBody h s constMode1up options =
      match quantizeReduce
          (h.onePageCalculateReductionFactors (switchModeEnter h s constMode1up)).reduce
          (h.onePageCalculateReductionFactors
            (switchModeEnter h s constMode1up)).onePageReductionFactors with
      | Except.error e => Except.error e
      | Except.ok q =>
        Except.ok (switchModeFinish h (h.prepareOnePageView
          { h.onePageCalculateReductionFactors (switchModeEnter h s constMode1up) with
            reduce := q }) constMode1up options) := by
  have hstep : switchModeBody h s constMode1up options =
      match (match quantizeReduce
          (h.onePageCalculateReductionFactors (switchModeEnter h s constMode1up)).reduce
          (h.onePageCalculateReductionFactors
            (switchModeEnter h s constMode1up)).onePageReductionFactors with
        | Except.error e => Except.error e
        | Except.ok q => Except.ok (h.prepareOnePageView
          { h.onePageCalculateReductionFactors (switchModeEnter h s constMode1up) with
            reduce := q })) with
      | Except.error e => Except.error e
      | Except.ok t => Except.ok (switchModeFinish h t constMode1up options) := rfl
  rw [hstep]
  cases quantizeReduce
    (h.onePageCalculateReductionFactors (switchModeEnter h s constMode1up)).reduce
    (h.onePageCalculateReductionFactors
      (switchModeEnter h s constMode1up)).onePageReductionFactors <;> rfl

/-- The thumbnail branch of `switchMode`. -/
theorem switchModeBody_thumb (h : Hooks) (s : State) (options : SwitchModeOptions) :
    switchModeBody h s constModeThumb options =
      match quantizeReduce (switchModeEnter h s constModeThumb).reduce
          (switchModeEnter h s constModeThumb).reductionFactors with
      | Except.error e => Except.error e
      | Except.ok q =>
        match h.prepareThumbnailView { switchModeEnter h s constModeThumb with reduce := q } with
        | Except.error e => Except.error e
        | Except.ok t => Except.ok (switchModeFinish h t constModeThumb options) := by
  have hstep : switchModeBody h s constModeThumb options =
      match (match quantizeReduce (switchModeEnter h s constModeThumb).reduce
          (switchModeEnter h s constModeThumb).reductionFactors with
        | Except.error e => Except.error e
        | Except.ok q =>
          h.prepareThumbnailView { switchModeEnter h s constModeThumb with reduce := q }) with
      | Except.error e => Except.error e
      | Except.ok t => Except.ok (switchModeFinish h t constModeThumb options) := rfl
  rw [hstep]
  cases quantizeReduce (switchModeEnter h s constModeThumb).reduce
    (switchModeEnter h s constModeThumb).reductionFactors <;> rfl

/-- The two-page branch of `switchMode`, which every mode other than `1up` and
`thumb` takes. -/
theorem switchModeBody_2up (h : Hooks) (s : State) (mode : Nat) (options : SwitchModeOptions)
    (h1 : constMode1up ≠ mode) (h3 : constModeThumb ≠ mode) :
    switchModeBody h s mode options =
      Except.ok (switchModeFinish h
        (h.twoPageCenterView (h.prepareTwoPageView (h.twoPageCalculateReductionFactors
          (if options.init = true ∨ ¬ options.pageFound = true
            then h.setSpreadIndices (switchModeEnter h s mode)
            else switchModeEnter h s mode)))) mode options) := by
  unfold switchModeBody
  simp only [if_neg h1, if_neg h3]
  rfl

/-- The state in which `switchMode` reaches its branches: the state after `stop`
and the removal of the search highlights, with `prevReadMode`, `mode` and
`reduce` assigned. -/
theorem switchModeEnter_shape (h : Hooks) (s : State) (mode : Nat) :
    switchModeEnter h s mode =
      { (if s.enableSearch = true then h.removeSearchHilites (trigger s Event.stop)
          else trigger s Event.stop) with
        prevReadMode := getPrevReadMode
          (if s.enableSearch = true then h.removeSearchHilites (trigger s Event.stop)
            else trigger s Event.stop)
          (if s.enableSearch = true then h.removeSearchHilites (trigger s Event.stop)
            else trigger s Event.stop).mode
        mode := ModeVal.num mode
        reduce := (if s.enableSearch = true then h.removeSearchHilites (trigger s Event.stop)
          else trigger s Event.stop).pageScale } := by
  have hpre : (if (trigger s Event.stop).enableSearch = true
      then h.removeSearchHilites (trigger s Event.stop) else trigger s Event.stop)
      = (if s.enableSearch = true then h.removeSearchHilites (trigger s Event.stop)
          else trigger s Event.stop) := rfl
  unfold switchModeEnter
  simp only [hpre]
  generalize (if s.enableSearch = true then h.removeSearchHilites (trigger s Event.stop)
    else trigger s Event.stop) = pre
  by_cases hsame : pre.pageScale = pre.reduce
  · rw [if_neg (not_not.mpr hsame)]
    cases pre
    simp only at hsame
    subst hsame
    rfl
  · rw [if_pos hsame]

/-- The end of `switchMode` adds events and lets the text selection plugin stop
the page flip. -/
theorem switchModeFinish_shape (h : Hooks) (s : State) (mode : Nat)
    (options : SwitchModeOptions) :
    ∃ events : List Event,
      switchModeFinish h s mode options = h.stopPageFlip { s with events := events } := by
  unfold switchModeFinish trigger
  simp only []
  split_ifs <;> exact ⟨_, rfl⟩

/-- The state `updateFirstIndex` leaves differs in `firstIndex`, `events` and
`suppressFragmentChange` only. -/
theorem updateFirstIndex_shape (s : State) (index : Int) (options : UpdateFirstIndexOptions) :
    ∃ (events : List Event) (suppress : Bool),
      updateFirstIndex s index options
        = { s with firstIndex := index, events := events, suppressFragmentChange := suppress } := by
  unfold updateFirstIndex trigger
  simp only []
  split_ifs <;> exact ⟨_, _, rfl⟩

/-- The seek of `drawLeafsThumbnail` changes the container only. -/
theorem thumbnailSeek_shape (h : NavHooks) (book : BookModel) (s : State)
    (seekIndex : Option Int) :
    ∃ container : Container,
      thumbnailSeek h book s seekIndex = { s with container := container } := by
  unfold thumbnailSeek
  cases (thumbnailLeafMap book s seekIndex).seekTop with
  | none => exact ⟨s.container, rfl⟩
  | some seekTop => exact ⟨_, rfl⟩

/-- The state `drawLeafsThumbnail` leaves differs in the container, `firstIndex`,
`events`, `suppressFragmentChange` and `displayedRows` only. -/
theorem drawLeafsThumbnail_shape (h : NavHooks) (book : BookModel) (s s' : State)
    (seekIndex : Option Int) (hrun : drawLeafsThumbnail h book s seekIndex = Except.ok s') :
    ∃ (container : Container) (firstIndex : Int) (events : List Event) (suppress : Bool)
      (rows : List Nat),
      s' = { s with container := container, firstIndex := firstIndex, events := events,
                    suppressFragmentChange := suppress, displayedRows := rows } := by
  obtain ⟨c, hseek⟩ := thumbnailSeek_shape h book s seekIndex
  unfold drawLeafsThumbnail at hrun
  cases hview : thumbnailView h book s seekIndex with
  | error e => rw [hview] at hrun; cases hrun
  | ok view =>
    rw [hview] at hrun
    simp only [hseek] at hrun
    split at hrun
    · cases hrun
    · split at hrun
      · cases hrun
      · simp only [Except.ok.injEq] at hrun
        subst hrun
        split_ifs
        · obtain ⟨ev, sf, hu⟩ := updateFirstIndex_shape { s with container := c }
            view.leastVisible ⟨false⟩
          rw [hu]
          exact ⟨_, _, _, _, _, rfl⟩
        · obtain ⟨ev, sf, hu⟩ := updateFirstIndex_shape { s with container := c }
            view.mostVisible ⟨false⟩
          rw [hu]
          exact ⟨_, _, _, _, _, rfl⟩
        · exact ⟨c, s.firstIndex, s.events, s.suppressFragmentChange, _, rfl⟩

/-- `drawLeafsThumbnail` returns when no row is on display yet and the mode is one
for which `currentIndex` is implemented. -/
theorem drawLeafsThumbnail_ok (h : NavHooks) (book : BookModel) (s : State)
    (seekIndex : Option Int) (hmode : KnownMode s.mode) (hrows : s.displayedRows = []) :
    ∃ s', drawLeafsThumbnail h book s seekIndex = Except.ok s' := by
  obtain ⟨view, _, _, _, hv, _⟩ := thumbnailView_rows h book s seekIndex
  obtain ⟨hm, _, _, _, _, hd⟩ := thumbnailSeek_fields h book s seekIndex
  have hcur : ∃ i, currentIndex (thumbnailSeek h book s seekIndex) = Except.ok i := by
    unfold currentIndex
    rw [hm]
    rcases hmode with hk | hk | hk <;> rw [hk] <;> simp [constMode1up, constMode2up, constModeThumb]
  obtain ⟨i, hi⟩ := hcur
  unfold drawLeafsThumbnail
  simp only [hv, hd, hrows, removalLoop, hi]
  exact ⟨_, rfl⟩

/-- `prepareThumbnailView` on a known mode: it draws the grid on a state whose
`thumbWidth` and `reduce` it has set and whose `displayedRows` it has emptied,
seeking the current index. -/
theorem prepareThumbnailView_draw (h : NavHooks) (book : BookModel) (s : State)
    (hmode : KnownMode s.mode) :
    ∃ current : Int,
      currentIndex s = Except.ok current ∧
      prepareThumbnailView h book s
        = drawLeafsThumbnail h book
            { s with
              thumbWidth := getThumbnailWidth s s.thumbColumns
              reduce := (book.getPageWidth 0 : ℚ) / (getThumbnailWidth s s.thumbColumns : ℚ)
              displayedRows := [] } (some current) := by
  have hcur : ∃ i, currentIndex s = Except.ok i := by
    unfold currentIndex
    rcases hmode with hk | hk | hk <;> simp [hk, constMode1up, constMode2up, constModeThumb]
  obtain ⟨i, hi⟩ := hcur
  have hi' : currentIndex
      { s with
        thumbWidth := getThumbnailWidth s s.thumbColumns
        reduce := (book.getPageWidth 0 : ℚ) / (getThumbnailWidth s s.thumbColumns : ℚ)
        displayedRows := [] } = Except.ok i := hi
  refine ⟨i, hi, ?_⟩
  unfold prepareThumbnailView
  simp only [hi']

/-- The state `prepareThumbnailView` leaves: `thumbWidth` and `reduce` are the
values it computes, and otherwise only what `drawLeafsThumbnail` writes has
changed. -/
theorem prepareThumbnailView_shape (h : NavHooks) (book : BookModel) (s s' : State)
    (hrun : prepareThumbnailView h book s = Except.ok s') :
    ∃ (container : Container) (firstIndex : Int) (events : List Event) (suppress : Bool)
      (rows : List Nat),
      s' = { s with
              thumbWidth := getThumbnailWidth s s.thumbColumns
              reduce := (book.getPageWidth 0 : ℚ) / (getThumbnailWidth s s.thumbColumns : ℚ)
              container := container, firstIndex := firstIndex, events := events
              suppressFragmentChange := suppress, displayedRows := rows } := by
  unfold prepareThumbnailView at hrun
  simp only [] at hrun
  split at hrun
  · cases hrun
  · obtain ⟨c, fi, ev, sf, rows, hs'⟩ := drawLeafsThumbnail_shape h book _ s' _ hrun
    exact ⟨c, fi, ev, sf, rows, hs'⟩

/-- `prepareThumbnailView` returns on a known mode. -/
theorem prepareThumbnailView_ok (h : NavHooks) (book : BookModel) (s : State)
    (hmode : KnownMode s.mode) :
    ∃ s', prepareThumbnailView h book s = Except.ok s' := by
  obtain ⟨i, _, hi⟩ := prepareThumbnailView_draw h book s hmode
  rw [hi]
  exact drawLeafsThumbnail_ok h book _ _ hmode rfl

/-- A known mode is one for which `currentIndex` is implemented. -/
theorem currentIndex_known (s : State) (hmode : KnownMode s.mode) :
    ∃ i, currentIndex s = Except.ok i := by
  unfold currentIndex
  rcases hmode with hk | hk | hk <;> simp [hk, constMode1up, constMode2up, constModeThumb]

/-- A field that the methods called by `switchMode` keep, and that does not depend
on `reduce` or on `events`, has after the part of `switchMode` that follows the
checks the value it had when the branches were reached. -/
theorem switchModeBody_field {α : Type} (field : State → α) (h : Hooks) (hk : h.Keeps field)
    (hreduce : ∀ (t : State) (r : ℚ), field { t with reduce := r } = field t)
    (hevents : ∀ (t : State) (ev : List Event), field { t with events := ev } = field t)
    (s s' : State) (mode : Nat) (options : SwitchModeOptions)
    (hrun : switchModeBody h s mode options = Except.ok s') :
    field s' = field (switchModeEnter h s mode) := by
  obtain ⟨_, hcalc, hone, hthumb, hspread, htwo, hprep, hcenter, hflip⟩ := hk
  have hfinish : ∀ t, field (switchModeFinish h t mode options) = field t := by
    intro t
    obtain ⟨ev, hev⟩ := switchModeFinish_shape h t mode options
    rw [hev, hflip, hevents]
  by_cases h1 : constMode1up = mode
  · subst h1
    rw [switchModeBody_1up] at hrun
    split at hrun
    · cases hrun
    · simp only [Except.ok.injEq] at hrun
      rw [← hrun, hfinish, hone, hreduce, hcalc]
  · by_cases h3 : constModeThumb = mode
    · subst h3
      rw [switchModeBody_thumb] at hrun
      split at hrun
      · cases hrun
      · split at hrun
        · cases hrun
        · rename_i q _ t ht
          simp only [Except.ok.injEq] at hrun
          rw [← hrun, hfinish, hthumb _ t ht, hreduce]
    · rw [switchModeBody_2up h s mode options h1 h3] at hrun
      simp only [Except.ok.injEq] at hrun
      rw [← hrun, hfinish, hcenter, hprep, htwo]
      split_ifs
      · rw [hspread]
      · rfl

/-- After `switchMode` the mode is the one before the call or the one
requested. -/
theorem switchMode_mode (h : Hooks) (hk : h.Keeps (fun t => t.mode)) (s s' : State)
    (mode : Nat) (options : SwitchModeOptions)
    (hrun : switchMode h s mode options = Except.ok s') :
    s'.mode = s.mode ∨ s'.mode = ModeVal.num mode := by
  have hbody : switchModeBody h s mode options = Except.ok s' → s'.mode = ModeVal.num mode := by
    intro hb
    have hf : s'.mode = (switchModeEnter h s mode).mode :=
      switchModeBody_field (fun t => t.mode) h hk (fun _ _ => rfl) (fun _ _ => rfl)
        s s' mode options hb
    rw [hf, switchModeEnter_shape]
  unfold switchMode at hrun
  split_ifs at hrun <;>
    first
    | exact Or.inr (hbody hrun)
    | exact Or.inl (by simp only [Except.ok.injEq] at hrun; rw [hrun])

/-- The hooks of the examples keep every field that neither the one-page factor
table nor the thumbnail view writes. -/
theorem readerHooks_keeps {α : Type} (field : State → α)
    (htable : ∀ (t : State) (F : List ReductionFactor),
      field { t with onePageReductionFactors := F } = field t)
    (hgrid : ∀ (t : State) (tw : Nat) (r : ℚ) (c : Container) (fi : Int) (ev : List Event)
      (sf : Bool) (rows : List Nat),
      field { t with thumbWidth := tw, reduce := r, container := c, firstIndex := fi,
                     events := ev, suppressFragmentChange := sf, displayedRows := rows }
        = field t) :
    readerHooks.Keeps field := by
  refine ⟨fun _ => rfl, fun t => htable t _, fun _ => rfl, ?_, fun _ => rfl, fun _ => rfl,
    fun _ => rfl, fun _ => rfl, fun _ => rfl⟩
  intro t t' hrun
  obtain ⟨c, fi, ev, sf, rows, hs'⟩ := prepareThumbnailView_shape plainNavHooks thumbBook t t' hrun
  rw [hs']
  exact hgrid t _ _ c fi ev sf rows

/-- The thumbnail branch of `switchMode` with the embedded `prepareThumbnailView`,
on a factor table that is not empty: the quantized scale is handed over, the grid
is drawn on a state with `reduce` replaced and no row on display, and the call
returns. -/
theorem switchModeBody_thumb_run (h : Hooks) (nav : NavHooks) (book : BookModel) (s : State)
    (options : SwitchModeOptions)
    (hthumb : h.prepareThumbnailView = prepareThumbnailView nav book)
    (htable : (switchModeEnter h s constModeThumb).reductionFactors ≠ []) :
    ∃ (q : ℚ) (current : Int) (t : State),
      quantizeReduce (switchModeEnter h s constModeThumb).pageScale
        (switchModeEnter h s constModeThumb).reductionFactors = Except.ok q ∧
      (∃ f ∈ (switchModeEnter h s constModeThumb).reductionFactors, f.reduce = q) ∧
      currentIndex { switchModeEnter h s constModeThumb with reduce := q } = Except.ok current ∧
      h.prepareThumbnailView { switchModeEnter h s constModeThumb with reduce := q }
        = drawLeafsThumbnail nav book
            { switchModeEnter h s constModeThumb with
              thumbWidth := getThumbnailWidth (switchModeEnter h s constModeThumb)
                (switchModeEnter h s constModeThumb).thumbColumns
              reduce := (book.getPageWidth 0 : ℚ) /
                (getThumbnailWidth (switchModeEnter h s constModeThumb)
                  (switchModeEnter h s constModeThumb).thumbColumns : ℚ)
              displayedRows := [] } (some current) ∧
      h.prepareThumbnailView { switchModeEnter h s constModeThumb with reduce := q }
        = Except.ok t ∧
      t.reduce = (book.getPageWidth 0 : ℚ) /
        (getThumbnailWidth (switchModeEnter h s constModeThumb)
          (switchModeEnter h s constModeThumb).thumbColumns : ℚ) ∧
      switchModeBody h s constModeThumb options
        = Except.ok (switchModeFinish h t constModeThumb options) := by
  have hscale : (switchModeEnter h s constModeThumb).reduce
      = (switchModeEnter h s constModeThumb).pageScale := by
    rw [switchModeEnter_shape]
  have hmode : KnownMode
      ({ switchModeEnter h s constModeThumb with
          reduce := (switchModeEnter h s constModeThumb).reduce } : State).mode := by
    rw [switchModeEnter_shape]
    exact Or.inr (Or.inr rfl)
  obtain ⟨q, hq, hmem, _⟩ := quantizeReduce_member_closest
    (switchModeEnter h s constModeThumb).pageScale _ htable
  obtain ⟨current, hcur, hdraw⟩ := prepareThumbnailView_draw nav book
    { switchModeEnter h s constModeThumb with reduce := q } hmode
  obtain ⟨t, ht⟩ := prepareThumbnailView_ok nav book
    { switchModeEnter h s constModeThumb with reduce := q } hmode
  obtain ⟨c, fi, ev, sf, rows, hshape⟩ := prepareThumbnailView_shape nav book _ t ht
  refine ⟨q, current, t, hq, hmem, hcur, ?_, ?_, ?_, ?_⟩
  · rw [hthumb, hdraw]
    rfl
  · rw [hthumb, ht]
  · rw [hshape]
    rfl
  · rw [switchModeBody_thumb, hscale, hq]
    simp only [hthumb, ht]

/-- A `switchMode` to the two-page mode returns. -/
theorem switchMode_2up_ok (h : Hooks) (s : State) (options : SwitchModeOptions) :
    ∃ s', switchMode h s constMode2up options = Except.ok s' := by
  unfold switchMode
  rw [switchModeBody_2up h s constMode2up options (by decide) (by decide)]
  split_ifs <;> exact ⟨_, rfl⟩

/-- The state in which the examples reach the branches of `switchMode` when the
search is not enabled. -/
theorem switchModeEnter_plain (h : Hooks) (s : State) (mode : Nat)
    (hsearch : s.enableSearch = false) :
    switchModeEnter h s mode =
      { trigger s Event.stop with
        prevReadMode := getPrevReadMode s s.mode
        mode := ModeVal.num mode
        reduce := s.pageScale } := by
  rw [switchModeEnter_shape, hsearch]
  rfl

/-- A field that the removal of the search highlights keeps and that `switchMode`
does not assign before its branches has at the branches the value it had on
entry. -/
theorem switchModeEnter_field {α : Type} (field : State → α) (h : Hooks) (s : State)
    (mode : Nat) (hsearch : ∀ t, field (h.removeSearchHilites t) = field t)
    (hwrite : ∀ (t : State) (ev : List Event) (pr m : ModeVal) (r : ℚ),
      field { t with events := ev, prevReadMode := pr, mode := m, reduce := r } = field t) :
    field (switchModeEnter h s mode) = field s := by
  have htrig : field (trigger s Event.stop) = field s :=
    hwrite s (s.events ++ [Event.stop]) s.prevReadMode s.mode s.reduce
  rw [switchModeEnter_shape]
  by_cases hs : s.enableSearch = true
  · simp only [hs, if_true]
    exact (hwrite (h.removeSearchHilites (trigger s Event.stop)) _ _ _ _).trans
      ((hsearch _).trans htrig)
  · simp only [hs, if_false]
    exact (hwrite (trigger s Event.stop) (trigger s Event.stop).events _ _ _).trans htrig

/-- The width `getThumbnailWidth` returns is positive. -/
theorem getThumbnailWidth_pos (s : State) (thumbnailColumns : Nat) :
    0 < getThumbnailWidth s thumbnailColumns := by
  unfold getThumbnailWidth
  simp only []
  split_ifs with hpos
  · omega
  · decide

/-- In the twenty-leaf example a page view 1000 pixels wide with six columns gives
thumbnails 143 pixels wide. -/
theorem readerState_thumbWidth :
    getThumbnailWidth (switchModeEnter readerHooks readerState constModeThumb)
      (switchModeEnter readerHooks readerState constModeThumb).thumbColumns = 143 := by
  have hfloor : ⌊((1000 : ℚ) - 70) / (6 + 1 / 2)⌋ = 143 := by
    rw [Int.floor_eq_iff]
    constructor <;> norm_num
  rw [switchModeEnter_plain readerHooks readerState constModeThumb rfl]
  simp only [getThumbnailWidth, parseInt, trigger, readerState, shortBook]
  norm_num [hfloor]
  rfl

/-- The twenty-leaf example switched to the thumbnail view and then to the two-page
view: both calls return. -/
theorem readerRun_ok :
    ∃ s, switchModeRun readerHooks readerState
      [(constModeThumb, ⟨false, false, false⟩), (constMode2up, ⟨false, false, false⟩)]
        = Except.ok s := by
  obtain ⟨q, current, t, _, _, _, _, _, _, hbody⟩ := switchModeBody_thumb_run readerHooks
    plainNavHooks thumbBook readerState ⟨false, false, false⟩ rfl
    (by rw [switchModeEnter_plain readerHooks readerState constModeThumb rfl]; decide)
  have h1 : switchMode readerHooks readerState constModeThumb ⟨false, false, false⟩
      = Except.ok (switchModeFinish readerHooks t constModeThumb ⟨false, false, false⟩) := by
    rw [switchMode_accepted readerHooks readerState constModeThumb _
      (fun _ => ⟨by decide, by decide⟩), hbody]
  obtain ⟨s2, h2⟩ := switchMode_2up_ok readerHooks
    (switchModeFinish readerHooks t constModeThumb ⟨false, false, false⟩) ⟨false, false, false⟩
  refine ⟨s2, ?_⟩
  simp only [switchModeRun, h1, h2]

/-! ## Lemmas on the example books with differing heights -/

set_option maxRecDepth 100000 in
/-- Six pages of which the second is twice as high as the others, two to a row:
the first loop of `drawLeafsThumbnail`, seeking page 2, sets `seekTop` to 160. -/
theorem tallSecond_seekTop :
    (thumbnailLeafMap (heightsBook [1500, 3000, 1500, 1500, 1500, 1500]) narrowState
      (some 2)).seekTop = some 160 := by
  decide

set_option maxRecDepth 100000 in
/-- Six pages of which the second is twice as high as the others, two to a row:
the rows that the first loop of `drawLeafsThumbnail` builds. -/
theorem tallSecond_leafMap :
    (thumbnailLeafMap (heightsBook [1500, 3000, 1500, 1500, 1500, 1500]) narrowState
      (some 2)).leafMap
      = [] ++ ([⟨[⟨0, 0⟩, ⟨1, 110⟩], 300, 0⟩, ⟨[⟨2, 0⟩, ⟨3, 110⟩], 150, 0⟩,
          ⟨[⟨4, 0⟩, ⟨5, 110⟩], 150, 0⟩] : List Row).map some := by
  decide

set_option maxRecDepth 100000 in
/-- Six pages of which the third and fourth are twice as high as the others, two
to a row: the rows that the first loop of `drawLeafsThumbnail` builds. -/
theorem tallMiddle_leafMap :
    (thumbnailLeafMap (heightsBook [1500, 1500, 3000, 3000, 1500, 1500]) narrowState
      none).leafMap
      = [] ++ ([⟨[⟨0, 0⟩, ⟨1, 110⟩], 150, 0⟩, ⟨[⟨2, 0⟩, ⟨3, 110⟩], 300, 0⟩,
          ⟨[⟨4, 0⟩, ⟨5, 110⟩], 150, 0⟩] : List Row).map some := by
  decide

set_option maxRecDepth 100000 in
/-- Six pages of which the third and fourth are twice as high as the others, two
to a row: the row loop of `jumpToIndex` for page 4 ends with `leafTop` 320. -/
theorem tallMiddle_jumpTop :
    jumpThumbLeafTop (heightsBook [1500, 1500, 3000, 3000, 1500, 1500])
      (narrowState.container.scrollWidth - 20) narrowState.thumbWidth narrowState.thumbPadding 4
      = 320 := by
  decide

/-- The rows that the second loop of `drawLeafsThumbnail` leaves when the first
loop built rows without a hole before them. -/
theorem thumbnailView_of_leafMap (h : NavHooks) (book : BookModel) (s : State)
    (seekIndex : Option Int) (rows : List Row)
    (hmap : (thumbnailLeafMap book s seekIndex).leafMap = [] ++ rows.map some) :
    ∃ view, thumbnailView h book s seekIndex = Except.ok view ∧
      view.leafMap = (assignTops s.thumbPadding 0 rows).map some := by
  obtain ⟨view, pre, rows', chunks, hv, hbuilt, hview, hpre, _⟩ :=
    thumbnailView_rows h book s seekIndex
  refine ⟨view, hv, ?_⟩
  rw [hmap] at hbuilt
  rcases hpre with hp | hp
  · subst hp
    simp only [List.nil_append] at hbuilt hview
    have hrows : rows = rows' :=
      List.map_injective_iff.mpr (Option.some_injective _) hbuilt
    rw [hview, hrows]
  · subst hp
    cases rows with
    | nil => simp at hbuilt
    | cons r rest => simp at hbuilt

/-- The mode `getInitialMode` returns is known when `params.mode` is absent or
known, as it is for params parsed by `paramsFromFragment`. -/
theorem getInitialMode_known (s : State) (params : Params)
    (hparams : params.mode = ModeVal.undefined ∨ KnownMode params.mode) :
    KnownMode (getInitialMode s params) := by
  unfold getInitialMode
  simp only []
  split_ifs with hdef hcan hfull hcan hcan
  all_goals first
    | exact Or.inl rfl
    | exact Or.inr (Or.inl rfl)
    | (rcases hparams with hu | hk
       · exact absurd hu hdef
       · exact hk)

/-- An accepted `switchMode(1up)`: the one-page view is prepared on the state in
which `reduce` is `quantizeReduce(pageScale, onePage.reductionFactors)` on the
table just recomputed, the `reduce` of a member at the least computed distance,
and the result does not depend on the value that `reduce` held before. -/
theorem switchMode_1up_run (h : Hooks) (s : State) (options : SwitchModeOptions)
    (r : ℚ)
    (haccept : s.initComplete = true → s.mode ≠ ModeVal.num constMode1up)
    (hscale : ∀ t, (h.removeSearchHilites t).pageScale = t.pageScale)
    (hsearch : ∀ (t : State) (r : ℚ),
      h.removeSearchHilites { t with reduce := r } = { h.removeSearchHilites t with reduce := r })
    (hcalc : ∀ t, (h.onePageCalculateReductionFactors t).reduce = t.reduce)
    (htable : (h.onePageCalculateReductionFactors
      (switchModeEnter h s constMode1up)).onePageReductionFactors ≠ []) :
    ∃ q : ℚ,
      quantizeReduce s.pageScale
        (h.onePageCalculateReductionFactors
          (switchModeEnter h s constMode1up)).onePageReductionFactors = Except.ok q ∧
      switchMode h s constMode1up options
        = Except.ok (switchModeFinish h (h.prepareOnePageView
            { h.onePageCalculateReductionFactors (switchModeEnter h s constMode1up) with
              reduce := q }) constMode1up options) ∧
      (∃ f ∈ (h.onePageCalculateReductionFactors
          (switchModeEnter h s constMode1up)).onePageReductionFactors, f.reduce = q) ∧
      (∀ f ∈ (h.onePageCalculateReductionFactors
          (switchModeEnter h s constMode1up)).onePageReductionFactors,
        absDifference s.pageScale q ≤ absDifference s.pageScale f.reduce) ∧
      switchMode h { s with reduce := r } constMode1up options
        = switchMode h s constMode1up options := by
  have hcan : ∀ t : State, canSwitchToMode t (ModeVal.num constMode1up) = true := by
    intro t
    simp [canSwitchToMode, constMode1up, constMode2up, constModeThumb]
  have hreduce : (h.onePageCalculateReductionFactors (switchModeEnter h s constMode1up)).reduce
      = s.pageScale := by
    rw [hcalc]
    have hr : (switchModeEnter h s constMode1up).reduce
        = (switchModeEnter h s constMode1up).pageScale := by
      rw [switchModeEnter_shape]
    rw [hr]
    exact switchModeEnter_field (fun t => t.pageScale) h s constMode1up hscale
      (fun _ _ _ _ _ => rfl)
  have henter : switchModeEnter h { s with reduce := r } constMode1up
      = switchModeEnter h s constMode1up := by
    have hpre : (if ({ s with reduce := r } : State).enableSearch = true
          then h.removeSearchHilites (trigger { s with reduce := r } Event.stop)
          else trigger { s with reduce := r } Event.stop)
        = { (if s.enableSearch = true then h.removeSearchHilites (trigger s Event.stop)
              else trigger s Event.stop) with reduce := r } := by
      by_cases hs : s.enableSearch = true
      · have hs' : ({ s with reduce := r } : State).enableSearch = true := hs
        rw [if_pos hs', if_pos hs]
        exact hsearch (trigger s Event.stop) r
      · have hs' : ¬ ({ s with reduce := r } : State).enableSearch = true := hs
        rw [if_neg hs', if_neg hs]
        rfl
    rw [switchModeEnter_shape, switchModeEnter_shape, hpre]
    rfl
  obtain ⟨q, hq, hmem, hclose⟩ := quantizeReduce_member_closest s.pageScale _ htable
  have hrun : switchModeBody h s constMode1up options
      = Except.ok (switchModeFinish h (h.prepareOnePageView
          { h.onePageCalculateReductionFactors (switchModeEnter h s constMode1up) with
            reduce := q }) constMode1up options) := by
    rw [switchModeBody_1up, hreduce, hq]
  refine ⟨q, hq, ?_, hmem, hclose, ?_⟩
  · rw [switchMode_accepted h s constMode1up options (fun hc => ⟨haccept hc, hcan s⟩), hrun]
  · rw [switchMode_accepted h s constMode1up options (fun hc => ⟨haccept hc, hcan s⟩),
      switchMode_accepted h { s with reduce := r } constMode1up options
        (fun hc => ⟨haccept hc, hcan _⟩),
      switchModeBody_1up, switchModeBody_1up, henter]

/-- The greatest height bounds every member of the list. -/
theorem le_maxHeight (l : List Nat) : ∀ x ∈ l, x ≤ maxHeight l := by
  unfold maxHeight
  induction l with
  | nil => intro x hx; simp at hx
  | cons a l ih =>
    intro x hx
    simp only [List.foldr_cons]
    rcases List.mem_cons.mp hx with rfl | hx
    · exact le_max_left _ _
    · exact le_trans (ih x hx) (le_max_right _ _)

/-- The greatest height of a non-empty list is one of its members. -/
theorem maxHeight_mem (l : List Nat) (hl : l ≠ []) : maxHeight l ∈ l := by
  unfold maxHeight
  induction l with
  | nil => exact absurd rfl hl
  | cons a l ih =>
    simp only [List.foldr_cons]
    by_cases hnil : l = []
    · subst hnil
      simp
    · rcases le_total a (List.foldr max 0 l) with hle | hle
      · rw [max_eq_right hle]
        exact List.mem_cons_of_mem _ (ih hnil)
      · rw [max_eq_left hle]
        exact List.mem_cons_self _ _

/-- The thumbnail height is the floor of the exact quotient
`page.height * thumbWidth / page.width`. -/
theorem thumbLeafHeight_floor (thumbWidth : Nat) (page : PageModel) :
    ((thumbLeafHeight thumbWidth page : Nat) : Int)
      = ⌊((page.height * thumbWidth : Nat) : ℚ) / (page.width : ℚ)⌋ := by
  unfold thumbLeafHeight
  rw [← Int.natCast_floor_eq_floor (by positivity), Nat.floor_div_eq_div]

/-- A row whose height is the greatest thumbnail height of its pages reaches the
floor of `page.height * thumbWidth / page.width` for one of its pages and is not
below it for any. -/
theorem row_height_floor (thumbWidth : Nat) (row : Row) (chunk : List PageModel)
    (hchunk : chunk ≠ [])
    (hheight : row.height = maxHeight (chunk.map (thumbLeafHeight thumbWidth))) :
    (∀ page ∈ chunk,
      ⌊((page.height * thumbWidth : Nat) : ℚ) / (page.width : ℚ)⌋ ≤ (row.height : Int)) ∧
    (∃ page ∈ chunk,
      (row.height : Int) = ⌊((page.height * thumbWidth : Nat) : ℚ) / (page.width : ℚ)⌋) := by
  constructor
  · intro page hpage
    rw [← thumbLeafHeight_floor, hheight]
    exact_mod_cast le_maxHeight _ _ (List.mem_map_of_mem _ hpage)
  · have hmem := maxHeight_mem (chunk.map (thumbLeafHeight thumbWidth)) (by simpa using hchunk)
    obtain ⟨page, hpage, heq⟩ := List.mem_map.mp hmem
    exact ⟨page, hpage, by rw [← thumbLeafHeight_floor, hheight, heq]⟩

/-! ## Theorems -/

/-- C1, counterexample: for the double `1.3` and the table `[0.1, 2.5]`
`quantizeReduce` returns `0.1`, although `2.5` is strictly closer to `1.3`: the
difference `1.3 - 0.1` is rounded down to the double written `1.2`, which
`2.5 - 1.3` is exactly. -/
theorem quantizeReduce_not_closest :
    quantizeReduce double13 [⟨double01, Autofit.other⟩, ⟨5 / 2, Autofit.other⟩]
      = Except.ok double01 ∧
    |double13 - 5 / 2| < |double13 - double01| ∧
    absDifference double13 (5 / 2) = absDifference double13 double01 :=
  ⟨quantizeReduce_rounding, double13_closer_to_25,
    absDifference_13_25.trans absDifference_13_01.symm⟩

/-- C1, amended: for every requested ratio `r` and every non-empty list `F` of
reduction factors, `quantizeReduce r F` returns the `reduce` value of some element
of `F`, and no element of `F` has a `reduce` value strictly closer to `r` than the
returned value in the absolute difference as the code computes it,
`Math.abs(r - f)` with the subtraction rounded to a double. -/
theorem quantizeReduce_closest (r : ℚ) (F : List ReductionFactor) (hF : F ≠ []) :
    ∃ q, quantizeReduce r F = Except.ok q ∧ (∃ f ∈ F, f.reduce = q) ∧
      ∀ g ∈ F, ¬ (absDifference r g.reduce < absDifference r q) := by
  obtain ⟨l1, f, l2, hl, hq, h1, h2⟩ := quantizeReduce_first_min r F hF
  refine ⟨f.reduce, hq, ⟨f, by simp [hl], rfl⟩, ?_⟩
  intro g hg
  rw [hl] at hg
  rcases List.mem_append.mp hg with hg | hg
  · exact not_lt.mpr (le_of_lt (h1 g hg))
  · rcases List.mem_cons.mp hg with rfl | hg
    · exact lt_irrefl _
    · exact not_lt.mpr (h2 g hg)

/-- Witness for C1 on the table `[0.5, 1, 2]` with `r = 1.25`. -/
theorem quantizeReduce_closest_witness :
    ∃ q, quantizeReduce (5 / 4)
        [⟨1 / 2, Autofit.other⟩, ⟨1, Autofit.other⟩, ⟨2, Autofit.other⟩] = Except.ok q ∧
      (∃ f ∈ [(⟨1 / 2, Autofit.other⟩ : ReductionFactor), ⟨1, Autofit.other⟩,
        ⟨2, Autofit.other⟩], f.reduce = q) ∧
      ∀ g ∈ [(⟨1 / 2, Autofit.other⟩ : ReductionFactor), ⟨1, Autofit.other⟩,
        ⟨2, Autofit.other⟩], ¬ (absDifference (5 / 4) g.reduce < absDifference (5 / 4) q) :=
  quantizeReduce_closest (5 / 4) _ (by simp)

/-- C2, counterexample: for the ratio `2 ^ 53 + 4` and the ascending table
`[3.5, 4, 2 ^ 54 + 4]` the factors `4` and `2 ^ 54 + 4` are exactly equidistant
from the ratio and closer than `3.5`, yet `quantizeReduce` returns `3.5`, whose
difference `2 ^ 53 + 0.5` is rounded to `2 ^ 53`. -/
theorem quantizeReduce_tie_not_smaller :
    quantizeReduce 9007199254740996
        [⟨7 / 2, Autofit.other⟩, ⟨4, Autofit.other⟩, ⟨18014398509481988, Autofit.other⟩]
      = Except.ok (7 / 2) ∧
    |(9007199254740996 : ℚ) - 4| = |(9007199254740996 : ℚ) - 18014398509481988| ∧
    |(9007199254740996 : ℚ) - 4| < |(9007199254740996 : ℚ) - 7 / 2| ∧
    (7 / 2 : ℚ) ≤ 4 ∧ (4 : ℚ) ≤ 18014398509481988 := by
  refine ⟨quantizeReduce_large, ?_, ?_, ?_, ?_⟩ <;> norm_num [abs_of_pos, abs_of_neg]

/-- C2, amended: for an ascending-sorted factor list `F` and a ratio `r` that is
equidistant from two factors `a < b` of `F`, both closest to `r`, the distances
being those the code computes (`Math.abs(r - f)` with the subtraction rounded to
a double), `quantizeReduce r F` returns the smallest factor at that distance,
which is `a` when no factor below `a` is at the same computed distance; for
`F = [0.5, 1, 2]` and `r = 1.5` it returns `1`. -/
theorem quantizeReduce_tie_smaller (r : ℚ) (F : List ReductionFactor) (a b : ReductionFactor)
    (hsorted : F.Pairwise (fun x y => x.reduce ≤ y.reduce)) (ha : a ∈ F) (_hb : b ∈ F)
    (_hab : a.reduce < b.reduce)
    (_htie : absDifference r a.reduce = absDifference r b.reduce)
    (hmin : ∀ g ∈ F, absDifference r a.reduce ≤ absDifference r g.reduce)
    (hfirst : ∀ g ∈ F, g.reduce < a.reduce →
      absDifference r g.reduce ≠ absDifference r a.reduce) :
    (∃ f ∈ F, quantizeReduce r F = Except.ok f.reduce ∧
      absDifference r f.reduce = absDifference r a.reduce ∧
      ∀ g ∈ F, absDifference r g.reduce = absDifference r a.reduce → f.reduce ≤ g.reduce) ∧
    quantizeReduce r F = Except.ok a.reduce ∧
    quantizeReduce (3 / 2) [⟨1 / 2, Autofit.other⟩, ⟨1, Autofit.other⟩, ⟨2, Autofit.other⟩]
      = Except.ok 1 := by
  have hF : F ≠ [] := List.ne_nil_of_mem ha
  obtain ⟨l1, f, l2, hl, hq, h1, h2⟩ := quantizeReduce_first_min r F hF
  have hfF : f ∈ F := by simp [hl]
  -- the returned factor is at the least computed distance
  have hall : ∀ g ∈ F, absDifference r f.reduce ≤ absDifference r g.reduce := by
    intro g hg
    rw [hl] at hg
    rcases List.mem_append.mp hg with hg | hg
    · exact le_of_lt (h1 g hg)
    · rcases List.mem_cons.mp hg with rfl | hg
      · exact le_refl _
      · exact h2 g hg
  have hfa : absDifference r f.reduce = absDifference r a.reduce :=
    le_antisymm (hall a ha) (hmin f hfF)
  -- a factor at that distance is not before the returned one
  have hafter : ∀ g ∈ F, absDifference r g.reduce = absDifference r a.reduce →
      f.reduce ≤ g.reduce := by
    intro g hg hga
    rw [hl] at hg
    rcases List.mem_append.mp hg with hg | hg
    · exact absurd (h1 g hg) (by rw [hfa, hga]; exact lt_irrefl _)
    · rcases List.mem_cons.mp hg with rfl | hg
      · exact le_refl _
      · rw [hl] at hsorted
        have h3 := (List.pairwise_append.mp hsorted).2.1
        exact (List.pairwise_cons.mp h3).1 g hg
  have hfle : f.reduce ≤ a.reduce := hafter a ha rfl
  have heq : f.reduce = a.reduce := by
    rcases lt_or_eq_of_le hfle with hlt | heq
    · exact absurd hfa (hfirst f hfF hlt)
    · exact heq
  refine ⟨⟨f, hfF, hq, hfa, hafter⟩, ?_, quantizeReduce_three_halves⟩
  rw [hq, heq]

/-- Witness for C2: the table `[0.5, 1, 2]`, `r = 1.5`, tied factors `1` and `2`. -/
theorem quantizeReduce_tie_smaller_witness :
    quantizeReduce (3 / 2) [⟨1 / 2, Autofit.other⟩, ⟨1, Autofit.other⟩, ⟨2, Autofit.other⟩]
        = Except.ok (⟨1, Autofit.other⟩ : ReductionFactor).reduce := by
  have h1 : absDifference (3 / 2) (1 / 2) = 1 := by
    rw [absDifference_exact (3 / 2) (1 / 2) 1 0 (by norm_num) (by norm_num) (by norm_num)
      (by norm_num)]
    norm_num [abs_of_pos]
  have h2 : absDifference (3 / 2) 1 = 1 / 2 := by
    rw [absDifference_exact (3 / 2) 1 1 (-1) (by norm_num) (by norm_num) (by norm_num)
      (by norm_num)]
    norm_num [abs_of_pos]
  have h3 : absDifference (3 / 2) 2 = 1 / 2 := by
    rw [absDifference_exact (3 / 2) 2 (-1) (-1) (by norm_num) (by norm_num) (by norm_num)
      (by norm_num)]
    norm_num [abs_of_neg]
  exact (quantizeReduce_tie_smaller (3 / 2)
    [⟨1 / 2, Autofit.other⟩, ⟨1, Autofit.other⟩, ⟨2, Autofit.other⟩]
    ⟨1, Autofit.other⟩ ⟨2, Autofit.other⟩
    (by norm_num) (by simp) (by simp) (by norm_num)
    (by rw [h2, h3])
    (by
      intro g hg
      simp only [List.mem_cons, List.mem_singleton, List.not_mem_nil, or_false] at hg
      rcases hg with rfl | rfl | rfl
      · rw [h1, h2]; norm_num
      · exact le_refl _
      · rw [h2, h3])
    (by
      intro g hg hlt
      simp only [List.mem_cons, List.mem_singleton, List.not_mem_nil, or_false] at hg
      rcases hg with rfl | rfl | rfl
      · rw [h1, h2]; norm_num
      · exact absurd hlt (lt_irrefl _)
      · norm_num at hlt)).2.1

/-- C3: for a non-empty ascending-sorted factor list `F` and a current ratio `c`,
`nextReduce c 'in' F` returns a factor of `F` with the largest `reduce` value
strictly below `c` when some factor is strictly below `c`, and returns `F[0]`
when none is. -/
theorem nextReduce_in_spec (c : ℚ) (F : List ReductionFactor) (hF : F ≠ [])
    (hsorted : F.Pairwise (fun x y => x.reduce ≤ y.reduce)) :
    ∃ f, nextReduce c Direction.zoomIn F = some f ∧ f ∈ F ∧
      ((∃ g ∈ F, g.reduce < c) →
        f.reduce < c ∧ ∀ g ∈ F, g.reduce < c → g.reduce ≤ f.reduce) ∧
      ((∀ g ∈ F, ¬ g.reduce < c) → F[0]? = some f)  :=
  nextReduce_zoomIn_char c F hF hsorted

/-- Witness for C3 on the table `[0.5, 1, 2]` with `c = 1.5`. -/
theorem nextReduce_in_spec_witness :
    ∃ f, nextReduce (3 / 2) Direction.zoomIn
        [⟨1 / 2, Autofit.other⟩, ⟨1, Autofit.other⟩, ⟨2, Autofit.other⟩] = some f ∧
      f ∈ [(⟨1 / 2, Autofit.other⟩ : ReductionFactor), ⟨1, Autofit.other⟩, ⟨2, Autofit.other⟩] ∧
      ((∃ g ∈ [(⟨1 / 2, Autofit.other⟩ : ReductionFactor), ⟨1, Autofit.other⟩,
          ⟨2, Autofit.other⟩], g.reduce < 3 / 2) →
        f.reduce < 3 / 2 ∧
        ∀ g ∈ [(⟨1 / 2, Autofit.other⟩ : ReductionFactor), ⟨1, Autofit.other⟩,
          ⟨2, Autofit.other⟩], g.reduce < 3 / 2 → g.reduce ≤ f.reduce) ∧
      ((∀ g ∈ [(⟨1 / 2, Autofit.other⟩ : ReductionFactor), ⟨1, Autofit.other⟩,
          ⟨2, Autofit.other⟩], ¬ g.reduce < 3 / 2) →
        [(⟨1 / 2, Autofit.other⟩ : ReductionFactor), ⟨1, Autofit.other⟩,
          ⟨2, Autofit.other⟩][0]? = some f) :=
  nextReduce_in_spec (3 / 2) _ (by simp) (by norm_num)

/-- C4: for a non-empty ascending-sorted factor list `F` and a current ratio `c`,
`nextReduce c 'out' F` returns a factor of `F` with the smallest `reduce` value
strictly above `c` when some factor is strictly above `c`, and returns the last
factor of `F` when none is. -/
theorem nextReduce_out_spec (c : ℚ) (F : List ReductionFactor) (hF : F ≠ [])
    (hsorted : F.Pairwise (fun x y => x.reduce ≤ y.reduce)) :
    ∃ f, nextReduce c Direction.zoomOut F = some f ∧ f ∈ F ∧
      ((∃ g ∈ F, c < g.reduce) →
        c < f.reduce ∧ ∀ g ∈ F, c < g.reduce → f.reduce ≤ g.reduce) ∧
      ((∀ g ∈ F, ¬ c < g.reduce) → F.getLast? = some f) := by
  have hlen : 0 < F.length := List.length_pos.mpr hF
  rcases nextReduceOutLoop_spec c F F.length (F.length - 1) with
    ⟨heq, hall⟩ | ⟨hlt, f, hf, hc, hall⟩
  · have hnone : ∀ g ∈ F, ¬ c < g.reduce := by
      intro g hg
      obtain ⟨j, hj, hgj⟩ := List.mem_iff_getElem.mp hg
      exact hall j hj g (by rw [List.getElem?_eq_getElem hj, hgj])
    have hlast : F.length - 1 < F.length := by omega
    refine ⟨F[F.length - 1], ?_, List.getElem_mem _, ?_, ?_⟩
    · simp only [nextReduce, heq]
      exact List.getElem?_eq_getElem hlast
    · rintro ⟨g, hg, hgc⟩
      exact absurd hgc (hnone g hg)
    · intro _
      rw [List.getLast?_eq_getElem?]
      exact List.getElem?_eq_getElem hlast
  · refine ⟨f, by simp only [nextReduce]; exact hf, List.mem_iff_getElem?.mpr ⟨_, hf⟩,
      fun _ => ⟨hc, ?_⟩, fun hnone => absurd hc (hnone f (List.mem_iff_getElem?.mpr ⟨_, hf⟩))⟩
    intro g hg hgc
    obtain ⟨j, hj, hgj⟩ := List.mem_iff_getElem.mp hg
    obtain ⟨hk, hfk⟩ := List.getElem?_eq_some.mp hf
    rcases Nat.lt_trichotomy j (nextReduceOutLoop c F F.length (F.length - 1)) with h | h | h
    · exact absurd hgc (hall j h g (by rw [List.getElem?_eq_getElem hj, hgj]))
    · subst h
      rw [← hgj, ← hfk]
    · have := List.pairwise_iff_getElem.mp hsorted _ j hk hj h
      rw [hfk, hgj] at this
      exact this

/-- Witness for C4 on the table `[0.5, 1, 2]` with `c = 0.75`. -/
theorem nextReduce_out_spec_witness :
    ∃ f, nextReduce (3 / 4) Direction.zoomOut
        [⟨1 / 2, Autofit.other⟩, ⟨1, Autofit.other⟩, ⟨2, Autofit.other⟩] = some f ∧
      f ∈ [(⟨1 / 2, Autofit.other⟩ : ReductionFactor), ⟨1, Autofit.other⟩, ⟨2, Autofit.other⟩] ∧
      ((∃ g ∈ [(⟨1 / 2, Autofit.other⟩ : ReductionFactor), ⟨1, Autofit.other⟩,
          ⟨2, Autofit.other⟩], 3 / 4 < g.reduce) →
        3 / 4 < f.reduce ∧
        ∀ g ∈ [(⟨1 / 2, Autofit.other⟩ : ReductionFactor), ⟨1, Autofit.other⟩,
          ⟨2, Autofit.other⟩], 3 / 4 < g.reduce → f.reduce ≤ g.reduce) ∧
      ((∀ g ∈ [(⟨1 / 2, Autofit.other⟩ : ReductionFactor), ⟨1, Autofit.other⟩,
          ⟨2, Autofit.other⟩], ¬ 3 / 4 < g.reduce) →
        [(⟨1 / 2, Autofit.other⟩ : ReductionFactor), ⟨1, Autofit.other⟩,
          ⟨2, Autofit.other⟩].getLast? = some f) :=
  nextReduce_out_spec (3 / 4) _ (by simp) (by norm_num)

/-- C5: on the table `[{1, 'height'}, {2, 'width'}]` the `'auto'` direction returns
`{2, 'width'}`, although the candidate `{1, 'height'}` has a strictly smaller
`reduce`, that is, less reduction: the factor returned is not the one with the
least reduction, which the comment above the loop says is chosen. -/
theorem nextReduce_auto_not_least_reduction :
    nextReduce 1 Direction.auto [⟨1, Autofit.height⟩, ⟨2, Autofit.width⟩]
      = some ⟨2, Autofit.width⟩ ∧
    ∃ g ∈ [(⟨1, Autofit.height⟩ : ReductionFactor), ⟨2, Autofit.width⟩],
      (g.autofit = Autofit.height ∨ g.autofit = Autofit.width) ∧ g.reduce < (2 : ℚ) := by
  refine ⟨?_, ⟨1, Autofit.height⟩, by simp, by simp, by norm_num⟩
  simp [nextReduce, nextReduceAutoLoop]

/-- The `'auto'` direction as the loop computes it: `nextReduce c 'auto' F` returns
the first factor tagged `'auto'` if one exists; otherwise, if some factor is
tagged `'height'` or `'width'`, one of those with the largest `reduce` value;
otherwise `F[0]`.  The result does not depend on `c`. -/
theorem nextReduce_auto_spec (c : ℚ) (F : List ReductionFactor) :
    (∀ l1 f l2, F = l1 ++ f :: l2 → f.autofit = Autofit.auto →
      (∀ g ∈ l1, g.autofit ≠ Autofit.auto) → nextReduce c Direction.auto F = some f) ∧
    ((∀ g ∈ F, g.autofit ≠ Autofit.auto) →
      (∃ g ∈ F, g.autofit = Autofit.height ∨ g.autofit = Autofit.width) →
      ∃ f, nextReduce c Direction.auto F = some f ∧ f ∈ F ∧
        (f.autofit = Autofit.height ∨ f.autofit = Autofit.width) ∧
        ∀ g ∈ F, (g.autofit = Autofit.height ∨ g.autofit = Autofit.width) →
          g.reduce ≤ f.reduce) ∧
    ((∀ g ∈ F, g.autofit = Autofit.other) → nextReduce c Direction.auto F = F[0]?) ∧
    (∀ c' : ℚ, nextReduce c' Direction.auto F = nextReduce c Direction.auto F) := by
  refine ⟨?_, ?_, ?_, fun c' => rfl⟩
  · intro l1 f l2 hl hf hl1
    have : F.find? (fun rf => rf.autofit == Autofit.auto) = some f := by
      rw [List.find?_eq_some]
      refine ⟨by simp [hf], l1, l2, hl, ?_⟩
      intro a ha
      simpa using hl1 a ha
    simp [nextReduce, this]
  · intro hno ⟨g0, hg0, hg0t⟩
    have hfind : F.find? (fun rf => rf.autofit == Autofit.auto) = none := by
      rw [List.find?_eq_none]
      intro x hx
      simpa using hno x hx
    have hmemc : ∀ g, g ∈ F.filter
        (fun rf => rf.autofit == Autofit.height || rf.autofit == Autofit.width) ↔
        g ∈ F ∧ (g.autofit = Autofit.height ∨ g.autofit = Autofit.width) := by
      intro g
      simp [List.mem_filter]
    have hne : F.filter
        (fun rf => rf.autofit == Autofit.height || rf.autofit == Autofit.width) ≠ [] :=
      List.ne_nil_of_mem ((hmemc g0).mpr ⟨hg0, hg0t⟩)
    obtain ⟨r, hr, hrmem, hall⟩ := nextReduceAutoLoop_none _ hne
    have hr2 := (hmemc r).mp hrmem
    refine ⟨r, by simp only [nextReduce, hfind, hr], hr2.1, hr2.2, ?_⟩
    intro g hg hgt
    exact hall g ((hmemc g).mpr ⟨hg, hgt⟩)
  · intro hother
    have hfind : F.find? (fun rf => rf.autofit == Autofit.auto) = none := by
      rw [List.find?_eq_none]
      intro x hx
      simp [hother x hx]
    have hfilter : F.filter
        (fun rf => rf.autofit == Autofit.height || rf.autofit == Autofit.width) = [] := by
      rw [List.filter_eq_nil_iff]
      intro x hx
      simp [hother x hx]
    simp only [nextReduce, hfind, hfilter, nextReduceAutoLoop]

/-- The second part of `nextReduce_auto_spec` on the table
`[{1, 'height'}, {2, 'width'}]`. -/
theorem nextReduce_auto_spec_witness :
    ∃ f, nextReduce 1 Direction.auto [⟨1, Autofit.height⟩, ⟨2, Autofit.width⟩] = some f ∧
      f ∈ [(⟨1, Autofit.height⟩ : ReductionFactor), ⟨2, Autofit.width⟩] ∧
      (f.autofit = Autofit.height ∨ f.autofit = Autofit.width) ∧
      ∀ g ∈ [(⟨1, Autofit.height⟩ : ReductionFactor), ⟨2, Autofit.width⟩],
        (g.autofit = Autofit.height ∨ g.autofit = Autofit.width) → g.reduce ≤ f.reduce :=
  (nextReduce_auto_spec 1 [⟨1, Autofit.height⟩, ⟨2, Autofit.width⟩]).2.1
    (by simp) ⟨⟨1, Autofit.height⟩, by simp, by simp⟩

/-- C6: for every factor list `F` and direction `d` in `'height'`, `'width'`,
`nextReduce c d F` returns the first factor of `F` whose autofit tag equals `d`,
and returns `F[0]` when no factor carries that tag; a factor with another tag is
returned only when it is `F[0]`. -/
theorem nextReduce_height_width_spec (c : ℚ) (d : Direction) (F : List ReductionFactor)
    (hd : d = Direction.height ∨ d = Direction.width) :
    (∀ l1 f l2, F = l1 ++ f :: l2 → f.autofit = d.toAutofit →
      (∀ g ∈ l1, g.autofit ≠ d.toAutofit) → nextReduce c d F = some f) ∧
    ((∀ g ∈ F, g.autofit ≠ d.toAutofit) → nextReduce c d F = F[0]?) ∧
    (F ≠ [] → ∃ f, nextReduce c d F = some f ∧ f ∈ F) ∧
    (∀ f, nextReduce c d F = some f → f.autofit ≠ d.toAutofit → F[0]? = some f) := by
  have key : nextReduce c d F =
      match F.find? (fun rf => rf.autofit == d.toAutofit) with
      | some m => some m
      | none => F[0]? := by
    rcases hd with rfl | rfl <;> rfl
  refine ⟨?_, ?_, ?_, ?_⟩
  · intro l1 f l2 hl hf hl1
    have : F.find? (fun rf => rf.autofit == d.toAutofit) = some f := by
      rw [List.find?_eq_some]
      refine ⟨by simp [hf], l1, l2, hl, ?_⟩
      intro a ha
      simpa using hl1 a ha
    rw [key, this]
  · intro hno
    have hfind : F.find? (fun rf => rf.autofit == d.toAutofit) = none := by
      rw [List.find?_eq_none]
      intro x hx
      simpa using hno x hx
    rw [key, hfind]
  · intro hF
    rw [key]
    cases hfind : F.find? (fun rf => rf.autofit == d.toAutofit) with
    | some m => exact ⟨m, rfl, List.mem_of_find?_eq_some hfind⟩
    | none =>
      cases F with
      | nil => exact absurd rfl hF
      | cons f0 rest => exact ⟨f0, by simp, by simp⟩
  · intro f hf hne
    rw [key] at hf
    cases hfind : F.find? (fun rf => rf.autofit == d.toAutofit) with
    | some m =>
      rw [hfind] at hf
      cases hf
      have := List.find?_some hfind
      exact absurd (by simpa using this) hne
    | none =>
      rw [hfind] at hf
      exact hf

/-- Witness for C6: direction `'width'` on `[{1, 'height'}, {2, 'width'}]`. -/
theorem nextReduce_height_width_spec_witness :
    nextReduce 1 Direction.width [⟨1, Autofit.height⟩, ⟨2, Autofit.width⟩]
      = some ⟨2, Autofit.width⟩ :=
  (nextReduce_height_width_spec 1 Direction.width [⟨1, Autofit.height⟩, ⟨2, Autofit.width⟩]
    (Or.inr rfl)).1 [⟨1, Autofit.height⟩] ⟨2, Autofit.width⟩ [] rfl rfl
    (by simp [Direction.toAutofit])

/-- C7: for a strictly ascending factor list `F` of length `n ≥ 1`, iterating
`c := nextReduce(c, 'in', F).reduce` from the last ratio gives after `j` steps the
ratio at index `n - 1 - j`: the ratios strictly decrease and stay above
`F[0].reduce` during the first `n - 1` steps, `F[0].reduce` is reached after
exactly `n - 1` steps, and every further step stays at `F[0].reduce`. -/
theorem zoomInIterate_descends (F : List ReductionFactor) (first last : ReductionFactor)
    (hstrict : F.Pairwise (fun x y => x.reduce < y.reduce))
    (hfirst : F[0]? = some first) (hlast : F.getLast? = some last) :
    (∀ j, zoomInIterate F j last.reduce = (F[F.length - 1 - j]?).map (fun g => g.reduce)) ∧
    (∀ j, j < F.length - 1 → ∃ q q', zoomInIterate F j last.reduce = some q ∧
      zoomInIterate F (j + 1) last.reduce = some q' ∧ q' < q ∧ first.reduce < q) ∧
    (∀ j, F.length - 1 ≤ j → zoomInIterate F j last.reduce = some first.reduce) := by
  rw [List.getLast?_eq_getElem?] at hlast
  have hmain := fun j => zoomInIterate_index F hstrict j (F.length - 1) last hlast
  obtain ⟨hlen, _⟩ := List.getElem?_eq_some.mp hfirst
  have hidx := List.pairwise_iff_getElem.mp hstrict
  refine ⟨hmain, ?_, ?_⟩
  · intro j hj
    have h1 : F.length - 1 - j < F.length := by omega
    have h2 : F.length - 1 - (j + 1) < F.length := by omega
    refine ⟨F[F.length - 1 - j].reduce, F[F.length - 1 - (j + 1)].reduce, ?_, ?_, ?_, ?_⟩
    · rw [hmain j, List.getElem?_eq_getElem h1]; rfl
    · rw [hmain (j + 1), List.getElem?_eq_getElem h2]; rfl
    · exact hidx _ _ h2 h1 (by omega)
    · have := hidx 0 (F.length - 1 - j) hlen h1 (by omega)
      rw [List.getElem?_eq_getElem hlen] at hfirst
      cases hfirst
      exact this
  · intro j hj
    rw [hmain j]
    have : F.length - 1 - j = 0 := by omega
    rw [this, hfirst]
    rfl

/-- Witness for C7 on the table `[0.5, 1, 2]`. -/
theorem zoomInIterate_descends_witness :
    zoomInIterate [⟨1 / 2, Autofit.other⟩, ⟨1, Autofit.other⟩, ⟨2, Autofit.other⟩] 2 2
      = some (1 / 2) :=
  (zoomInIterate_descends [⟨1 / 2, Autofit.other⟩, ⟨1, Autofit.other⟩, ⟨2, Autofit.other⟩]
    ⟨1 / 2, Autofit.other⟩ ⟨2, Autofit.other⟩ (by norm_num) rfl rfl).2.2 2 (by simp)

/-- C8: for a book with fewer than 2 leaves, once `init` has completed,
`canSwitchToMode` is false for exactly the modes 2up and thumb, and
`switchMode` to 2up or to thumb returns without raising and leaves the whole
state as it was: no event is emitted and `mode`, `reduce` and `prevReadMode` are
unchanged. -/
theorem switchMode_refused_short_book (h : Hooks) (s : State) (options : SwitchModeOptions)
    (hinit : s.initComplete = true) (hshort : s.numLeafs < 2) :
    (∀ m : ModeVal, canSwitchToMode s m = false ↔
      (m = ModeVal.num constMode2up ∨ m = ModeVal.num constModeThumb)) ∧
    switchMode h s constMode2up options = Except.ok s ∧
    switchMode h s constModeThumb options = Except.ok s := by
  have hcan : ∀ m : ModeVal, canSwitchToMode s m = false ↔
      (m = ModeVal.num constMode2up ∨ m = ModeVal.num constModeThumb) := by
    intro m
    unfold canSwitchToMode
    by_cases hm : m = ModeVal.num constMode2up ∨ m = ModeVal.num constModeThumb
    · simp [hm, hshort]
    · simp [hm]
  refine ⟨hcan, ?_, ?_⟩
  · have h2 : canSwitchToMode s (ModeVal.num constMode2up) = false :=
      (hcan _).mpr (Or.inl rfl)
    unfold switchMode
    simp [hinit, h2]
  · have h3 : canSwitchToMode s (ModeVal.num constModeThumb) = false :=
      (hcan _).mpr (Or.inr rfl)
    unfold switchMode
    simp [hinit, h3]

/-- Witness for C8: the one-leaf book refuses the switch to two-page mode. -/
theorem switchMode_refused_short_book_witness :
    switchMode idHooks shortBook constMode2up ⟨false, false, false⟩ = Except.ok shortBook :=
  (switchMode_refused_short_book idHooks shortBook ⟨false, false, false⟩ rfl
    (by decide)).2.1

/-- C9: `getInitialMode` returns a mode that `canSwitchToMode` accepts; for a
book with fewer than 2 leaves it returns 1up when `params.mode` is absent, 1up,
2up or thumb; for a book with at least 2 leaves it returns `params.mode`
whenever that is defined. -/
theorem getInitialMode_spec (s : State) (params : Params) :
    canSwitchToMode s (getInitialMode s params) = true ∧
    (s.numLeafs < 2 →
      (params.mode = ModeVal.undefined ∨ params.mode = ModeVal.num constMode1up ∨
        params.mode = ModeVal.num constMode2up ∨ params.mode = ModeVal.num constModeThumb) →
      getInitialMode s params = ModeVal.num constMode1up) ∧
    (2 ≤ s.numLeafs → params.mode ≠ ModeVal.undefined →
      getInitialMode s params = params.mode) := by
  have h1 : canSwitchToMode s (ModeVal.num constMode1up) = true := by
    simp [canSwitchToMode, constMode1up, constMode2up, constModeThumb]
  refine ⟨?_, ?_, ?_⟩
  · have aux : ∀ nm : ModeVal, canSwitchToMode s
        (if canSwitchToMode s nm = true then nm else ModeVal.num constMode1up) = true := by
      intro nm
      by_cases hnm : canSwitchToMode s nm = true
      · rw [if_pos hnm]; exact hnm
      · rw [if_neg hnm]; exact h1
    exact aux _
  · intro hshort hmode
    have hno2 : canSwitchToMode s (ModeVal.num constMode2up) = false := by
      simp [canSwitchToMode, hshort]
    have hno3 : canSwitchToMode s (ModeVal.num constModeThumb) = false := by
      simp [canSwitchToMode, hshort]
    rcases hmode with hm | hm | hm | hm
    · unfold getInitialMode
      simp only [hm]
      split_ifs <;> simp_all
    · unfold getInitialMode
      simp [hm, h1]
    · unfold getInitialMode
      simp [hm, hno2]
    · unfold getInitialMode
      simp [hm, hno3]
  · intro hlong hdef
    have hcan : ∀ m, canSwitchToMode s m = true := by
      intro m
      unfold canSwitchToMode
      have : ¬ s.numLeafs < 2 := by omega
      simp [this]
    unfold getInitialMode
    simp [hdef, hcan]

/-- Witness for C9: the one-leaf book asked for two-page mode starts in 1up. -/
theorem getInitialMode_spec_witness :
    getInitialMode shortBook ⟨ModeVal.num constMode2up⟩ = ModeVal.num constMode1up :=
  (getInitialMode_spec shortBook ⟨ModeVal.num constMode2up⟩).2.1 (by decide)
    (Or.inr (Or.inr (Or.inl rfl)))

/-- C10: `currentIndex` raises exactly when `mode` is none of 1up, 2up, thumb; in
1up and thumb it returns `firstIndex` unchanged; in 2up, for a book with at least
one leaf, it returns `firstIndex` clamped into `[0, numLeafs - 1]`, so that the
blank sentinels `-1` and `numLeafs` are reported as `0` and `numLeafs - 1`. -/
theorem currentIndex_spec (s : State) :
    ((∃ e, currentIndex s = Except.error e) ↔
      (s.mode ≠ ModeVal.num constMode1up ∧ s.mode ≠ ModeVal.num constMode2up ∧
        s.mode ≠ ModeVal.num constModeThumb)) ∧
    (s.mode = ModeVal.num constMode1up ∨ s.mode = ModeVal.num constModeThumb →
      currentIndex s = Except.ok s.firstIndex) ∧
    (s.mode = ModeVal.num constMode2up → 1 ≤ s.numLeafs →
      ∃ i, currentIndex s = Except.ok i ∧ 0 ≤ i ∧ i ≤ (s.numLeafs : Int) - 1 ∧
        (0 ≤ s.firstIndex → s.firstIndex ≤ (s.numLeafs : Int) - 1 → i = s.firstIndex) ∧
        (s.firstIndex < 0 → i = 0) ∧
        ((s.numLeafs : Int) - 1 < s.firstIndex → i = (s.numLeafs : Int) - 1) ∧
        (s.firstIndex = -1 → i = 0) ∧
        (s.firstIndex = (s.numLeafs : Int) → i = (s.numLeafs : Int) - 1)) := by
  refine ⟨?_, ?_, ?_⟩
  · unfold currentIndex
    constructor
    · rintro ⟨e, he⟩
      split_ifs at he with h1 h2
      refine ⟨fun h => h1 (Or.inl h), h2, fun h => h1 (Or.inr h)⟩
    · rintro ⟨h1, h2, h3⟩
      refine ⟨JsError.unimplementedMode s.mode, ?_⟩
      simp [h1, h2, h3]
  · intro hm
    unfold currentIndex
    simp [hm]
  · intro hm hn
    have h12 : ¬ (s.mode = ModeVal.num constMode1up ∨ s.mode = ModeVal.num constModeThumb) := by
      rw [hm]
      decide
    have hn' : (1 : Int) ≤ (s.numLeafs : Int) := by exact_mod_cast hn
    refine ⟨clamp s.firstIndex 0 ((s.numLeafs : Int) - 1), ?_, ?_, ?_, ?_, ?_, ?_, ?_, ?_⟩
    · unfold currentIndex
      rw [if_neg h12, if_pos hm]
    all_goals unfold clamp
    all_goals omega

/-- Witness for C10: in two-page mode a one-leaf book with the blank sentinel
`firstIndex = -1` reports index `0`. -/
theorem currentIndex_spec_witness :
    ∃ i, currentIndex { shortBook with mode := ModeVal.num constMode2up, firstIndex := -1 }
        = Except.ok i ∧ i = 0 := by
  obtain ⟨i, hi, _, _, _, h0, _⟩ :=
    (currentIndex_spec { shortBook with mode := ModeVal.num constMode2up, firstIndex := -1 }).2.2
      rfl (by decide)
  exact ⟨i, hi, h0 (by decide)⟩

/-- C11: `jumpToPage` returns `false` without calling `jumpToIndex`, the state left
as it was, whenever `parsePageString` finds no page; in every other case it calls
`jumpToIndex` with the parsed index and returns `true` with the state that call
leaves (an exception of that call propagates), never `false`; in two-page mode
with a viewable target that call returns. -/
theorem jumpToPage_spec (h : NavHooks) (book : BookModel) (stack : Nat) (s : State)
    (pageNum : String) :
    (book.parsePageString pageNum = none →
      jumpToPage h book stack s pageNum = Except.ok (false, s)) ∧
    (∀ pageIndex, book.parsePageString pageNum = some pageIndex →
      (∀ s', jumpToIndex h book stack s pageIndex ⟨none, none, false⟩ = Except.ok s' →
        jumpToPage h book stack s pageNum = Except.ok (true, s')) ∧
      (∀ e, jumpToIndex h book stack s pageIndex ⟨none, none, false⟩ = Except.error e →
        jumpToPage h book stack s pageNum = Except.error e) ∧
      (∀ s', jumpToPage h book stack s pageNum ≠ Except.ok (false, s'))) ∧
    (∀ pageIndex page, book.parsePageString pageNum = some pageIndex →
      s.mode = ModeVal.num constMode2up → book.getPage pageIndex = some page →
      page.isViewable = true →
      ∃ s', jumpToPage h book (stack + 1) s pageNum = Except.ok (true, s')) := by
  refine ⟨?_, ?_, ?_⟩
  · intro hnone
    simp [jumpToPage, hnone]
  · intro pageIndex hsome
    refine ⟨?_, ?_, ?_⟩
    · intro s' hs'
      simp [jumpToPage, hsome, hs']
    · intro e he
      simp [jumpToPage, hsome, he]
    · intro s' hcon
      unfold jumpToPage at hcon
      simp only [hsome] at hcon
      cases hj : jumpToIndex h book stack s pageIndex ⟨none, none, false⟩ with
      | error e => rw [hj] at hcon; cases hcon
      | ok s2 => rw [hj] at hcon; cases hcon
  · intro pageIndex page hsome hmode hpage hview
    have hj := jumpToIndex_direct h book stack s pageIndex ⟨none, none, false⟩ page _
      (currentIndex_2up s hmode) hpage (Or.inl hview)
    rw [jumpToIndexBody_2up h book s pageIndex _ _ hmode] at hj
    unfold jumpToPage
    simp only [hsome, hj]
    split_ifs <;> exact ⟨_, rfl⟩

/-- Witness for C11: in the ten-leaf example book the unknown label `zz` gives
`false` and leaves the state as it was. -/
theorem jumpToPage_spec_witness :
    jumpToPage plainNavHooks runBook 3 (spreadState [] 1 2) "zz"
      = Except.ok (false, spreadState [] 1 2) :=
  (jumpToPage_spec plainNavHooks runBook 3 (spreadState [] 1 2) "zz").1 (by decide)

/-- C12: in two-page mode, for a viewable target `t` and current spread indices
`L`, `R`, `jumpToIndex t` starts a backward flip to `t` when `t < min(L, R)`, a
forward flip to `t` when `t > max(L, R)`, and otherwise starts no flip and only
triggers `stop`, `firstIndex` and the spread indices staying as they were; the
three cases exclude each other. -/
theorem jumpToIndex_2up_spec (h : NavHooks) (book : BookModel) (stack : Nat) (s : State)
    (t : Int) (args : JumpArgs) (page : PageModel)
    (hmode : s.mode = ModeVal.num constMode2up) (hpage : book.getPage t = some page)
    (hview : page.isViewable = true) :
    (t < min s.twoPage.currentIndexL s.twoPage.currentIndexR →
      jumpToIndex h book (stack + 1) s t args
        = Except.ok (h.flipBackToIndex (trigger s Event.stop) t)) ∧
    (t > max s.twoPage.currentIndexL s.twoPage.currentIndexR →
      jumpToIndex h book (stack + 1) s t args
        = Except.ok (h.flipFwdToIndex (trigger s Event.stop) t)) ∧
    (min s.twoPage.currentIndexL s.twoPage.currentIndexR ≤ t →
      t ≤ max s.twoPage.currentIndexL s.twoPage.currentIndexR →
      jumpToIndex h book (stack + 1) s t args = Except.ok (trigger s Event.stop) ∧
      (trigger s Event.stop).firstIndex = s.firstIndex ∧
      (trigger s Event.stop).twoPage = s.twoPage) ∧
    ¬ (t < min s.twoPage.currentIndexL s.twoPage.currentIndexR ∧
        t > max s.twoPage.currentIndexL s.twoPage.currentIndexR) := by
  have hj := jumpToIndex_direct h book stack s t args page _
    (currentIndex_2up s hmode) hpage (Or.inl hview)
  rw [jumpToIndexBody_2up h book s t _ _ hmode] at hj
  refine ⟨?_, ?_, ?_, ?_⟩
  · intro hlt
    rw [hj, if_pos hlt]
  · intro hgt
    have hnlt : ¬ t < min s.twoPage.currentIndexL s.twoPage.currentIndexR := by
      have := min_le_max (a := s.twoPage.currentIndexL) (b := s.twoPage.currentIndexR)
      omega
    rw [hj, if_neg hnlt, if_pos hgt]
  · intro hge hle
    refine ⟨?_, rfl, rfl⟩
    rw [hj, if_neg (not_lt.mpr hge), if_neg (not_lt.mpr hle)]
  · rintro ⟨h1, h2⟩
    have := min_le_max (a := s.twoPage.currentIndexL) (b := s.twoPage.currentIndexR)
    omega

/-- Witness for C12: on spread `(1, 2)` of the ten-leaf example book, jumping to
leaf 8 starts a forward flip to 8. -/
theorem jumpToIndex_2up_spec_witness :
    jumpToIndex plainNavHooks runBook 1 (spreadState [] 1 2) 8 ⟨none, none, false⟩
      = Except.ok (plainNavHooks.flipFwdToIndex (trigger (spreadState [] 1 2) Event.stop) 8) :=
  (jumpToIndex_2up_spec plainNavHooks runBook 0 (spreadState [] 1 2) 8 ⟨none, none, false⟩
    (runBookPage 8) rfl (by decide) (by decide)).2.1 (by decide)

/-- C13: for a page `i` that is unviewable and not the first of its unviewable
run, `jumpToIndex i` is the nested call on the start of the run when that start
is not displayed, and the nested call on the next traversal entry when it is;
when the retargeted page is viewable or starts its own run, the retargeted index
is not `i` and the recursion is entered once: with room for two calls,
`jumpToIndex i` is the direct jump to the retargeted index, the same result as
`jumpToIndex` of that index. -/
theorem jumpToIndex_unviewable_spec (h : NavHooks) (book : BookModel) (stack : Nat)
    (s : State) (i : Int) (args : JumpArgs) (page : PageModel) (current : Int)
    (hcur : currentIndex s = Except.ok current) (hpage : book.getPage i = some page)
    (hindex : page.index = i) (hunv : page.isViewable = false)
    (hstart : page.unviewablesStart ≠ i) :
    (isIndexDisplayed s page.unviewablesStart = Except.ok false →
      jumpToIndex h book (stack + 1) s i args
        = jumpToIndex h book stack s page.unviewablesStart args ∧
      ∀ target, book.getPage page.unviewablesStart = some target →
        (target.isViewable = true ∨ target.unviewablesStart = target.index) →
        jumpToIndex h book (stack + 2) s i args
          = jumpToIndexBody h book s page.unviewablesStart args current ∧
        jumpToIndex h book (stack + 2) s i args
          = jumpToIndex h book (stack + 2) s page.unviewablesStart args ∧
        page.unviewablesStart ≠ i) ∧
    (∀ newIndex, isIndexDisplayed s page.unviewablesStart = Except.ok true →
      page.findNext = some newIndex →
      jumpToIndex h book (stack + 1) s i args = jumpToIndex h book stack s newIndex args ∧
      ∀ target, book.getPage newIndex = some target →
        (target.isViewable = true ∨ target.unviewablesStart = target.index) →
        jumpToIndex h book (stack + 2) s i args
          = jumpToIndexBody h book s newIndex args current ∧
        jumpToIndex h book (stack + 2) s i args
          = jumpToIndex h book (stack + 2) s newIndex args ∧
        newIndex ≠ i) := by
  have hstart' : page.unviewablesStart ≠ page.index := by rw [hindex]; exact hstart
  constructor
  · intro hdisp
    refine ⟨jumpToIndex_retarget_start h book stack s i args page current hcur hpage hunv
      hstart' hdisp, ?_⟩
    intro target htarget hok
    have h1 := jumpToIndex_retarget_start h book (stack + 1) s i args page current hcur hpage
      hunv hstart' hdisp
    have h2 := jumpToIndex_direct h book stack s page.unviewablesStart args target current
      hcur htarget hok
    have h3 := jumpToIndex_direct h book (stack + 1) s page.unviewablesStart args target
      current hcur htarget hok
    exact ⟨h1.trans h2, (h1.trans h2).trans h3.symm, hstart⟩
  · intro newIndex hdisp hnext
    refine ⟨jumpToIndex_retarget_next h book stack s i args page current newIndex hcur hpage
      hunv hstart' hdisp hnext, ?_⟩
    intro target htarget hok
    have h1 := jumpToIndex_retarget_next h book (stack + 1) s i args page current newIndex
      hcur hpage hunv hstart' hdisp hnext
    have h2 := jumpToIndex_direct h book stack s newIndex args target current
      hcur htarget hok
    have h3 := jumpToIndex_direct h book (stack + 1) s newIndex args target
      current hcur htarget hok
    refine ⟨h1.trans h2, (h1.trans h2).trans h3.symm, ?_⟩
    intro heq
    rw [heq, hpage] at htarget
    cases htarget
    rcases hok with hv | hs
    · rw [hunv] at hv; cases hv
    · exact hstart' hs

/-- Witness for C13: in the ten-leaf example book, whose leaves 4 to 6 are
unviewable, jumping to leaf 5 while leaf 4 is not displayed is jumping to
leaf 4. -/
theorem jumpToIndex_unviewable_spec_witness :
    jumpToIndex plainNavHooks runBook 2 (spreadState [] 1 2) 5 ⟨none, none, false⟩
      = jumpToIndex plainNavHooks runBook 2 (spreadState [] 1 2) 4 ⟨none, none, false⟩ :=
  (((jumpToIndex_unviewable_spec plainNavHooks runBook 0 (spreadState [] 1 2) 5
    ⟨none, none, false⟩ (runBookPage 5) 10 rfl (by decide) (by decide) (by decide)
    (by decide)).1 rfl).2 (runBookPage 4) (by decide) (Or.inr (by decide))).2.1

/-- C14 (as stated, refuted): in a container of scroll width 1000 with thumbnail
width 100 and padding 10, twenty viewable pages are not laid out in rows of 9, 9
and 2. -/
theorem thumbnail_rows_not_9_9_2 :
    (thumbnailLeafMap thumbBook (thumbState 0) none).leafMap.map
      (Option.map (fun row => row.leafs.length)) ≠ [some 9, some 9, some 2] := by
  rw [uniform_row_counts]
  decide

/-- C14 (amended): in the row packing of `drawLeafsThumbnail` a new row is started
exactly when the horizontal cursor plus thumbnail width plus padding exceeds the
usable width `scrollWidth - 20`; when one thumbnail fits, every row except the
last holds the largest `k` with `k * (thumbWidth + thumbPadding) ≤ usable width`;
for scroll width 1000, thumbnail width 100 and padding 10 the usable width is
980, and twenty viewable pages are laid out in rows of 8, 8 and 4. -/
theorem thumbnail_rows_packing (book : BookModel) (s : State) (seekIndex : Option Int) :
    (∀ (st : LeafMapLoop) (page : PageModel),
      (leafMapStep (s.container.scrollWidth - 20) s.thumbWidth s.thumbPadding seekIndex st
        page).currentRow =
        if ((st.rightPos + (s.thumbWidth + s.thumbPadding) : Nat) : Int)
            > s.container.scrollWidth - 20 then st.currentRow + 1
        else st.currentRow) ∧
    (((s.thumbWidth + s.thumbPadding : Nat) : Int) ≤ s.container.scrollWidth - 20 →
      ∀ r, r + 1 < (thumbnailLeafMap book s seekIndex).leafMap.length →
        ∃ row, (thumbnailLeafMap book s seekIndex).leafMap.row r = some row ∧
          ((row.leafs.length * (s.thumbWidth + s.thumbPadding) : Nat) : Int)
            ≤ s.container.scrollWidth - 20 ∧
          s.container.scrollWidth - 20
            < (((row.leafs.length + 1) * (s.thumbWidth + s.thumbPadding) : Nat) : Int)) ∧
    (thumbnailLeafMap thumbBook (thumbState 0) none).leafMap.map
      (Option.map (fun row => row.leafs.length)) = [some 8, some 8, some 4] := by
  refine ⟨?_, ?_, uniform_row_counts⟩
  · intro st page
    by_cases hcond : ((st.rightPos + (s.thumbWidth + s.thumbPadding) : Nat) : Int)
        > s.container.scrollWidth - 20
    · rw [if_pos hcond]
      exact (leafMapStep_newRow _ _ _ seekIndex st page hcond).2.1
    · rw [if_neg hcond]
      exact (leafMapStep_sameRow _ _ _ seekIndex st page hcond).2.1
  · intro hfits r hr
    have hinv := LeafMapInv_build (s.container.scrollWidth - 20) s.thumbWidth s.thumbPadding
      seekIndex book.pagesIterator
    unfold thumbnailLeafMap at hr ⊢
    simp only [] at hr ⊢
    rcases hinv with ⟨hmap, _⟩ |
      ⟨pre, rows, last, chunks, lastChunk, hmap, hpre, _, _, _, _, _, _, hfull, hfit⟩
    · rw [hmap] at hr
      simp at hr
    · have hp : pre = [] := by
        rcases hpre with hp | ⟨_, hlt⟩
        · exact hp
        · omega
      subst hp
      rw [hmap] at hr ⊢
      simp only [List.nil_append, List.length_map, List.length_append,
        List.length_singleton] at hr
      have hr' : r < rows.length := by omega
      refine ⟨rows[r], ?_, ?_, hfull _ (List.getElem_mem _)⟩
      · unfold LeafMap.row
        simp [List.getElem?_append_left, hr']
      · by_cases h2 : 2 ≤ rows[r].leafs.length
        · exact hfit _ (List.mem_append_left _ (List.getElem_mem _)) h2
        · have hcases : rows[r].leafs.length = 0 ∨ rows[r].leafs.length = 1 := by omega
          rcases hcases with h0 | h1
          · rw [h0]
            simp only [Nat.zero_mul, Nat.cast_zero]
            omega
          · rw [h1, Nat.one_mul]
            exact hfits

/-- Witness for C14 (amended): in the example state one thumbnail fits, so row 0 of
the twenty uniform pages is a full row. -/
theorem thumbnail_rows_packing_witness :
    ∃ row, (thumbnailLeafMap thumbBook (thumbState 0) none).leafMap.row 0 = some row ∧
      ((row.leafs.length * ((thumbState 0).thumbWidth + (thumbState 0).thumbPadding) : Nat) : Int)
        ≤ (thumbState 0).container.scrollWidth - 20 ∧
      (thumbState 0).container.scrollWidth - 20
        < (((row.leafs.length + 1)
            * ((thumbState 0).thumbWidth + (thumbState 0).thumbPadding) : Nat) : Int) :=
  (thumbnail_rows_packing thumbBook (thumbState 0) none).2.1 (by decide) 0
    (by rw [uniform_row_map_length]; decide)

/-- C15: after `drawLeafsThumbnail` has built its row map (both loops), the map is
an optional hole at index 0 followed by rows that hold the consecutive chunks of
the iterator's pages; the height of every row is the maximum over its pages of
`floor(page.height * thumbWidth / page.width)`, that is, it is this floor for one
page of the row and not below it for any page of the row, and the top of row `i`
is the sum over the earlier rows `j < i` of `thumbPadding + height of row j`. -/
theorem thumbnail_rows_height_top (h : NavHooks) (book : BookModel) (s : State)
    (seekIndex : Option Int) :
    ∃ (view : ViewLoop) (pre : List (Option Row)) (rows : List Row)
      (chunks : List (List PageModel)),
      thumbnailView h book s seekIndex = Except.ok view ∧
      view.leafMap = pre ++ rows.map some ∧ (pre = [] ∨ pre = [none]) ∧
      chunks.flatten = book.pagesIterator ∧
      List.Forall₂
        (fun (row : Row) (chunk : List PageModel) =>
          row.leafs.map (fun leaf => leaf.num) = chunk.map (fun page => page.index) ∧
          chunk ≠ [] ∧
          (∀ page ∈ chunk,
            ⌊((page.height * s.thumbWidth : Nat) : ℚ) / (page.width : ℚ)⌋
              ≤ (row.height : Int)) ∧
          (∃ page ∈ chunk,
            (row.height : Int)
              = ⌊((page.height * s.thumbWidth : Nat) : ℚ) / (page.width : ℚ)⌋))
        rows chunks ∧
      ∀ (i : Nat) (row : Row), rows[i]? = some row →
        row.top = ((rows.take i).map (fun r => s.thumbPadding + r.height)).sum := by
  obtain ⟨view, pre, rows, chunks, hv, _, hvmap, hpre, hflat, hrows, _⟩ :=
    thumbnailView_rows h book s seekIndex
  refine ⟨view, pre, assignTops s.thumbPadding 0 rows, chunks, hv, hvmap, hpre, hflat,
    List.Forall₂.imp
      (fun _ _ hrow => ⟨hrow.1, hrow.2.1,
        row_height_floor s.thumbWidth _ _ hrow.2.1 hrow.2.2⟩)
      (RowOf_assignTops s.thumbWidth s.thumbPadding rows chunks hrows 0), ?_⟩
  intro i row hrow
  obtain ⟨r, hr, _, _, htop⟩ := assignTops_getElem? s.thumbPadding rows 0 i row hrow
  rw [htop (RowOf_top s.thumbWidth rows chunks hrows r (List.mem_iff_getElem?.mpr ⟨i, hr⟩))]
  have hh := assignTops_heights s.thumbPadding rows 0
  have e1 : (rows.take i).map (fun x => s.thumbPadding + x.height)
      = ((rows.map (fun x => x.height)).take i).map (fun x => s.thumbPadding + x) := by
    rw [← List.map_take, List.map_map]
    rfl
  have e2 : ((assignTops s.thumbPadding 0 rows).take i).map (fun x => s.thumbPadding + x.height)
      = (((assignTops s.thumbPadding 0 rows).map (fun x => x.height)).take i).map
          (fun x => s.thumbPadding + x) := by
    rw [← List.map_take, List.map_map]
    rfl
  rw [e1, e2, hh]
  simp

/-- C16 (as stated, refuted): with `thumbRowBuffer = 2`, twenty rows and row 5 alone
in view, the rows selected are 4, 5, 6 and 7: row 8 (`l + B + 1`) and row 3
(`f - B`) are not selected. -/
theorem rowsWithBuffer_excludes_claimed_rows :
    8 ∉ rowsWithBuffer 2 20 [5] ∧ 3 ∉ rowsWithBuffer 2 20 [5] ∧
    (∀ r, r ∈ rowsWithBuffer 2 20 [5] ↔ r = 4 ∨ r = 5 ∨ r = 6 ∨ r = 7) := by
  have hmem : ∀ r, r ∈ rowsWithBuffer 2 20 [5] ↔ r = 4 ∨ r = 5 ∨ r = 6 ∨ r = 7 := by
    intro r
    simp only [rowsWithBuffer, List.head?_cons, List.getLast?_singleton, jsSort,
      List.mem_mergeSort, bufferAfter, bufferBefore, List.mem_append, List.mem_map,
      List.mem_filter, List.mem_range'_1, List.mem_singleton, decide_eq_true_eq]
    constructor
    · rintro ((rfl | ⟨i, ⟨⟨h1, h2⟩, h3⟩, rfl⟩) | ⟨i, ⟨⟨h1, h2⟩, h3⟩, rfl⟩) <;> omega
    · rintro (rfl | rfl | rfl | rfl)
      · exact Or.inr ⟨1, ⟨⟨by omega, by omega⟩, by omega⟩, by omega⟩
      · exact Or.inl (Or.inl rfl)
      · exact Or.inl (Or.inr ⟨1, ⟨⟨by omega, by omega⟩, by omega⟩, by omega⟩)
      · exact Or.inl (Or.inr ⟨2, ⟨⟨by omega, by omega⟩, by omega⟩, by omega⟩)
  refine ⟨?_, ?_, hmem⟩
  · rw [hmem]; omega
  · rw [hmem]; omega

/-- C16 (amended): with `B = thumbRowBuffer` and a non-empty list of rows in view
whose first and last members are `f` and `l`, the rows selected for display are
exactly the rows in view together with the rows `l + 1 .. l + B` that are below
`rowCount` and the rows `f - (B - 1) .. f - 1` that are not negative: `B` rows
after the last row in view and `B - 1` rows before the first. -/
theorem rowsWithBuffer_spec (B rowCount : Nat) (inView : List Nat) (f l : Nat)
    (hf : inView.head? = some f) (hl : inView.getLast? = some l) (r : Nat) :
    r ∈ rowsWithBuffer B rowCount inView ↔
      r ∈ inView ∨ (l + 1 ≤ r ∧ r ≤ l + B ∧ r < rowCount) ∨
        ((f : Int) - ((B : Int) - 1) ≤ (r : Int) ∧ r + 1 ≤ f) := by
  simp only [rowsWithBuffer, hf, hl, jsSort, List.mem_mergeSort, bufferAfter, bufferBefore,
    List.mem_append, List.mem_map, List.mem_filter, List.mem_range'_1, decide_eq_true_eq]
  constructor
  · rintro ((hin | ⟨i, ⟨⟨h1, h2⟩, h3⟩, rfl⟩) | ⟨i, ⟨⟨h1, h2⟩, h3⟩, rfl⟩)
    · exact Or.inl hin
    · exact Or.inr (Or.inl ⟨by omega, by omega, h3⟩)
    · exact Or.inr (Or.inr ⟨by omega, by omega⟩)
  · rintro (hin | ⟨h1, h2, h3⟩ | ⟨h1, h2⟩)
    · exact Or.inl (Or.inl hin)
    · exact Or.inl (Or.inr ⟨r - l, ⟨⟨by omega, by omega⟩, by omega⟩, by omega⟩)
    · exact Or.inr ⟨f - r, ⟨⟨by omega, by omega⟩, by omega⟩, by omega⟩

/-- Witness for C16 (amended): with `thumbRowBuffer = 2`, twenty rows and rows 9 and
10 in view, row 12 is selected. -/
theorem rowsWithBuffer_spec_witness : 12 ∈ rowsWithBuffer 2 20 [9, 10] :=
  (rowsWithBuffer_spec 2 20 [9, 10] 9 10 rfl rfl 12).mpr (Or.inr (Or.inl (by decide)))

/-- C17: after `drawLeafsThumbnail` in thumbnail mode, whenever at least one row is
in view, the current index lies between the least and the greatest page index of
the rows in view: it is set to the least one if it was smaller, to the greatest
one if it was larger, and is left unchanged, no event being triggered, if it was
in that range.  The iterator's pages are taken in ascending index order with
indices from `0` to `numLeafs - 1`, and the rows displayed before are rows of the
new map. -/
theorem drawLeafsThumbnail_current_visible (h : NavHooks) (book : BookModel) (s : State)
    (seekIndex : Option Int) (view : ViewLoop)
    (hmode : s.mode = ModeVal.num constModeThumb)
    (hsorted : book.pagesIterator.Pairwise (fun p q => p.index ≤ q.index))
    (hrange : ∀ p ∈ book.pagesIterator, 0 ≤ p.index ∧ p.index ≤ (s.numLeafs : Int) - 1)
    (hdisplayed : ∀ r ∈ s.displayedRows,
      ((thumbnailLeafMap book s seekIndex).leafMap.row r).isSome = true)
    (hview : thumbnailView h book s seekIndex = Except.ok view)
    (hvis : view.rowsToDisplay ≠ []) :
    ∃ s' lo hi, drawLeafsThumbnail h book s seekIndex = Except.ok s' ∧
      currentIndex s' = Except.ok s'.firstIndex ∧
      lo ∈ visibleNums view ∧ hi ∈ visibleNums view ∧
      (∀ n ∈ visibleNums view, lo ≤ n ∧ n ≤ hi) ∧
      lo ≤ s'.firstIndex ∧ s'.firstIndex ≤ hi ∧
      (s.firstIndex < lo → s'.firstIndex = lo) ∧
      (hi < s.firstIndex → s'.firstIndex = hi) ∧
      (lo ≤ s.firstIndex → s.firstIndex ≤ hi →
        s'.firstIndex = s.firstIndex ∧ s'.events = s.events) := by
  obtain ⟨view0, pre, rows, chunks, hv, hbuilt, hvmap, hpre, hflat, hrows, hle, hge, hmem,
    hleast, hmost⟩ := thumbnailView_rows h book s seekIndex
  rw [hview] at hv
  cases hv
  obtain ⟨smode, sfirst, _, _, sevents, sdisp⟩ := thumbnailSeek_fields h book s seekIndex
  -- facts on the rows in view
  have hrowfacts : ∀ j ∈ view.rowsToDisplay, ∃ (row row' : Row) (first last : Leaf),
      view.leafMap.row j = some row' ∧ row'.leafs = row.leafs ∧
      row.leafs.head? = some first ∧ row.leafs.getLast? = some last ∧
      view.leastVisible ≤ first.num ∧ last.num ≤ view.mostVisible ∧
      (∀ leaf ∈ row.leafs, first.num ≤ leaf.num ∧ leaf.num ≤ last.num ∧
        0 ≤ leaf.num ∧ leaf.num ≤ (s.numLeafs : Int) - 1) := by
    intro j hj
    obtain ⟨row, first, last, h1, h2, h3, h4, h5, h6⟩ := hmem j hj
    obtain ⟨row', hr', hl'⟩ := assignTops_leafs s.thumbPadding 0 rows _ row h2
    have hrowj : view.leafMap.row j = some row' := by
      rw [hvmap, LeafMap.row_append, if_neg (not_lt.mpr h1)]
      exact hr'
    obtain ⟨chunk, hchunk, hnums, _, _, _⟩ :=
      RowOf_mem s.thumbWidth rows chunks hrows row (List.mem_iff_getElem?.mpr ⟨_, h2⟩)
    have hsub : List.Sublist chunk book.pagesIterator := hflat ▸ List.sublist_flatten_of_mem hchunk
    have hpw : (row.leafs.map (fun leaf => leaf.num)).Pairwise (fun x y => x ≤ y) := by
      rw [hnums, List.pairwise_map]
      exact hsorted.sublist hsub
    have hhead : (row.leafs.map (fun leaf => leaf.num)).head? = some first.num := by
      rw [List.head?_map, h3]; rfl
    have hlast : (row.leafs.map (fun leaf => leaf.num)).getLast? = some last.num := by
      rw [List.getLast?_map, h4]; rfl
    refine ⟨row, row', first, last, hrowj, hl', h3, h4, h5, h6, ?_⟩
    intro leaf hleaf
    have hin : leaf.num ∈ row.leafs.map (fun leaf => leaf.num) := List.mem_map_of_mem _ hleaf
    refine ⟨head_le_of_pairwise _ _ hpw hhead _ hin, le_last_of_pairwise _ _ hpw hlast _ hin,
      ?_⟩
    rw [hnums] at hin
    obtain ⟨p, hp, hpn⟩ := List.mem_map.mp hin
    rw [← hpn]
    exact hrange p (hsub.subset hp)
  -- one row in view
  obtain ⟨j0, hj0⟩ := List.exists_mem_of_ne_nil _ hvis
  obtain ⟨row0, row0', first0, last0, hr0, hl0, hh0, hg0, hlo0, hhi0, hall0⟩ :=
    hrowfacts j0 hj0
  have hfirst0 : first0 ∈ row0.leafs := List.mem_of_mem_head? hh0
  have hlast0 : last0 ∈ row0.leafs := List.mem_of_getLast?_eq_some hg0
  have hmemnum : ∀ j ∈ view.rowsToDisplay, ∀ (row row' : Row), view.leafMap.row j = some row' →
      row'.leafs = row.leafs → ∀ leaf ∈ row.leafs, leaf.num ∈ visibleNums view := by
    intro j hj row row' hr hl leaf hleaf
    rw [mem_visibleNums]
    exact ⟨j, hj, row', hr, by rw [hl]; exact List.mem_map_of_mem _ hleaf⟩
  have hlo : view.leastVisible ∈ visibleNums view := by
    rcases hleast with heq | ⟨j, hj, row, first, h1, h2, h3, h4⟩
    · have : first0.num = view.leastVisible := by
        have := (hall0 first0 hfirst0).2.2.2
        omega
      rw [← this]
      exact hmemnum j0 hj0 row0 row0' hr0 hl0 first0 hfirst0
    · obtain ⟨row', hr', hl'⟩ := assignTops_leafs s.thumbPadding 0 rows _ row h2
      have hrowj : view.leafMap.row j = some row' := by
        rw [hvmap, LeafMap.row_append, if_neg (not_lt.mpr h1)]
        exact hr'
      rw [← h4]
      exact hmemnum j hj row row' hrowj hl' first (List.mem_of_mem_head? h3)
  have hhi : view.mostVisible ∈ visibleNums view := by
    rcases hmost with heq | ⟨j, hj, row, last, h1, h2, h3, h4⟩
    · have : last0.num = view.mostVisible := by
        have := (hall0 last0 hlast0).2.2.1
        omega
      rw [← this]
      exact hmemnum j0 hj0 row0 row0' hr0 hl0 last0 hlast0
    · obtain ⟨row', hr', hl'⟩ := assignTops_leafs s.thumbPadding 0 rows _ row h2
      have hrowj : view.leafMap.row j = some row' := by
        rw [hvmap, LeafMap.row_append, if_neg (not_lt.mpr h1)]
        exact hr'
      rw [← h4]
      exact hmemnum j hj row row' hrowj hl' last (List.mem_of_getLast?_eq_some h3)
  have hbounds : ∀ n ∈ visibleNums view, view.leastVisible ≤ n ∧ n ≤ view.mostVisible := by
    intro n hn
    rw [mem_visibleNums] at hn
    obtain ⟨j, hj, rowv, hrv, hnv⟩ := hn
    obtain ⟨row, row', first, last, hr, hl, _, _, h5, h6, hall⟩ := hrowfacts j hj
    rw [hr] at hrv
    cases hrv
    rw [hl] at hnv
    obtain ⟨leaf, hleaf, rfl⟩ := List.mem_map.mp hnv
    have := hall leaf hleaf
    omega
  have hlohi : view.leastVisible ≤ view.mostVisible := by
    have := hbounds _ hlo
    omega
  -- the run of the method
  have hremoval : removalLoop view.leafMap
      (rowsWithBuffer (thumbnailSeek h book s seekIndex).thumbRowBuffer view.leafMap.length
        view.rowsToDisplay) (thumbnailSeek h book s seekIndex).displayedRows = Except.ok () := by
    apply removalLoop_ok
    intro r hr
    rw [sdisp] at hr
    have := hdisplayed r hr
    rw [hbuilt, LeafMap.row_append] at this
    rw [hvmap, LeafMap.row_append]
    by_cases hlt : r < pre.length
    · rw [if_pos hlt] at this ⊢
      exact this
    · rw [if_neg hlt] at this ⊢
      cases hrow : rows[r - pre.length]? with
      | none => rw [hrow] at this; cases this
      | some row =>
        obtain ⟨row', hr', _⟩ := assignTops_leafs s.thumbPadding 0 rows _ row hrow
        rw [hr']
        rfl
  have hcur : currentIndex (thumbnailSeek h book s seekIndex) = Except.ok s.firstIndex := by
    unfold currentIndex
    rw [smode, sfirst, hmode]
    simp
  have hcurrent : ∀ t : State, t.mode = ModeVal.num constModeThumb →
      currentIndex t = Except.ok t.firstIndex := by
    intro t ht
    unfold currentIndex
    rw [ht]
    simp
  have hrun : drawLeafsThumbnail h book s seekIndex = Except.ok
      { (if s.firstIndex < view.leastVisible then
          updateFirstIndex (thumbnailSeek h book s seekIndex) view.leastVisible ⟨false⟩
        else if s.firstIndex > view.mostVisible then
          updateFirstIndex (thumbnailSeek h book s seekIndex) view.mostVisible ⟨false⟩
        else thumbnailSeek h book s seekIndex) with
        displayedRows := rowsWithBuffer (thumbnailSeek h book s seekIndex).thumbRowBuffer
          view.leafMap.length view.rowsToDisplay } := by
    unfold drawLeafsThumbnail
    simp only [hview, hremoval, hcur]
  refine ⟨_, view.leastVisible, view.mostVisible, hrun, ?_, hlo, hhi, hbounds, ?_, ?_, ?_, ?_,
    ?_⟩
  · apply hcurrent
    simp only []
    split_ifs
    · rw [(updateFirstIndex_fields _ _ _).2, smode, hmode]
    · rw [(updateFirstIndex_fields _ _ _).2, smode, hmode]
    · rw [smode, hmode]
  · simp only []
    split_ifs with h1 h2
    · rw [(updateFirstIndex_fields _ _ _).1]
    · rw [(updateFirstIndex_fields _ _ _).1]; exact hlohi
    · rw [sfirst]; omega
  · simp only []
    split_ifs with h1 h2
    · rw [(updateFirstIndex_fields _ _ _).1]; exact hlohi
    · rw [(updateFirstIndex_fields _ _ _).1]
    · rw [sfirst]; omega
  · intro hlt
    simp only []
    rw [if_pos hlt, (updateFirstIndex_fields _ _ _).1]
  · intro hgt
    simp only []
    rw [if_neg (by omega), if_pos hgt, (updateFirstIndex_fields _ _ _).1]
  · intro h1 h2
    simp only []
    rw [if_neg (by omega), if_neg (by omega)]
    exact ⟨sfirst, sevents⟩

/-- Witness for C17: in `smallViewState`, where only the first row is in view and
the current index is 19. -/
theorem drawLeafsThumbnail_current_visible_witness :
    ∃ s' lo hi, drawLeafsThumbnail plainNavHooks thumbBook smallViewState none = Except.ok s' ∧
      currentIndex s' = Except.ok s'.firstIndex ∧
      lo ∈ visibleNums smallView ∧ hi ∈ visibleNums smallView ∧
      (∀ n ∈ visibleNums smallView, lo ≤ n ∧ n ≤ hi) ∧
      lo ≤ s'.firstIndex ∧ s'.firstIndex ≤ hi ∧
      (smallViewState.firstIndex < lo → s'.firstIndex = lo) ∧
      (hi < smallViewState.firstIndex → s'.firstIndex = hi) ∧
      (lo ≤ smallViewState.firstIndex → smallViewState.firstIndex ≤ hi →
        s'.firstIndex = smallViewState.firstIndex ∧ s'.events = smallViewState.events) :=
  drawLeafsThumbnail_current_visible plainNavHooks thumbBook smallViewState none smallView
    rfl uniformPages_sorted.1 uniformPages_sorted.2 (by simp [smallViewState, thumbState, shortBook])
    smallView_ok (by rw [smallView_rows]; decide)

/-- C18: the entry that `prefetchImg(20, true)` stores while `reduce` is 8 carries
the image's reduce on its element and none of its own; on the spread `(10, 11)`
with current `reduce` 4, page 20 is outside `[6, 15]` and its cached reduce 8 is
strictly coarser than needed, yet `pruneUnusedImgs` keeps the entry. -/
theorem pruneUnusedImgs_keeps_coarser_prefetched :
    prefetchImg (fun _ r => some r) spreadBook { spreadState [] 10 11 with reduce := 8 } 20 true
      = Except.ok { spreadState [(20, ⟨none, some 8, false⟩)] 10 11 with reduce := 8 } ∧
    ((20 : Int) < 10 - 4 ∨ (20 : Int) > 11 + 4) ∧ (4 : ℚ) < 8 ∧
    (pruneUnusedImgs (spreadState [(20, ⟨none, some 8, false⟩)] 10 11)).prefetchedImgs
      = [(20, ⟨none, some 8, false⟩)] :=
  ⟨rfl, by decide, by norm_num, rfl⟩

/-- C19: the entries that `prefetchImg(2, true)` stores while `reduce` is 16 and
`prefetchImg(30, true)` while `reduce` is 4 are outside the margin `[6, 15]` of the
spread `(10, 11)` and no finer than the current `reduce` 4, yet `pruneUnusedImgs`
keeps both. -/
theorem pruneUnusedImgs_keeps_prefetched_outside :
    prefetchImg (fun _ r => some r) spreadBook { spreadState [] 10 11 with reduce := 16 } 2 true
      = Except.ok { spreadState [(2, ⟨none, some 16, false⟩)] 10 11 with reduce := 16 } ∧
    prefetchImg (fun _ r => some r) spreadBook
        (spreadState [(2, ⟨none, some 16, false⟩)] 10 11) 30 true
      = Except.ok
          (spreadState [(2, ⟨none, some 16, false⟩), (30, ⟨none, some 4, false⟩)] 10 11) ∧
    ((2 : Int) < 10 - 4 ∧ (30 : Int) > 11 + 4) ∧ ((4 : ℚ) ≤ 16 ∧ (4 : ℚ) ≤ 4) ∧
    (pruneUnusedImgs
        (spreadState [(2, ⟨none, some 16, false⟩), (30, ⟨none, some 4, false⟩)] 10 11)
      ).prefetchedImgs
      = [(2, ⟨none, some 16, false⟩), (30, ⟨none, some 4, false⟩)] :=
  ⟨rfl, rfl, by decide, by norm_num, rfl⟩

/-- C20: for spread indices `currentIndexL`, `currentIndexR` in either order, blank
sentinel indices included, `pruneUnusedImgs` retains every entry stored by
`prefetchImg` (an entry without a `reduce` of its own, the image's reduce being
on its element) whose page index lies in `[min(L, R) - 4, max(L, R) + 4]`,
whatever the cached reduce on its element; the entries that `prefetchImg` adds
are of this kind and so are those that `pruneUnusedImgs` leaves.  An entry whose
index lies in `[L - 4, R + 4]` is retained whatever it carries. -/
theorem pruneUnusedImgs_retains_margin (s : State) (key : Int) (img : PrefetchedImg)
    (hstored : ∀ e ∈ s.prefetchedImgs, e.2.reduce = none)
    (hmem : (key, img) ∈ s.prefetchedImgs)
    (_hin : min s.twoPage.currentIndexL s.twoPage.currentIndexR - 4 ≤ key ∧
      key ≤ max s.twoPage.currentIndexL s.twoPage.currentIndexR + 4) :
    (∃ img', (key, img') ∈ (pruneUnusedImgs s).prefetchedImgs ∧ img'.reduce = none ∧
      img'.elementReduce = img.elementReduce) ∧
    (∀ e ∈ (pruneUnusedImgs s).prefetchedImgs, e.2.reduce = none) ∧
    (∀ (imageReduce : Int → ℚ → Option ℚ) (book : BookModel) (index : Int) (fetchNow : Bool)
      (s1 : State), prefetchImg imageReduce book s index fetchNow = Except.ok s1 →
        ∀ e ∈ s1.prefetchedImgs, e.2.reduce = none) ∧
    (∀ (t : State) (entry : PrefetchedImg), (key, entry) ∈ t.prefetchedImgs →
      t.twoPage.currentIndexL - 4 ≤ key → key ≤ t.twoPage.currentIndexR + 4 →
      ∃ img', (key, img') ∈ (pruneUnusedImgs t).prefetchedImgs ∧
        img'.reduce = entry.reduce ∧ img'.elementReduce = entry.elementReduce) := by
  refine ⟨?_, ?_, ?_, ?_⟩
  · obtain ⟨img', hin', hred, helem⟩ := pruneUnusedImgs_retained s key img hmem
      (pruneUnusedImg_stored s (key, img) (hstored _ hmem))
    exact ⟨img', hin', hred.trans (hstored _ hmem), helem⟩
  · intro e he
    simp only [pruneUnusedImgs, List.mem_filterMap] at he
    obtain ⟨e0, he0, hsome⟩ := he
    rw [(pruneUnusedImg_some s e0 e hsome).2.1]
    exact hstored e0 he0
  · intro imageReduce book index fetchNow s1 h1 e he
    rcases prefetchImg_mem imageReduce book s s1 index fetchNow h1 e he with h | h
    · exact hstored e h
    · exact h.2.1
  · intro t entry hentry hlo hhi
    refine pruneUnusedImgs_retained t key entry hentry ?_
    intro hnone
    obtain ⟨hout, _⟩ := (pruneUnusedImg_none_iff t (key, entry)).mp hnone
    simp only at hout
    omega

/-- Witness for C20: on the right-to-left spread `currentIndexL = 11`,
`currentIndexR = 10` with current `reduce` 4, the entry of page 6 that
`prefetchImg(6, true)` stored while `reduce` was 8 is retained; 6 lies in
`[min(L, R) - 4, max(L, R) + 4] = [6, 15]`. -/
theorem pruneUnusedImgs_retains_margin_witness :
    prefetchImg (fun _ r => some r) spreadBook { spreadState [] 11 10 with reduce := 8 } 6 true
      = Except.ok { spreadState [(6, ⟨none, some 8, false⟩)] 11 10 with reduce := 8 } ∧
    (min (11 : Int) 10 - 4 ≤ 6 ∧ (6 : Int) ≤ max 11 10 + 4) ∧
    ∃ img', (6, img') ∈
        (pruneUnusedImgs (spreadState [(6, ⟨none, some 8, false⟩)] 11 10)).prefetchedImgs ∧
      img'.reduce = none ∧ img'.elementReduce = some 8 :=
  ⟨rfl, by decide,
    (pruneUnusedImgs_retains_margin (spreadState [(6, ⟨none, some 8, false⟩)] 11 10) 6
      ⟨none, some 8, false⟩
      (by
        intro e he
        rw [show (spreadState [(6, ⟨none, some 8, false⟩)] 11 10).prefetchedImgs
          = [(6, ⟨none, some 8, false⟩)] from rfl, List.mem_singleton] at he
        rw [he])
      (List.mem_singleton.mpr rfl) (by decide)).1⟩

/-- C21: `updateFirstIndex(index)` assigns `firstIndex` first and triggers
`pageChanged` exactly once, on a state whose `firstIndex` is already `index`; it
triggers `fragmentChange` at most once, before `pageChanged` and after the
assignment, exactly when the previous `firstIndex` differed from `index` and
neither the global nor the per-call `suppressFragmentChange` flag is set. -/
theorem updateFirstIndex_events (s : State) (index : Int) (options : UpdateFirstIndexOptions) :
    (updateFirstIndex s index options).firstIndex = index ∧
    (updateFirstIndex s index options).events
      = s.events ++
        (if s.firstIndex ≠ index ∧ s.suppressFragmentChange = false
            ∧ options.suppressFragmentChange = false
          then [Event.fragmentChange] else []) ++ [Event.pageChanged] ∧
    ∃ assigned notified : State,
      assigned = { s with firstIndex := index } ∧
      notified.firstIndex = index ∧
      updateFirstIndex s index options = trigger notified Event.pageChanged ∧
      notified.events =
        (if s.firstIndex ≠ index ∧ s.suppressFragmentChange = false
            ∧ options.suppressFragmentChange = false
          then trigger assigned Event.fragmentChange else assigned).events := by
  refine ⟨(updateFirstIndex_fields s index options).1, ?_, ?_⟩
  · by_cases hidx : s.firstIndex = index <;> cases hs : s.suppressFragmentChange <;>
      cases ho : options.suppressFragmentChange <;> cases hi : s.hasInitialSearchTerm <;>
      simp [updateFirstIndex, trigger, hidx, hs, ho, hi]
  · by_cases hidx : s.firstIndex = index <;> cases hs : s.suppressFragmentChange <;>
      cases ho : options.suppressFragmentChange <;> cases hi : s.hasInitialSearchTerm <;>
      simp only [updateFirstIndex, trigger, hidx, hs, ho, hi, ne_eq, not_true_eq_false,
        not_false_eq_true, false_and, and_false, or_self, or_true,
        or_false, true_or, false_or, if_true, if_false, Bool.false_eq_true] <;>
      exact ⟨_, _, rfl, rfl, rfl, rfl⟩

/-- C28: for a row from `t` to `t + thumbPadding + height` and a scroll range with
`scrollTop ≤ scrollBottom`, the three-way test of `drawLeafsThumbnail` selects the
row if and only if the closed intervals `[t, b]` and `[scrollTop, scrollBottom]`
intersect; and the second loop of `drawLeafsThumbnail` lists row `j` exactly when
the row from its top to its bottom intersects the scroll range. -/
theorem rowInView_iff_intersect (scrollTop scrollBottom : Int) (thumbPadding : Nat)
    (hscroll : scrollTop ≤ scrollBottom) :
    (∀ t height : Nat,
      rowInView scrollTop scrollBottom t (t + (thumbPadding + height)) = true ↔
        IntervalsIntersect t (t + (thumbPadding + height) : Nat) scrollTop scrollBottom) ∧
    ∀ (rows : List Row) (least most : Int), (∀ r ∈ rows, r.leafs ≠ []) →
      ∃ view, viewLoop scrollTop scrollBottom thumbPadding (rows.map some) 0
          ⟨0, 0, [], least, most, []⟩ = Except.ok view ∧
        ∀ j, j ∈ view.rowsToDisplay ↔
          ∃ row, rows[j]? = some row ∧
            IntervalsIntersect (rowTop thumbPadding rows j)
              (rowTop thumbPadding rows j + (thumbPadding + row.height) : Nat)
              scrollTop scrollBottom := by
  refine ⟨fun t height => rowInView_iff _ _ _ _ (by omega) hscroll, ?_⟩
  intro rows least most hne
  obtain ⟨view, hv, _⟩ := viewLoop_rows scrollTop scrollBottom thumbPadding rows 0
    ⟨0, 0, [], least, most, []⟩ rfl hne
  refine ⟨view, hv, fun j => ?_⟩
  rw [viewLoop_inView scrollTop scrollBottom thumbPadding rows 0 _ view rfl hne hv j]
  simp only [List.not_mem_nil, false_or, Nat.zero_le, true_and, Nat.sub_zero, Nat.zero_add]
  constructor
  · rintro ⟨row, hrow, hin⟩
    exact ⟨row, hrow, (rowInView_iff _ _ _ _ (by omega) hscroll).mp hin⟩
  · rintro ⟨row, hrow, hin⟩
    exact ⟨row, hrow, (rowInView_iff _ _ _ _ (by omega) hscroll).mpr hin⟩

/-- The row from 150 to 310 is selected for the scroll range from 300 to 900, with
which it shares the points from 300 to 310. -/
theorem rowInView_iff_intersect_witness :
    rowInView 300 900 150 (150 + (10 + 150)) = true ∧
    IntervalsIntersect (150 : Nat) (150 + (10 + 150) : Nat) 300 900 :=
  ⟨by decide,
    ((rowInView_iff_intersect 300 900 10 (by decide)).1 150 150).mp (by decide)⟩

/-- C30: for a page of positive width `w` and a positive thumbnail width `tw`, the
reduction that `drawLeafsThumbnail` requests is `floor(w / tw)` when that is even
and `floor(w / tw) + 1` when it is odd; it is even, not less than `floor(w / tw)`,
and `0` exactly when `w < tw`. -/
theorem thumbReduce_spec (book : BookModel) (thumbWidth : Nat) (leaf : Int)
    (hw : 0 < book.getPageWidth leaf) (htw : 0 < thumbWidth) :
    thumbReduce book thumbWidth leaf
      = (if ⌊(book.getPageWidth leaf : ℚ) / (thumbWidth : ℚ)⌋ % 2 = 0
          then ⌊(book.getPageWidth leaf : ℚ) / (thumbWidth : ℚ)⌋
          else ⌊(book.getPageWidth leaf : ℚ) / (thumbWidth : ℚ)⌋ + 1) ∧
    thumbReduce book thumbWidth leaf % 2 = 0 ∧
    ⌊(book.getPageWidth leaf : ℚ) / (thumbWidth : ℚ)⌋ ≤ thumbReduce book thumbWidth leaf ∧
    (thumbReduce book thumbWidth leaf = 0 ↔ book.getPageWidth leaf < thumbWidth) := by
  have hfloor : ⌊(book.getPageWidth leaf : ℚ) / (thumbWidth : ℚ)⌋
      = ((book.getPageWidth leaf / thumbWidth : Nat) : Int) := by
    rw [← Int.natCast_floor_eq_floor (by positivity), Nat.floor_div_eq_div]
  have hzero : book.getPageWidth leaf / thumbWidth = 0 ↔ book.getPageWidth leaf < thumbWidth :=
    Nat.div_eq_zero_iff htw
  rw [hfloor]
  unfold thumbReduce
  simp only [jsRound_half]
  generalize book.getPageWidth leaf / thumbWidth = n at hzero
  refine ⟨?_, by omega, by omega, ?_⟩
  · split_ifs <;> omega
  · rw [← hzero]
    omega

/-- A page 1000 pixels wide with thumbnails 143 pixels wide: `floor(1000 / 143)` is
6 and the requested reduction is 6. -/
theorem thumbReduce_spec_witness :
    thumbReduce thumbBook 143 0 % 2 = 0 ∧
    (thumbReduce thumbBook 143 0 = 0 ↔ thumbBook.getPageWidth 0 < 143) :=
  ⟨(thumbReduce_spec thumbBook 143 0 (by decide) (by decide)).2.1,
    (thumbReduce_spec thumbBook 143 0 (by decide) (by decide)).2.2.2⟩

/-- C25: for an in-range index and a requested ratio, every candidate that
`_getPageURISrcset` lists has a scale that is a power of two between 1 and the
ratio, and the products of scale and density are one and the same power of two;
from ratio 2 on there is a candidate; the result is the empty string when the
index is out of range or the ratio is below 2. -/
theorem getPageURISrcset_spec (getPageURI : Int → Nat → Option Int → String)
    (book : BookModel) (s : State) (twoPageHeight : ℚ) (index : Int) (ratio : ℚ)
    (rotate : Option Int) :
    ((index < 0 ∨ index ≥ (s.numLeafs : Int) ∨ ratio < 2) →
      getPageURISrcset getPageURI book s twoPageHeight index (some ratio) rotate = "") ∧
    (0 ≤ index → index < (s.numLeafs : Int) → 2 ≤ ratio →
      ∃ entries, getPageURISrcsetEntries book s twoPageHeight index (some ratio)
          = some entries ∧ entries ≠ [] ∧
        getPageURISrcset getPageURI book s twoPageHeight index (some ratio) rotate
          = String.intercalate ", " (entries.map (fun entry =>
              getPageURI index entry.1 rotate ++ " " ++ toString entry.2 ++ "x"))) ∧
    ∀ entries, getPageURISrcsetEntries book s twoPageHeight index (some ratio) = some entries →
      (∃ m : Nat, ∀ e ∈ entries, e.1 * e.2 = 2 ^ m) ∧
      ∀ e ∈ entries, (∃ k < 5, e.1 = 2 ^ k) ∧ (∃ k < 6, e.2 = 2 ^ k) ∧ 1 ≤ e.1 ∧
        (e.1 : ℚ) ≤ ratio := by
  refine ⟨?_, ?_, ?_⟩
  · intro hcase
    unfold getPageURISrcset getPageURISrcsetEntries
    by_cases hrange : index < 0 ∨ index ≥ (s.numLeafs : Int)
    · rw [if_pos hrange]
    · have hlow : ratio < 2 := by
        rcases hcase with h | h | h
        · exact absurd (Or.inl h) hrange
        · exact absurd (Or.inr h) hrange
        · exact h
      rw [if_neg hrange]
      simp [srcsetScale, hlow]
  · intro hlo hhi hratio
    have hrange : ¬ (index < 0 ∨ index ≥ (s.numLeafs : Int)) := by omega
    cases hsc : srcsetScale ratio with
    | none =>
      unfold srcsetScale at hsc
      split_ifs at hsc with h2
      exact absurd hratio (not_le.mpr h2)
    | some scale =>
      refine ⟨srcsetEntries scale, ?_, (srcsetEntries_spec ratio scale hsc).1, ?_⟩
      · unfold getPageURISrcsetEntries
        rw [if_neg hrange]
        simp only [hsc]
      · unfold getPageURISrcset getPageURISrcsetEntries
        rw [if_neg hrange]
        simp only [hsc]
  · intro entries hentries
    unfold getPageURISrcsetEntries at hentries
    by_cases hrange : index < 0 ∨ index ≥ (s.numLeafs : Int)
    · rw [if_pos hrange] at hentries
      cases hentries
    · rw [if_neg hrange] at hentries
      cases hsc : srcsetScale ratio with
      | none => simp [hsc] at hentries
      | some scale =>
        simp only [hsc, Option.some.injEq] at hentries
        subst hentries
        exact (srcsetEntries_spec ratio scale hsc).2

/-- For page 3 of the twenty-leaf book at ratio 9 the candidates are the scales 4,
2 and 1 with the densities 2, 4 and 8. -/
theorem getPageURISrcset_spec_witness :
    ∃ entries, getPageURISrcsetEntries thumbBook (thumbState 0) 600 3 (some 9) = some entries ∧
      entries ≠ [] ∧
      getPageURISrcset (fun _ scale _ => toString scale) thumbBook (thumbState 0) 600 3
          (some 9) none
        = String.intercalate ", " (entries.map (fun entry =>
            (fun _ scale _ => toString scale) (3 : Int) entry.1 (none : Option Int)
              ++ " " ++ toString entry.2 ++ "x")) :=
  (getPageURISrcset_spec (fun _ scale _ => toString scale) thumbBook (thumbState 0) 600 3 9
    none).2.1 (by decide) (by decide) (by norm_num)

/-- C22, counterexample: from the thumbnail view with page scale `1.3`, on the
recomputed one-page table `[0.1, 2.5]`, the accepted `switchMode(1up)` hands the
reduction `0.1` to the one-page view although the member `2.5` is strictly
closer to the page scale. -/
theorem switchMode_1up_not_closest :
    ∃ q : ℚ,
      switchMode roundingHooks roundingState constMode1up ⟨false, false, false⟩
        = Except.ok (switchModeFinish roundingHooks (roundingHooks.prepareOnePageView
            { roundingHooks.onePageCalculateReductionFactors
                (switchModeEnter roundingHooks roundingState constMode1up) with
              reduce := q }) constMode1up ⟨false, false, false⟩) ∧
      q = double01 ∧
      (⟨5 / 2, Autofit.other⟩ : ReductionFactor) ∈
        (roundingHooks.onePageCalculateReductionFactors
          (switchModeEnter roundingHooks roundingState constMode1up)).onePageReductionFactors ∧
      |roundingState.pageScale - 5 / 2| < |roundingState.pageScale - q| := by
  obtain ⟨q, hq, hrun, _, _, _⟩ := switchMode_1up_run roundingHooks roundingState
    ⟨false, false, false⟩ 0 (fun _ => by decide) (fun _ => rfl) (fun _ _ => rfl) (fun _ => rfl)
    (by simp [roundingHooks])
  have hq' : quantizeReduce double13 [⟨double01, Autofit.other⟩, ⟨5 / 2, Autofit.other⟩]
      = Except.ok q := hq
  rw [quantizeReduce_rounding] at hq'
  have hqd : q = double01 := (Except.ok.inj hq').symm
  refine ⟨q, hrun, hqd, ?_, ?_⟩
  · simp [roundingHooks]
  · rw [hqd]
    exact double13_closer_to_25

/-- C22, amended: when `switchMode(1up)` is accepted, the reduction handed to the
one-page view is `quantizeReduce(pageScale, onePage.reductionFactors)` on the
table that `onePageCalculateReductionFactors` has just recomputed: it is the
`reduce` of a member of that table, no member is closer to `pageScale` in the
distance the code computes (`Math.abs(pageScale - f)` with the subtraction
rounded to a double), and the whole result of the call does not depend on the
value that `reduce` held before.  The search plugin is taken to leave `pageScale`
and `reduce` alone, the recomputation of the table to leave `reduce` alone and to
yield a table that is not empty. -/
theorem switchMode_1up_requantized (h : Hooks) (s : State) (options : SwitchModeOptions)
    (r : ℚ)
    (haccept : s.initComplete = true → s.mode ≠ ModeVal.num constMode1up)
    (hscale : ∀ t, (h.removeSearchHilites t).pageScale = t.pageScale)
    (hsearch : ∀ (t : State) (r : ℚ),
      h.removeSearchHilites { t with reduce := r } = { h.removeSearchHilites t with reduce := r })
    (hcalc : ∀ t, (h.onePageCalculateReductionFactors t).reduce = t.reduce)
    (htable : (h.onePageCalculateReductionFactors
      (switchModeEnter h s constMode1up)).onePageReductionFactors ≠ []) :
    ∃ q : ℚ,
      quantizeReduce s.pageScale
        (h.onePageCalculateReductionFactors
          (switchModeEnter h s constMode1up)).onePageReductionFactors = Except.ok q ∧
      switchMode h s constMode1up options
        = Except.ok (switchModeFinish h (h.prepareOnePageView
            { h.onePageCalculateReductionFactors (switchModeEnter h s constMode1up) with
              reduce := q }) constMode1up options) ∧
      (∃ f ∈ (h.onePageCalculateReductionFactors
          (switchModeEnter h s constMode1up)).onePageReductionFactors, f.reduce = q) ∧
      (∀ f ∈ (h.onePageCalculateReductionFactors
          (switchModeEnter h s constMode1up)).onePageReductionFactors,
        absDifference s.pageScale q ≤ absDifference s.pageScale f.reduce) ∧
      switchMode h { s with reduce := r } constMode1up options
        = switchMode h s constMode1up options :=
  switchMode_1up_run h s options r haccept hscale hsearch hcalc htable

/-- From the thumbnail view with page scale 5/4 the one-page view gets the member
of its table closest to 5/4, whether `reduce` held 7 or 5. -/
theorem switchMode_1up_requantized_witness :
    ∃ q : ℚ,
      quantizeReduce zoomedThumbState.pageScale
        (readerHooks.onePageCalculateReductionFactors
          (switchModeEnter readerHooks zoomedThumbState constMode1up)).onePageReductionFactors
        = Except.ok q ∧
      switchMode readerHooks { zoomedThumbState with reduce := 5 } constMode1up
          ⟨false, false, false⟩
        = switchMode readerHooks zoomedThumbState constMode1up ⟨false, false, false⟩ := by
  obtain ⟨q, hq, _, _, _, hsame⟩ := switchMode_1up_requantized readerHooks zoomedThumbState
    ⟨false, false, false⟩ 5 (fun _ => by decide) (fun _ => rfl) (fun _ _ => rfl) (fun _ => rfl)
    (by simp [readerHooks])
  exact ⟨q, hq, hsame⟩

/-- C23, counterexample: in the twenty-leaf example `switchMode(thumb)` is accepted
and returns, `quantizeReduce(pageScale, reductionFactors)` is 1, and `reduce` after
the call is 1000/143, which is not 1 and not the `reduce` of a member of
`reductionFactors`. -/
theorem switchMode_thumb_reduce_not_quantized :
    quantizeReduce readerState.pageScale readerState.reductionFactors = Except.ok 1 ∧
    ∃ s', switchMode readerHooks readerState constModeThumb ⟨false, false, false⟩
        = Except.ok s' ∧
      s'.reduce = 1000 / 143 ∧ s'.reduce ≠ 1 ∧
      ¬ ∃ f ∈ readerState.reductionFactors, f.reduce = s'.reduce := by
  constructor
  · exact quantizeReduce_one
  · obtain ⟨q, current, t, _, _, _, _, _, hred, hbody⟩ := switchModeBody_thumb_run readerHooks
      plainNavHooks thumbBook readerState ⟨false, false, false⟩ rfl
      (by rw [switchModeEnter_plain readerHooks readerState constModeThumb rfl]; decide)
    rw [readerState_thumbWidth] at hred
    obtain ⟨ev, hev⟩ := switchModeFinish_shape readerHooks t constModeThumb ⟨false, false, false⟩
    have hfinal : (switchModeFinish readerHooks t constModeThumb ⟨false, false, false⟩).reduce
        = 1000 / 143 := by
      rw [hev]
      show t.reduce = 1000 / 143
      rw [hred]
      norm_num [thumbBook]
    refine ⟨_, ?_, hfinal, ?_, ?_⟩
    · rw [switchMode_accepted readerHooks readerState constModeThumb _
        (fun _ => ⟨by decide, by decide⟩), hbody]
    · rw [hfinal]
      norm_num
    · rw [hfinal]
      norm_num [readerState, shortBook]

/-- C23, amended: when `switchMode(thumb)` is accepted, the reduction handed to
`prepareThumbnailView` is `quantizeReduce(pageScale, reductionFactors)`, the
`reduce` of a member of `reductionFactors`; `prepareThumbnailView` replaces it by
`getPageWidth(0) / thumbWidth` and empties `displayedRows` before it draws the
grid, and after `switchMode` returns `reduce` is `getPageWidth(0) / thumbWidth`.
The search plugin is taken to leave `pageScale` and `reductionFactors` alone, the
text selection plugin to leave `reduce` alone. -/
theorem switchMode_thumb_spec (h : Hooks) (nav : NavHooks) (book : BookModel) (s : State)
    (options : SwitchModeOptions)
    (hthumb : h.prepareThumbnailView = prepareThumbnailView nav book)
    (haccept : s.initComplete = true →
      s.mode ≠ ModeVal.num constModeThumb ∧
        canSwitchToMode s (ModeVal.num constModeThumb) = true)
    (hsearch : ∀ t, (h.removeSearchHilites t).pageScale = t.pageScale ∧
      (h.removeSearchHilites t).reductionFactors = t.reductionFactors)
    (hflip : ∀ t, (h.stopPageFlip t).reduce = t.reduce)
    (htable : s.reductionFactors ≠ []) :
    ∃ (q : ℚ) (current : Int) (grid s' : State),
      quantizeReduce s.pageScale s.reductionFactors = Except.ok q ∧
      (∃ f ∈ s.reductionFactors, f.reduce = q) ∧
      grid.displayedRows = [] ∧
      0 < grid.thumbWidth ∧
      grid.reduce = (book.getPageWidth 0 : ℚ) / (grid.thumbWidth : ℚ) ∧
      h.prepareThumbnailView { switchModeEnter h s constModeThumb with reduce := q }
        = drawLeafsThumbnail nav book grid (some current) ∧
      switchMode h s constModeThumb options = Except.ok s' ∧
      s'.reduce = (book.getPageWidth 0 : ℚ) / (grid.thumbWidth : ℚ) := by
  have hpage : (switchModeEnter h s constModeThumb).pageScale = s.pageScale :=
    switchModeEnter_field (fun t => t.pageScale) h s constModeThumb (fun t => (hsearch t).1)
      (fun _ _ _ _ _ => rfl)
  have hfactors : (switchModeEnter h s constModeThumb).reductionFactors = s.reductionFactors :=
    switchModeEnter_field (fun t => t.reductionFactors) h s constModeThumb
      (fun t => (hsearch t).2) (fun _ _ _ _ _ => rfl)
  obtain ⟨q, current, t, hq, hmem, _, hdraw, _, hred, hbody⟩ :=
    switchModeBody_thumb_run h nav book s options hthumb (by rw [hfactors]; exact htable)
  rw [hpage, hfactors] at hq
  rw [hfactors] at hmem
  obtain ⟨ev, hev⟩ := switchModeFinish_shape h t constModeThumb options
  refine ⟨q, current,
    { switchModeEnter h s constModeThumb with
      thumbWidth := getThumbnailWidth (switchModeEnter h s constModeThumb)
        (switchModeEnter h s constModeThumb).thumbColumns
      reduce := (book.getPageWidth 0 : ℚ) /
        (getThumbnailWidth (switchModeEnter h s constModeThumb)
          (switchModeEnter h s constModeThumb).thumbColumns : ℚ)
      displayedRows := [] },
    switchModeFinish h t constModeThumb options, hq, hmem, rfl,
    getThumbnailWidth_pos _ _, rfl, hdraw, ?_, ?_⟩
  · rw [switchMode_accepted h s constModeThumb options haccept, hbody]
  · rw [hev, hflip]
    exact hred

/-- In the twenty-leaf example `switchMode(thumb)` hands 1 to
`prepareThumbnailView` and returns with `reduce` equal to 1000 over the thumbnail
width. -/
theorem switchMode_thumb_spec_witness :
    ∃ (q : ℚ) (grid s' : State),
      quantizeReduce readerState.pageScale readerState.reductionFactors = Except.ok q ∧
      grid.displayedRows = [] ∧
      switchMode readerHooks readerState constModeThumb ⟨false, false, false⟩ = Except.ok s' ∧
      s'.reduce = (thumbBook.getPageWidth 0 : ℚ) / (grid.thumbWidth : ℚ) := by
  obtain ⟨q, _, grid, s', hq, _, hrows, _, _, _, hrun, hred⟩ := switchMode_thumb_spec
    readerHooks plainNavHooks thumbBook readerState ⟨false, false, false⟩ rfl
    (fun _ => ⟨by decide, by decide⟩) (fun _ => ⟨rfl, rfl⟩) (fun _ => rfl) (by decide)
  exact ⟨q, grid, s', hq, hrows, hrun, hred⟩

/-- C24, counterexample: in the twenty-leaf example after `init()`, `switchMode(7)`
is accepted and returns with `mode` 7, for which `currentIndex` throws. -/
theorem switchMode_accepts_unknown_mode :
    ∃ s, switchModeRun readerHooks readerState [(7, ⟨false, false, false⟩)] = Except.ok s ∧
      s.mode = ModeVal.num 7 ∧ ¬ KnownMode s.mode ∧
      currentIndex s = Except.error (JsError.unimplementedMode (ModeVal.num 7)) := by
  have hbody := switchModeBody_2up readerHooks readerState 7 ⟨false, false, false⟩
    (by decide) (by decide)
  have hmode := switchModeBody_field (fun t => t.mode) readerHooks
    (readerHooks_keeps _ (fun _ _ => rfl) (fun _ _ _ _ _ _ _ _ => rfl)) (fun _ _ => rfl)
    (fun _ _ => rfl) readerState _ 7 ⟨false, false, false⟩ hbody
  have hmode7 : (switchModeFinish readerHooks
      (readerHooks.twoPageCenterView (readerHooks.prepareTwoPageView
        (readerHooks.twoPageCalculateReductionFactors
          (if (⟨false, false, false⟩ : SwitchModeOptions).init = true ∨
              ¬ (⟨false, false, false⟩ : SwitchModeOptions).pageFound = true
            then readerHooks.setSpreadIndices (switchModeEnter readerHooks readerState 7)
            else switchModeEnter readerHooks readerState 7)))) 7 ⟨false, false, false⟩).mode
      = ModeVal.num 7 := by
    have hmode' : (switchModeFinish readerHooks
        (readerHooks.twoPageCenterView (readerHooks.prepareTwoPageView
          (readerHooks.twoPageCalculateReductionFactors
            (if (⟨false, false, false⟩ : SwitchModeOptions).init = true ∨
                ¬ (⟨false, false, false⟩ : SwitchModeOptions).pageFound = true
              then readerHooks.setSpreadIndices (switchModeEnter readerHooks readerState 7)
              else switchModeEnter readerHooks readerState 7)))) 7 ⟨false, false, false⟩).mode
        = (switchModeEnter readerHooks readerState 7).mode := hmode
    rw [hmode', switchModeEnter_shape]
  refine ⟨_, ?_, hmode7, ?_, ?_⟩
  · simp only [switchModeRun]
    rw [switchMode_accepted readerHooks readerState 7 _ (fun _ => ⟨by decide, by decide⟩),
      hbody]
  · rw [hmode7]
    unfold KnownMode
    decide
  · unfold currentIndex
    rw [hmode7]
    rfl

/-- C24, amended: `init()` assigns `mode` the result of `getInitialMode`, which is
one of the three known values for params whose `mode` is absent or known; and
from a state whose mode is one of the three known values every sequence of
`switchMode` calls whose mode arguments are among `1up`, `2up` and `thumb` leaves
a mode that is one of the three known values, so that `currentIndex` does not
throw.  The methods that `switchMode` calls are taken not to assign `mode`. -/
theorem switchModeRun_mode_known (h : Hooks) (hkeep : h.Keeps (fun t => t.mode))
    (calls : List (Nat × SwitchModeOptions)) (s0 s : State) (hinit : KnownMode s0.mode)
    (hargs : ∀ call ∈ calls,
      call.1 = constMode1up ∨ call.1 = constMode2up ∨ call.1 = constModeThumb)
    (hrun : switchModeRun h s0 calls = Except.ok s) :
    (∀ (t : State) (params : Params),
      params.mode = ModeVal.undefined ∨ KnownMode params.mode →
        KnownMode (getInitialMode t params)) ∧
    KnownMode s.mode ∧ ∃ i, currentIndex s = Except.ok i := by
  refine ⟨getInitialMode_known, ?_⟩
  have hknown : KnownMode s.mode := by
    induction calls generalizing s0 with
    | nil =>
      simp only [switchModeRun, Except.ok.injEq] at hrun
      rw [← hrun]
      exact hinit
    | cons call rest ih =>
      simp only [switchModeRun] at hrun
      cases hstep : switchMode h s0 call.1 call.2 with
      | error e => rw [hstep] at hrun; cases hrun
      | ok s1 =>
        rw [hstep] at hrun
        refine ih s1 ?_ (fun c hc => hargs c (List.mem_cons_of_mem _ hc)) hrun
        rcases switchMode_mode h hkeep s0 s1 call.1 call.2 hstep with hm | hm
        · rw [hm]
          exact hinit
        · rw [hm]
          rcases hargs call (List.mem_cons_self _ _) with hc | hc | hc
          · exact Or.inl (by rw [hc])
          · exact Or.inr (Or.inl (by rw [hc]))
          · exact Or.inr (Or.inr (by rw [hc]))
  exact ⟨hknown, currentIndex_known s hknown⟩

/-- The twenty-leaf example switched to the thumbnail view and then to the two-page
view ends in a known mode. -/
theorem switchModeRun_mode_known_witness :
    ∃ s, switchModeRun readerHooks readerState
        [(constModeThumb, ⟨false, false, false⟩), (constMode2up, ⟨false, false, false⟩)]
          = Except.ok s ∧
      KnownMode s.mode ∧ ∃ i, currentIndex s = Except.ok i := by
  obtain ⟨s, hs⟩ := readerRun_ok
  exact ⟨s, hs, (switchModeRun_mode_known readerHooks
    (readerHooks_keeps _ (fun _ _ => rfl) (fun _ _ _ _ _ _ _ _ => rfl)) _ readerState s
    (Or.inl rfl) (by decide) hs).2⟩

/-- C27: `getPrevReadMode(thumb)` returns `undefined` when `prevReadMode` is `1up`;
in the twenty-leaf example started in thumbnail mode, the `switchMode(thumb)` of
`init()` sets `prevReadMode` to `1up`, and the accepted `switchMode(2up)` that
follows leaves `prevReadMode` `undefined`. -/
theorem getPrevReadMode_undefined_after_thumb :
    getPrevReadMode { readerState with prevReadMode := ModeVal.num constMode1up }
      (ModeVal.num constModeThumb) = ModeVal.undefined ∧
    ∃ s1 s2,
      switchMode readerHooks initThumbState constModeThumb ⟨true, true, false⟩ = Except.ok s1 ∧
      s1.prevReadMode = ModeVal.num constMode1up ∧
      switchMode readerHooks { s1 with initComplete := true } constMode2up
        ⟨false, false, false⟩ = Except.ok s2 ∧
      s2.prevReadMode = ModeVal.undefined := by
  refine ⟨by decide, ?_⟩
  obtain ⟨q, current, t, _, _, _, _, _, _, hbody⟩ := switchModeBody_thumb_run readerHooks
    plainNavHooks thumbBook initThumbState ⟨true, true, false⟩ rfl
    (by rw [switchModeEnter_plain readerHooks initThumbState constModeThumb rfl]; decide)
  have hprev1 : (switchModeFinish readerHooks t constModeThumb ⟨true, true, false⟩).prevReadMode
      = ModeVal.num constMode1up := by
    have hf : (switchModeFinish readerHooks t constModeThumb ⟨true, true, false⟩).prevReadMode
        = (switchModeEnter readerHooks initThumbState constModeThumb).prevReadMode :=
      switchModeBody_field (fun t => t.prevReadMode) readerHooks
        (readerHooks_keeps _ (fun _ _ => rfl) (fun _ _ _ _ _ _ _ _ => rfl)) (fun _ _ => rfl)
        (fun _ _ => rfl) initThumbState _ constModeThumb ⟨true, true, false⟩ hbody
    rw [hf]
    rw [switchModeEnter_plain readerHooks initThumbState constModeThumb rfl]
    decide
  have hmode1 : (switchModeFinish readerHooks t constModeThumb ⟨true, true, false⟩).mode
      = ModeVal.num constModeThumb := by
    have hf : (switchModeFinish readerHooks t constModeThumb ⟨true, true, false⟩).mode
        = (switchModeEnter readerHooks initThumbState constModeThumb).mode :=
      switchModeBody_field (fun t => t.mode) readerHooks
        (readerHooks_keeps _ (fun _ _ => rfl) (fun _ _ _ _ _ _ _ _ => rfl)) (fun _ _ => rfl)
        (fun _ _ => rfl) initThumbState _ constModeThumb ⟨true, true, false⟩ hbody
    rw [hf]
    rw [switchModeEnter_shape]
  have hleafs1 : (switchModeFinish readerHooks t constModeThumb ⟨true, true, false⟩).numLeafs
      = 20 := by
    have hf : (switchModeFinish readerHooks t constModeThumb ⟨true, true, false⟩).numLeafs
        = (switchModeEnter readerHooks initThumbState constModeThumb).numLeafs :=
      switchModeBody_field (fun t => t.numLeafs) readerHooks
        (readerHooks_keeps _ (fun _ _ => rfl) (fun _ _ _ _ _ _ _ _ => rfl)) (fun _ _ => rfl)
        (fun _ _ => rfl) initThumbState _ constModeThumb ⟨true, true, false⟩ hbody
    rw [hf]
    rw [switchModeEnter_plain readerHooks initThumbState constModeThumb rfl]
    rfl
  obtain ⟨s2, hbody2⟩ : ∃ s2, switchModeBody readerHooks
      { switchModeFinish readerHooks t constModeThumb ⟨true, true, false⟩ with
        initComplete := true } constMode2up ⟨false, false, false⟩ = Except.ok s2 :=
    ⟨_, switchModeBody_2up readerHooks _ constMode2up ⟨false, false, false⟩ (by decide)
      (by decide)⟩
  have hprev2 : s2.prevReadMode
      = (switchModeEnter readerHooks
          { switchModeFinish readerHooks t constModeThumb ⟨true, true, false⟩ with
            initComplete := true } constMode2up).prevReadMode :=
    switchModeBody_field (fun t => t.prevReadMode) readerHooks
      (readerHooks_keeps _ (fun _ _ => rfl) (fun _ _ _ _ _ _ _ _ => rfl)) (fun _ _ => rfl)
      (fun _ _ => rfl) _ s2 constMode2up ⟨false, false, false⟩ hbody2
  refine ⟨switchModeFinish readerHooks t constModeThumb ⟨true, true, false⟩, s2, ?_, hprev1,
    ?_, ?_⟩
  · rw [switchMode_accepted readerHooks initThumbState constModeThumb _
      (fun hc => absurd hc (by decide)), hbody]
  · rw [switchMode_accepted readerHooks _ constMode2up _ (fun _ => ⟨?_, ?_⟩), hbody2]
    · show (switchModeFinish readerHooks t constModeThumb ⟨true, true, false⟩).mode ≠ _
      rw [hmode1]
      decide
    · unfold canSwitchToMode
      show (if _ then (if (switchModeFinish readerHooks t constModeThumb
        ⟨true, true, false⟩).numLeafs < 2 then false else true) else true) = true
      rw [hleafs1]
      decide
  · refine hprev2.trans ?_
    rw [switchModeEnter_shape]
    show getPrevReadMode _ _ = ModeVal.undefined
    unfold getPrevReadMode
    split_ifs with hsearch h12 hnull h12 hnull
    all_goals first
      | rfl
      | (exfalso
         first
         | (change (switchModeFinish readerHooks t constModeThumb ⟨true, true, false⟩).mode = _ ∨
              (switchModeFinish readerHooks t constModeThumb ⟨true, true, false⟩).mode = _
              at h12
            rw [hmode1] at h12
            revert h12
            decide)
         | (change (switchModeFinish readerHooks t constModeThumb
              ⟨true, true, false⟩).prevReadMode = _ at hnull
            rw [hprev1] at hnull
            revert hnull
            decide))

/-- C26: in a book of six pages of which the second is twice as high as the
others, laid out two to a row, `drawLeafsThumbnail` seeking page 2 computes
`seekTop` 160, while the row in which it places page 2 has top 310, the sum of
padding and final height of the row before it. -/
theorem drawLeafsThumbnail_seekTop_not_row_top :
    (thumbnailLeafMap (heightsBook [1500, 3000, 1500, 1500, 1500, 1500]) narrowState
      (some 2)).seekTop = some 160 ∧
    ∃ view row,
      thumbnailView plainNavHooks (heightsBook [1500, 3000, 1500, 1500, 1500, 1500])
        narrowState (some 2) = Except.ok view ∧
      view.leafMap.row 1 = some row ∧
      row.leafs.map (fun leaf => leaf.num) = [2, 3] ∧
      row.top = 310 ∧
      row.top = rowTop narrowState.thumbPadding
        [⟨[⟨0, 0⟩, ⟨1, 110⟩], 300, 0⟩, ⟨[⟨2, 0⟩, ⟨3, 110⟩], 150, 0⟩,
          ⟨[⟨4, 0⟩, ⟨5, 110⟩], 150, 0⟩] 1 := by
  refine ⟨tallSecond_seekTop, ?_⟩
  obtain ⟨view, hv, hmap⟩ := thumbnailView_of_leafMap plainNavHooks
    (heightsBook [1500, 3000, 1500, 1500, 1500, 1500]) narrowState (some 2) _ tallSecond_leafMap
  refine ⟨view, ⟨[⟨2, 0⟩, ⟨3, 110⟩], 150, 310⟩, hv, ?_, rfl, rfl, ?_⟩
  · rw [hmap]
    decide
  · decide

/-- C29: in a book of six pages of which the third and fourth are twice as high as
the others, laid out two to a row, the row loop of `jumpToIndex(4)` ends with
`leafTop` 320, while `drawLeafsThumbnail` records top 470 for the row in which it
places page 4. -/
theorem jumpToIndex_leafTop_not_row_top :
    jumpThumbLeafTop (heightsBook [1500, 1500, 3000, 3000, 1500, 1500])
      (narrowState.container.scrollWidth - 20) narrowState.thumbWidth narrowState.thumbPadding 4
      = 320 ∧
    ∃ view row,
      thumbnailView plainNavHooks (heightsBook [1500, 1500, 3000, 3000, 1500, 1500])
        narrowState none = Except.ok view ∧
      view.leafMap.row 2 = some row ∧
      row.leafs.map (fun leaf => leaf.num) = [4, 5] ∧
      row.top = 470 := by
  refine ⟨tallMiddle_jumpTop, ?_⟩
  obtain ⟨view, hv, hmap⟩ := thumbnailView_of_leafMap plainNavHooks
    (heightsBook [1500, 1500, 3000, 3000, 1500, 1500]) narrowState none _ tallMiddle_leafMap
  refine ⟨view, ⟨[⟨4, 0⟩, ⟨5, 110⟩], 150, 470⟩, hv, ?_, rfl, rfl⟩
  rw [hmap]
  decide

end BookReader
